import Mathlib

/-!
# FaultTolerantKeyValueStore: a shallow embedding of `MP2Node.cpp`

The development follows the source file `src/MP2Node.cpp`.

* `std::string` is `List Char` (`Str`); `int` and `size_t` values are `Int` / `Nat`
  (the conversion of an `int` expression to the unsigned 64-bit `size_t` is explicit, `toSizeT`).
* A C++ exception (`std::out_of_range` of `vector::at`, `std::invalid_argument` of `stoi`)
  is the result `none`.
* The collaborators whose sources are not part of `MP2Node.cpp` (`HashTable`, `Entry`,
  `Message`, `Node`, `Log`, `EmulNet`, `Params`) are modelled from the specification; the
  definitions concerned say so in their doc comment.
-/

namespace MP2Node

/-! ## Strings and integers -/

/-- A `std::string`, as the list of its characters. -/
abbrev Str := List Char

/-- The decimal digit character of a number below ten. -/
def digitChar (d : Nat) : Char := Char.ofNat (48 + d)

/-- Decimal digits of a natural number, most significant first (`fuel` bounds the recursion). -/
def natToStrAux : Nat → Nat → Str
  | 0, _ => []
  | fuel + 1, n =>
    if n < 10 then [digitChar n] else natToStrAux fuel (n / 10) ++ [digitChar (n % 10)]

/-- Decimal representation of a natural number. -/
def natToStr (n : Nat) : Str := natToStrAux (n + 1) n

/-- The function `std::to_string(int)`: an optional minus sign and the decimal digits. -/
def to_string (x : Int) : Str :=
  if x < 0 then '-' :: natToStr x.natAbs else natToStr x.natAbs

/-- Value of a decimal digit character. -/
def digitVal (c : Char) : Nat := c.toNat - 48

/-- Reads the leading decimal digits of a string, continuing the number `acc`. -/
def parseDigits : Nat → Str → Nat
  | acc, [] => acc
  | acc, c :: cs => if c.isDigit then parseDigits (acc * 10 + digitVal c) cs else acc

/-- The digits part of `std::stoi`: at least one digit is required. -/
def stoiDigits : Str → Option Int
  | [] => none
  | c :: cs => if c.isDigit then some (parseDigits 0 (c :: cs) : Nat) else none

/-- The function `isspace` of the C locale: space, `\t`, `\n`, `\v`, `\f`, `\r`. -/
def isspace (c : Char) : Bool :=
  c == ' ' || c == '\t' || c == '\n' || c == '\x0b' || c == '\x0c' || c == '\r'

/-- The function `std::stoi(string)`: leading white space is skipped, an optional sign is read,
then the longest run of digits; `none` is `std::invalid_argument`. The range of `int` is not
modelled. -/
def stoi (s : Str) : Option Int :=
  match s.dropWhile isspace with
  | '-' :: r => (stoiDigits r).map (fun v => -v)
  | '+' :: r => stoiDigits r
  | r => stoiDigits r

/-- The splitting loop of `updateRing` (lines 76-84) and `checkMessages` (lines 379-387,
437-445): the fields of `val` between the successive leftmost occurrences of `"::"`, found by
`val.find("::", start)`, followed by the rest `val.substr(start)`. -/
def splitFields : Str → List Str
  | [] => [[]]
  | ':' :: ':' :: rest => [] :: splitFields rest
  | c :: rest =>
    match splitFields rest with
    | f :: fs => (c :: f) :: fs
    | [] => [[c]]

/-- The separator `"::"`. -/
def sep : Str := [':', ':']

/-! ## Peers and the ring -/

/-- Modelled from the spec: class `Address` (declared outside `MP2Node.cpp`), a 4-byte id
followed by a 2-byte port. -/
structure Address where
  id : Nat
  port : Nat
  deriving DecidableEq

/-- Modelled from the spec: class `Node` (declared outside `MP2Node.cpp`), a peer address with
its hash code on the ring. -/
structure Node where
  nodeAddress : Address
  nodeHashCode : Nat
  deriving DecidableEq

/-- The method `MP2Node::hashFunction`: `std::hash<string>` (the parameter `hashFunc`) reduced
modulo the constant `RING_SIZE`. -/
def hashFunction (hashFunc : Str → Nat) (RING_SIZE : Nat) (key : Str) : Nat :=
  hashFunc key % RING_SIZE

/-- The scan loop of `MP2Node::findNodes` (lines 495-503), started at index `i` with `rest` the
peers `ring[i], ring[i+1], ...` still to visit: stops at the first peer with `pos <= hash code`. -/
def findNodesScan (pos : Nat) (ring : List Node) : List Node → Nat → Option (List Node)
  | [], _ => some []
  | addr :: rest, i =>
    if pos ≤ addr.nodeHashCode then do
      let n1 ← ring[(i + 1) % ring.length]?
      let n2 ← ring[(i + 2) % ring.length]?
      some [addr, n1, n2]
    else findNodesScan pos ring rest (i + 1)

/-- The method `MP2Node::findNodes`. -/
def findNodes (hashFunc : Str → Nat) (RING_SIZE : Nat) (ring : List Node) (key : Str) :
    Option (List Node) :=
  let pos := hashFunction hashFunc RING_SIZE key
  if ring.length ≥ 3 then do
    let first ← ring[0]?
    let last ← ring[ring.length - 1]?
    if pos ≤ first.nodeHashCode ∨ pos > last.nodeHashCode then do
      let n1 ← ring[1]?
      let n2 ← ring[2]?
      some [first, n1, n2]
    else findNodesScan pos ring (ring.drop 1) 1
  else some []

/-- A ring sorted strictly ascending by hash code. -/
def StrictRing (ring : List Node) : Prop :=
  ring.Pairwise (fun a b => a.nodeHashCode < b.nodeHashCode)

instance (ring : List Node) : Decidable (StrictRing ring) := by
  unfold StrictRing; infer_instance

/-! ## The hash table (local store and transaction table) -/

/-- Modelled from the spec: class `HashTable` (declared outside `MP2Node.cpp`), a
`std::map<string, string>`; the entries are kept in ascending key order, the order in which the
map is traversed. -/
structure HashTable where
  hashTable : List (Str × Str)
  deriving DecidableEq

/-- Position of a new key in the ascending key order of a `std::map`. -/
def insertSorted (key value : Str) : List (Str × Str) → List (Str × Str)
  | [] => [(key, value)]
  | (k, v) :: rest =>
    if key < k then (key, value) :: (k, v) :: rest else (k, v) :: insertSorted key value rest

/-- Whether the table holds a record under `key`. -/
def HashTable.contains (t : HashTable) (key : Str) : Bool :=
  t.hashTable.any (fun p => p.1 == key)

/-- Modelled from the spec: `HashTable::read`, "returns serialized entry or empty". -/
def HashTable.read (t : HashTable) (key : Str) : Str :=
  match t.hashTable.find? (fun p => p.1 == key) with
  | some p => p.2
  | none => []

/-- Modelled from the spec: `HashTable::create`, "fails if k exists". -/
def HashTable.create (t : HashTable) (key value : Str) : Bool × HashTable :=
  if t.contains key then (false, t) else (true, ⟨insertSorted key value t.hashTable⟩)

/-- Modelled from the spec: `HashTable::update`, "fails if k absent; otherwise overwrites". -/
def HashTable.update (t : HashTable) (key value : Str) : Bool × HashTable :=
  if t.contains key then
    (true, ⟨t.hashTable.map (fun p => if p.1 == key then (p.1, value) else p)⟩)
  else (false, t)

/-- Modelled from the spec: `HashTable::deleteKey`, "fails if absent". -/
def HashTable.deleteKey (t : HashTable) (key : Str) : Bool × HashTable :=
  if t.contains key then (true, ⟨t.hashTable.filter (fun p => !(p.1 == key))⟩) else (false, t)

/-- Modelled from the spec: `HashTable::currentSize`. -/
def HashTable.currentSize (t : HashTable) : Nat := t.hashTable.length

/-! ## Entries, messages, log calls -/

/-- The enumeration `ReplicaType`. -/
inductive ReplicaType where
  | PRIMARY
  | SECONDARY
  | TERTIARY
  deriving DecidableEq

/-- The cast `ReplicaType(distance(replicas.begin(), it))` of the client calls, for the
positions 0, 1, 2 of a replica list. -/
def ReplicaType.ofIndex : Nat → ReplicaType
  | 0 => .PRIMARY
  | 1 => .SECONDARY
  | _ => .TERTIARY

/-- The digit that stands for a replica type in a serialised entry. -/
def ReplicaType.toChar : ReplicaType → Char
  | .PRIMARY => '0'
  | .SECONDARY => '1'
  | .TERTIARY => '2'

/-- Reads a replica type back from its digit. -/
def ReplicaType.ofChar (c : Char) : Option ReplicaType :=
  if c = '0' then some .PRIMARY
  else if c = '1' then some .SECONDARY
  else if c = '2' then some .TERTIARY
  else none

/-- Modelled from the spec: class `Entry` (declared outside `MP2Node.cpp`): "the value string, a
write timestamp, and a replica role tag". -/
structure Entry where
  value : Str
  timestamp : Int
  replica : ReplicaType
  deriving DecidableEq

/-- Modelled from the spec: `Entry::convertToString`; the spec leaves the format open ("any
format that can be round-tripped is acceptable"): time stamp, replica digit and value, separated
by single colons. -/
def Entry.convertToString (en : Entry) : Str :=
  to_string en.timestamp ++ ':' :: en.replica.toChar :: ':' :: en.value

/-- Modelled from the spec: the constructor `Entry(string)`, the inverse of
`Entry::convertToString`; `none` when the string is no serialised entry. -/
def Entry.fromString (s : Str) : Option Entry :=
  match s.dropWhile (fun c => c != ':') with
  | ':' :: r :: ':' :: v => do
    let t ← stoi (s.takeWhile (fun c => c != ':'))
    let rep ← ReplicaType.ofChar r
    some ⟨v, t, rep⟩
  | _ => none

/-- The enumeration `MessageType`. -/
inductive MessageType where
  | CREATE
  | READ
  | UPDATE
  | DELETE
  | REPLY
  | READREPLY
  deriving DecidableEq

/-- Modelled from the spec: class `Message` (declared outside `MP2Node.cpp`); the serialised
form sent over the network is not modelled, a message is the record of its fields. -/
structure Message where
  type : MessageType
  replica : ReplicaType
  key : Str
  value : Str
  fromAddr : Address
  transID : Int
  success : Bool
  deriving DecidableEq

/-- The constructor `Message(transID, fromAddr, type, key, value, replica)`. -/
def Message.ofKeyValue (transID : Int) (fromAddr : Address) (type : MessageType)
    (key value : Str) (replica : ReplicaType) : Message :=
  ⟨type, replica, key, value, fromAddr, transID, false⟩

/-- The constructor `Message(transID, fromAddr, type, key)`. -/
def Message.ofKey (transID : Int) (fromAddr : Address) (type : MessageType) (key : Str) :
    Message :=
  ⟨type, .PRIMARY, key, [], fromAddr, transID, false⟩

/-- The constructor `Message(transID, fromAddr, type, success)`. -/
def Message.ofSuccess (transID : Int) (fromAddr : Address) (type : MessageType)
    (success : Bool) : Message :=
  ⟨type, .PRIMARY, [], [], fromAddr, transID, success⟩

/-- The constructor `Message(transID, fromAddr, value)` of a READREPLY. -/
def Message.ofValue (transID : Int) (fromAddr : Address) (value : Str) : Message :=
  ⟨.READREPLY, .PRIMARY, [], value, fromAddr, transID, false⟩

/-- Modelled from the spec: the logging sink (class `Log`, declared outside `MP2Node.cpp`): one
constructor per operation, with the arguments of the call. -/
inductive LogCall where
  | logCreateSuccess (addr : Address) (isCoordinator : Bool) (transID : Int) (key value : Str)
  | logCreateFail (addr : Address) (isCoordinator : Bool) (transID : Int) (key value : Str)
  | logUpdateSuccess (addr : Address) (isCoordinator : Bool) (transID : Int) (key value : Str)
  | logUpdateFail (addr : Address) (isCoordinator : Bool) (transID : Int) (key value : Str)
  | logDeleteSuccess (addr : Address) (isCoordinator : Bool) (transID : Int) (key : Str)
  | logDeleteFail (addr : Address) (isCoordinator : Bool) (transID : Int) (key : Str)
  | logReadSuccess (addr : Address) (isCoordinator : Bool) (transID : Int) (key value : Str)
  | logReadFail (addr : Address) (isCoordinator : Bool) (transID : Int) (key : Str)
  deriving DecidableEq

/-! ## The node -/

/-- The state of one `MP2Node`: its members, the global counter `g_transID`, and the effects it
has on its collaborators (the calls made on the log and the messages handed to
`emulNet->ENsend`, each with its destination). -/
structure NodeState where
  addr : Address
  ring : List Node
  ringSize : Nat
  ht : HashTable
  statusHT : HashTable
  hasMyReplicas : List Node
  haveReplicasOf : List Node
  g_transID : Int
  log : List LogCall
  sent : List (Address × Message)
  deriving DecidableEq

/-- The string `"CREATE"`. -/
def strCREATE : Str := ['C', 'R', 'E', 'A', 'T', 'E']

/-- The string `"READ"`. -/
def strREAD : Str := ['R', 'E', 'A', 'D']

/-- The string `"UPDATE"`. -/
def strUPDATE : Str := ['U', 'P', 'D', 'A', 'T', 'E']

/-- The string `"DELETE"`. -/
def strDELETE : Str := ['D', 'E', 'L', 'E', 'T', 'E']

/-- The value of a transaction record,
`operationtype::timestamp::successcount::failurecount::key::value`, as the client calls and the
reply handlers concatenate it. -/
def txRecord (kind ts sc fc key value : Str) : Str :=
  kind ++ sep ++ ts ++ sep ++ sc ++ sep ++ fc ++ sep ++ key ++ sep ++ value

/-- A call on the log. -/
def NodeState.logCall (st : NodeState) (c : LogCall) : NodeState :=
  { st with log := st.log ++ [c] }

/-- The call `emulNet->ENsend(&memberNode->addr, dest, mesg->toString())`. -/
def NodeState.ENsend (st : NodeState) (dest : Address) (mesg : Message) : NodeState :=
  { st with sent := st.sent ++ [(dest, mesg)] }

/-- The call `statusHT->deleteKey(key)`. -/
def NodeState.deleteStatus (st : NodeState) (key : Str) : NodeState :=
  { st with statusHT := (st.statusHT.deleteKey key).2 }

/-- The fan-out loop of the client calls: one message per replica, in replica order, built by
`mk` from the position of the replica. -/
def sendToReplicas (st : NodeState) (mk : Nat → Message) : List Node → Nat → NodeState
  | [], _ => st
  | nd :: rest, i => sendToReplicas (st.ENsend nd.nodeAddress (mk i)) mk rest (i + 1)

/-- The method `MP2Node::clientCreate`. -/
def clientCreate (hashFunc : Str → Nat) (RING_SIZE : Nat) (now : Int) (st : NodeState)
    (key value : Str) : Option NodeState := do
  let st := { st with g_transID := st.g_transID + 1 }
  let replicas ← findNodes hashFunc RING_SIZE st.ring key
  let st := sendToReplicas st
    (fun i => Message.ofKeyValue st.g_transID st.addr .CREATE key value (ReplicaType.ofIndex i))
    replicas 0
  some { st with statusHT := (st.statusHT.create (to_string st.g_transID)
    (txRecord strCREATE (to_string now) (to_string 0) (to_string 0) key value)).2 }

/-- The method `MP2Node::clientRead`. -/
def clientRead (hashFunc : Str → Nat) (RING_SIZE : Nat) (now : Int) (st : NodeState)
    (key : Str) : Option NodeState := do
  let st := { st with g_transID := st.g_transID + 1 }
  let replicas ← findNodes hashFunc RING_SIZE st.ring key
  let st := sendToReplicas st (fun _ => Message.ofKey st.g_transID st.addr .READ key) replicas 0
  some { st with statusHT := (st.statusHT.create (to_string st.g_transID)
    (txRecord strREAD (to_string now) (to_string 0) (to_string 0) key [])).2 }

/-- The method `MP2Node::clientUpdate`. -/
def clientUpdate (hashFunc : Str → Nat) (RING_SIZE : Nat) (now : Int) (st : NodeState)
    (key value : Str) : Option NodeState := do
  let st := { st with g_transID := st.g_transID + 1 }
  let replicas ← findNodes hashFunc RING_SIZE st.ring key
  let st := sendToReplicas st
    (fun i => Message.ofKeyValue st.g_transID st.addr .UPDATE key value (ReplicaType.ofIndex i))
    replicas 0
  some { st with statusHT := (st.statusHT.create (to_string st.g_transID)
    (txRecord strUPDATE (to_string now) (to_string 0) (to_string 0) key value)).2 }

/-- The method `MP2Node::clientDelete`. -/
def clientDelete (hashFunc : Str → Nat) (RING_SIZE : Nat) (now : Int) (st : NodeState)
    (key : Str) : Option NodeState := do
  let st := { st with g_transID := st.g_transID + 1 }
  let replicas ← findNodes hashFunc RING_SIZE st.ring key
  let st := sendToReplicas st (fun _ => Message.ofKey st.g_transID st.addr .DELETE key) replicas 0
  some { st with statusHT := (st.statusHT.create (to_string st.g_transID)
    (txRecord strDELETE (to_string now) (to_string 0) (to_string 0) key [])).2 }

/-- The method `MP2Node::createKeyValue`: the new state and the returned result. -/
def createKeyValue (now : Int) (st : NodeState) (key value : Str) (replica : ReplicaType)
    (transID : Int) (coodAddr : Address) : NodeState × Bool :=
  let en : Entry := ⟨value, now, replica⟩
  let r := st.ht.create key en.convertToString
  let result := r.1
  let st := { st with ht := r.2 }
  if transID ≠ -1 then
    let st :=
      if result then st.logCall (.logCreateSuccess st.addr false transID key value)
      else st.logCall (.logCreateFail st.addr false transID key value)
    (st.ENsend coodAddr (Message.ofSuccess transID st.addr .REPLY result), result)
  else (st, result)

/-- The method `MP2Node::readKey`: the new state and the returned string. -/
def readKey (st : NodeState) (key : Str) (transID : Int) (coodAddr : Address) :
    Option (NodeState × Str) := do
  let result := st.ht.read key
  let st ←
    if result ≠ [] then do
      let en ← Entry.fromString result
      some (st.logCall (.logReadSuccess st.addr false transID key en.value))
    else some (st.logCall (.logReadFail st.addr false transID key))
  some (st.ENsend coodAddr (Message.ofValue transID st.addr result), result)

/-- The method `MP2Node::updateKeyValue`: the new state and the returned result. -/
def updateKeyValue (now : Int) (st : NodeState) (key value : Str) (replica : ReplicaType)
    (transID : Int) (coodAddr : Address) : NodeState × Bool :=
  let en : Entry := ⟨value, now, replica⟩
  let r := st.ht.update key en.convertToString
  let result := r.1
  let st := { st with ht := r.2 }
  let st :=
    if result then st.logCall (.logUpdateSuccess st.addr false transID key value)
    else st.logCall (.logUpdateFail st.addr false transID key value)
  (st.ENsend coodAddr (Message.ofSuccess transID st.addr .REPLY result), result)

/-- The method `MP2Node::deletekey`: the new state and the returned result. -/
def deletekey (st : NodeState) (key : Str) (transID : Int) (coodAddr : Address) :
    NodeState × Bool :=
  let r := st.ht.deleteKey key
  let result := r.1
  let st := { st with ht := r.2 }
  let st :=
    if result then st.logCall (.logDeleteSuccess st.addr false transID key)
    else st.logCall (.logDeleteFail st.addr false transID key)
  (st.ENsend coodAddr (Message.ofSuccess transID st.addr .REPLY result), result)

/-! ## The message handler -/

/-- Lines 391-429 of `MP2Node::checkMessages`, `case REPLY`, once the record is split: `t0`,
`t1`, `t4`, `t5` are `tuple.at(0)`, `tuple.at(1)`, `tuple.at(4)`, `tuple.at(5)` and
`successCount`, `failureCount` the counts read from `tuple.at(2)` and `tuple.at(3)`. -/
def replyOutcome (st : NodeState) (mesg : Message) (t0 t1 : Str)
    (successCount failureCount : Int) (t4 t5 : Str) : NodeState :=
  let tid := to_string mesg.transID
  let successCount := if mesg.success then successCount + 1 else successCount
  let failureCount := if mesg.success then failureCount else failureCount + 1
  let st := { st with statusHT := (st.statusHT.update tid
    (txRecord t0 t1 (to_string successCount) (to_string failureCount) t4 t5)).2 }
  if t0 = strCREATE then
    if successCount = 2 then
      (st.logCall (.logCreateSuccess st.addr true mesg.transID t4 t5)).deleteStatus tid
    else if failureCount = 2 then
      (st.logCall (.logCreateFail st.addr true mesg.transID t4 t5)).deleteStatus tid
    else st
  else if t0 = strDELETE then
    if successCount = 2 then
      (st.logCall (.logDeleteSuccess st.addr true mesg.transID t4)).deleteStatus tid
    else if failureCount = 2 then
      (st.logCall (.logDeleteFail st.addr true mesg.transID t4)).deleteStatus tid
    else st
  else if t0 = strUPDATE then
    if successCount = 2 then
      (st.logCall (.logUpdateSuccess st.addr true mesg.transID t4 t5)).deleteStatus tid
    else if failureCount = 2 then
      (st.logCall (.logUpdateFail st.addr true mesg.transID t4 t5)).deleteStatus tid
    else st
  else st

/-- The `case REPLY` of `MP2Node::checkMessages` (lines 374-431). -/
def handleReply (st : NodeState) (mesg : Message) : Option NodeState :=
  let val := st.statusHT.read (to_string mesg.transID)
  if val ≠ [] then do
    let tuple := splitFields val
    let successCount ← (tuple[2]?).bind stoi
    let failureCount ← (tuple[3]?).bind stoi
    let t0 ← tuple[0]?
    let t1 ← tuple[1]?
    let t4 ← tuple[4]?
    let t5 ← tuple[5]?
    some (replyOutcome st mesg t0 t1 successCount failureCount t4 t5)
  else some st

/-- Lines 449-459 of `MP2Node::checkMessages`, `case READREPLY`: the counts after the reply and
the state with the rewritten record. -/
def readReplyUpdate (st : NodeState) (mesg : Message) (tuple : List Str)
    (successCount failureCount : Int) : Option (Int × Int × NodeState) :=
  let tid := to_string mesg.transID
  if mesg.value ≠ [] then do
    let successCount := successCount + 1
    let en ← Entry.fromString mesg.value
    let t0 ← tuple[0]?
    let t1 ← tuple[1]?
    let t4 ← tuple[4]?
    some (successCount, failureCount, { st with statusHT := (st.statusHT.update tid
      (txRecord t0 t1 (to_string successCount) (to_string failureCount) t4 en.value)).2 })
  else do
    let failureCount := failureCount + 1
    let t0 ← tuple[0]?
    let t1 ← tuple[1]?
    let t4 ← tuple[4]?
    let t5 ← tuple[5]?
    some (successCount, failureCount, { st with statusHT := (st.statusHT.update tid
      (txRecord t0 t1 (to_string successCount) (to_string failureCount) t4 t5)).2 })

/-- Lines 461-470 of `MP2Node::checkMessages`, `case READREPLY`: the log call and the removal of
the record once a count is 2. -/
def readReplyQuorum (st : NodeState) (mesg : Message) (tuple : List Str)
    (successCount failureCount : Int) : Option NodeState :=
  let tid := to_string mesg.transID
  if successCount = 2 then do
    let en ← Entry.fromString mesg.value
    let t4 ← tuple[4]?
    some ((st.logCall (.logReadSuccess st.addr true mesg.transID t4 en.value)).deleteStatus tid)
  else if failureCount = 2 then do
    let t4 ← tuple[4]?
    some ((st.logCall (.logReadFail st.addr true mesg.transID t4)).deleteStatus tid)
  else some st

/-- The `case READREPLY` of `MP2Node::checkMessages` (lines 432-472). -/
def handleReadReply (st : NodeState) (mesg : Message) : Option NodeState :=
  let val := st.statusHT.read (to_string mesg.transID)
  if val ≠ [] then do
    let tuple := splitFields val
    let successCount ← (tuple[2]?).bind stoi
    let failureCount ← (tuple[3]?).bind stoi
    let r ← readReplyUpdate st mesg tuple successCount failureCount
    readReplyQuorum r.2.2 mesg tuple r.1 r.2.1
  else some st

/-- The body of the `while` loop of `MP2Node::checkMessages`: the `switch` on the type of one
message (`now` is `par->getcurrtime()`). -/
def handleMessage (now : Int) (st : NodeState) (mesg : Message) : Option NodeState :=
  match mesg.type with
  | .CREATE =>
    some (createKeyValue now st mesg.key mesg.value mesg.replica mesg.transID mesg.fromAddr).1
  | .DELETE => some (deletekey st mesg.key mesg.transID mesg.fromAddr).1
  | .READ => (readKey st mesg.key mesg.transID mesg.fromAddr).map (fun r => r.1)
  | .UPDATE =>
    some (updateKeyValue now st mesg.key mesg.value mesg.replica mesg.transID mesg.fromAddr).1
  | .REPLY => handleReply st mesg
  | .READREPLY => handleReadReply st mesg

/-- The method `MP2Node::checkMessages`: the messages of the queue `mp2q`, oldest first, are
handled one after the other. -/
def checkMessages (now : Int) : NodeState → List Message → Option NodeState
  | st, [] => some st
  | st, mesg :: queue => (handleMessage now st mesg).bind (fun st1 => checkMessages now st1 queue)

/-! ## Neighbours and stabilization -/

/-- Conversion of an `int` expression to the unsigned 64-bit type `size_t`. -/
def toSizeT (x : Int) : Nat := (x % 2 ^ 64).toNat

/-- The loop of `MP2Node::findNeighbors`, at index `i` with `rest` the peers
`ring[i], ring[i+1], ...` still to visit. In `(i - 1) % ring.size()` the `int` operand is
converted to `size_t` before the remainder is taken. -/
def findNeighborsLoop (ring : List Node) : List Node → Nat → NodeState → Option NodeState
  | [], _, st => some st
  | addr :: rest, i, st =>
    if addr.nodeAddress = st.addr then do
      let a ← ring[toSizeT ((i : Int) + 1) % ring.length]?
      let b ← ring[toSizeT ((i : Int) + 2) % ring.length]?
      let c ← ring[toSizeT ((i : Int) - 1) % ring.length]?
      let d ← ring[toSizeT ((i : Int) - 2) % ring.length]?
      findNeighborsLoop ring rest (i + 1) { st with hasMyReplicas := [a, b], haveReplicasOf := [c, d] }
    else findNeighborsLoop ring rest (i + 1) st

/-- The method `MP2Node::findNeighbors`. -/
def findNeighbors (st : NodeState) : Option NodeState :=
  findNeighborsLoop st.ring st.ring 0 st

/-- The `switch` of `MP2Node::stabilizationProtocol` (lines 554-573) for one key and its
entry. -/
def stabilizationSend (st : NodeState) (key : Str) (en : Entry) : Option NodeState :=
  match en.replica with
  | .PRIMARY => do
    let n0 ← st.hasMyReplicas[0]?
    let n1 ← st.hasMyReplicas[1]?
    some ((st.ENsend n0.nodeAddress
      (Message.ofKeyValue (-1) st.addr .CREATE key en.value .SECONDARY)).ENsend n1.nodeAddress
      (Message.ofKeyValue (-1) st.addr .CREATE key en.value .TERTIARY))
  | .SECONDARY => do
    let n0 ← st.hasMyReplicas[0]?
    let n1 ← st.haveReplicasOf[0]?
    some ((st.ENsend n0.nodeAddress
      (Message.ofKeyValue (-1) st.addr .CREATE key en.value .TERTIARY)).ENsend n1.nodeAddress
      (Message.ofKeyValue (-1) st.addr .CREATE key en.value .PRIMARY))
  | .TERTIARY => do
    let n0 ← st.haveReplicasOf[1]?
    let n1 ← st.haveReplicasOf[0]?
    some ((st.ENsend n0.nodeAddress
      (Message.ofKeyValue (-1) st.addr .CREATE key en.value .PRIMARY)).ENsend n1.nodeAddress
      (Message.ofKeyValue (-1) st.addr .CREATE key en.value .SECONDARY))

/-- The loop of `MP2Node::stabilizationProtocol` over the copy `hash` of the local store. -/
def stabilizationLoop : List (Str × Str) → NodeState → Option NodeState
  | [], st => some st
  | (key, value) :: rest, st =>
    (Entry.fromString value).bind fun en =>
      (stabilizationSend st key en).bind (stabilizationLoop rest)

/-- The method `MP2Node::stabilizationProtocol`. -/
def stabilizationProtocol (st : NodeState) : Option NodeState :=
  (findNeighbors st).bind fun st1 => stabilizationLoop st1.ht.hashTable st1

/-! ## The ring update and the timeout sweep -/

/-- The loop "Handling stale nodes" of `MP2Node::updateRing` (lines 73-96) over the records of
the transaction table in key order. The vector `tuple` is declared before the loop and is never
cleared: the fields of each record are appended to it. Erasing the record the iterator stands at
and advancing the iterator afterwards is not defined by C++; the loop is taken to go on with the
records that follow, in the key order they had when the loop started. -/
def sweepLoop (TIME_OUT now : Int) :
    List (Str × Str) → List Str → NodeState → Option NodeState
  | [], _, st => some st
  | (key, val) :: rest, tuple, st => do
    let tuple := tuple ++ splitFields val
    let timestamp ← (tuple[1]?).bind stoi
    let diff := now - timestamp
    let t0 ← tuple[0]?
    if t0 = strREAD ∧ diff > TIME_OUT then do
      let tid ← stoi key
      sweepLoop TIME_OUT now rest tuple
        ((st.logCall (.logReadFail st.addr true tid val)).deleteStatus key)
    else if t0 = strUPDATE ∧ diff > TIME_OUT then do
      let tid ← stoi key
      let t5 ← tuple[5]?
      sweepLoop TIME_OUT now rest tuple
        ((st.logCall (.logUpdateFail st.addr true tid val t5)).deleteStatus key)
    else sweepLoop TIME_OUT now rest tuple st

/-- The timeout sweep of `MP2Node::updateRing` (lines 65-96). -/
def timeoutSweep (TIME_OUT now : Int) (st : NodeState) : Option NodeState :=
  sweepLoop TIME_OUT now st.statusHT.hashTable [] st

/-- The method `MP2Node::updateRing`; `curMemList` is the list that `getMembershipList()` returns
and `std::sort` orders by hash code. -/
def updateRing (TIME_OUT now : Int) (curMemList : List Node) (st : NodeState) :
    Option NodeState :=
  let change := decide (st.ringSize ≠ curMemList.length)
  let st1 : NodeState := { st with
    ringSize := if change then curMemList.length else st.ringSize
    ring := curMemList.insertionSort (fun a b => a.nodeHashCode ≤ b.nodeHashCode) }
  (if st1.ht.currentSize > 0 ∧ change = true then stabilizationProtocol st1 else some st1).bind
    (timeoutSweep TIME_OUT now)

/-! ## Properties of the ring and of the transaction table -/

/-- The start index of the replica set as the specification words it: `s` is the least index
whose peer has a hash code `≥ p`, or `s = 0` when no peer has a hash code `≥ p`. -/
def IsStartIndex (p : Nat) (ring : List Node) (s : Nat) : Prop :=
  ((∃ nd, ring[s]? = some nd ∧ p ≤ nd.nodeHashCode) ∧
      ∀ nd ∈ ring.take s, nd.nodeHashCode < p) ∨
    (s = 0 ∧ ∀ nd ∈ ring, nd.nodeHashCode < p)

/-- The success and failure counts of a record, read the way the reply handlers read them:
`stoi(tuple.at(2))` and `stoi(tuple.at(3))`. -/
def recordCounts (val : Str) : Option (Int × Int) := do
  let s ← ((splitFields val)[2]?).bind stoi
  let f ← ((splitFields val)[3]?).bind stoi
  some (s, f)

/-- The kind of a record, `tuple.at(0)`. -/
def recordKind (val : Str) : Option Str := (splitFields val)[0]?

/-- The time stamp of a record, `stoi(tuple.at(1))`. -/
def recordCreated (val : Str) : Option Int := ((splitFields val)[1]?).bind stoi

/-- Every record of the transaction table has `success + failure ≤ 2`. -/
def CountsAtMostTwo (st : NodeState) : Prop :=
  ∀ p ∈ st.statusHT.hashTable, ∃ s f, recordCounts p.2 = some (s, f) ∧ s + f ≤ 2

/-- A record as the client calls write it and the reply handlers rewrite it, with both counts
at most one. -/
def GoodRecord (val : Str) : Prop :=
  ∃ kind ts s f a b, val = txRecord kind ts (to_string s) (to_string f) a b ∧
    (kind = strCREATE ∨ kind = strREAD ∨ kind = strUPDATE ∨ kind = strDELETE) ∧
    (∀ c ∈ ts, c ≠ ':') ∧ s ≤ 1 ∧ f ≤ 1

/-- Every record of the transaction table is a good record. -/
def GoodTable (st : NodeState) : Prop := ∀ p ∈ st.statusHT.hashTable, GoodRecord p.2

/-- The inbound messages of the quorum state machine: any REPLY and any READREPLY. -/
def anyReply (_ : NodeState) (m : Message) : Prop :=
  m.type = .REPLY ∨ m.type = .READREPLY

/-- The inbound messages of the quorum state machine, a REPLY never carrying the id of a READ
record: READ requests are answered by READREPLY messages. -/
def replyOfKind (st : NodeState) (m : Message) : Prop :=
  m.type = .READREPLY ∨
    (m.type = .REPLY ∧ recordKind (st.statusHT.read (to_string m.transID)) ≠ some strREAD)

/-- The states a coordinator reaches from an empty transaction table by client calls, ring
updates with their timeout sweep, and the handling of inbound messages that `allowed` admits. -/
inductive Reachable (hashFunc : Str → Nat) (RING_SIZE : Nat) (TIME_OUT : Int)
    (allowed : NodeState → Message → Prop) : NodeState → Prop where
  | init (st : NodeState) : st.statusHT = ⟨[]⟩ → Reachable hashFunc RING_SIZE TIME_OUT allowed st
  | create (now : Int) (st st1 : NodeState) (key value : Str) :
    Reachable hashFunc RING_SIZE TIME_OUT allowed st →
    clientCreate hashFunc RING_SIZE now st key value = some st1 →
    Reachable hashFunc RING_SIZE TIME_OUT allowed st1
  | read (now : Int) (st st1 : NodeState) (key : Str) :
    Reachable hashFunc RING_SIZE TIME_OUT allowed st →
    clientRead hashFunc RING_SIZE now st key = some st1 →
    Reachable hashFunc RING_SIZE TIME_OUT allowed st1
  | update (now : Int) (st st1 : NodeState) (key value : Str) :
    Reachable hashFunc RING_SIZE TIME_OUT allowed st →
    clientUpdate hashFunc RING_SIZE now st key value = some st1 →
    Reachable hashFunc RING_SIZE TIME_OUT allowed st1
  | delete (now : Int) (st st1 : NodeState) (key : Str) :
    Reachable hashFunc RING_SIZE TIME_OUT allowed st →
    clientDelete hashFunc RING_SIZE now st key = some st1 →
    Reachable hashFunc RING_SIZE TIME_OUT allowed st1
  | sweep (now : Int) (st st1 : NodeState) :
    Reachable hashFunc RING_SIZE TIME_OUT allowed st →
    timeoutSweep TIME_OUT now st = some st1 →
    Reachable hashFunc RING_SIZE TIME_OUT allowed st1
  | ringUpdate (now : Int) (curMemList : List Node) (st st1 : NodeState) :
    Reachable hashFunc RING_SIZE TIME_OUT allowed st →
    updateRing TIME_OUT now curMemList st = some st1 →
    Reachable hashFunc RING_SIZE TIME_OUT allowed st1
  | message (now : Int) (st st1 : NodeState) (mesg : Message) :
    Reachable hashFunc RING_SIZE TIME_OUT allowed st →
    allowed st mesg →
    handleMessage now st mesg = some st1 →
    Reachable hashFunc RING_SIZE TIME_OUT allowed st1

/-- The coordinator-side log call that closes a CREATE, UPDATE or DELETE transaction. -/
def coordinatorOutcome (kind : Str) (ok : Bool) (addr : Address) (transID : Int)
    (key value : Str) : LogCall :=
  if kind = strCREATE then
    if ok then .logCreateSuccess addr true transID key value
    else .logCreateFail addr true transID key value
  else if kind = strDELETE then
    if ok then .logDeleteSuccess addr true transID key
    else .logDeleteFail addr true transID key
  else
    if ok then .logUpdateSuccess addr true transID key value
    else .logUpdateFail addr true transID key value

/-- At least two of three replies are successes. -/
def atLeastTwo (b1 b2 b3 : Bool) : Bool := (b1 && b2) || (b1 && b3) || (b2 && b3)

/-! ## A network of nodes -/

/-- Every node of the list takes the membership list `curMemList` in `updateRing`. -/
def updateRingAll (TIME_OUT now : Int) (curMemList : List Node) :
    List NodeState → Option (List NodeState)
  | [] => some []
  | nd :: rest => do
    let nd1 ← updateRing TIME_OUT now curMemList nd
    let rest1 ← updateRingAll TIME_OUT now curMemList rest
    some (nd1 :: rest1)

/-- Delivery of one message: the node with the destination address handles it. -/
def deliver (now : Int) (dest : Address) (mesg : Message) :
    List NodeState → Option (List NodeState)
  | [] => some []
  | nd :: rest => do
    let nd1 ← if nd.addr = dest then handleMessage now nd mesg else some nd
    let rest1 ← deliver now dest mesg rest
    some (nd1 :: rest1)

/-- Delivery of a list of messages, in order. -/
def deliverAll (now : Int) : List (Address × Message) → List NodeState → Option (List NodeState)
  | [], nodes => some nodes
  | (dest, mesg) :: rest, nodes => (deliver now dest mesg nodes).bind (deliverAll now rest)

/-- The messages that the nodes have handed to the network. -/
def allSent : List NodeState → List (Address × Message)
  | [] => []
  | nd :: rest => nd.sent ++ allSent rest

/-- One repair round: every live node takes the new membership list (and runs the
stabilization protocol when its ring size changes and it stores a key), then every message
emitted is delivered. -/
def repairRound (TIME_OUT now : Int) (curMemList : List Node) (nodes : List NodeState) :
    Option (List NodeState) := do
  let nodes1 ← updateRingAll TIME_OUT now curMemList nodes
  deliverAll now (allSent nodes1) (nodes1.map (fun nd => { nd with sent := [] }))

/-- Whether a node stores `key`. -/
def storesKey (key : Str) (nd : NodeState) : Bool := nd.ht.contains key

/-! ## Example data -/

/-- A peer with the given hash code (and the hash code as its id). -/
def peer (h : Nat) : Node := ⟨⟨h, 0⟩, h⟩

/-- A ring of five peers. -/
def ring5 : List Node := [peer 10, peer 20, peer 30, peer 40, peer 50]

/-- The ring of four peers that is left of `ring5` when the peer `10` fails. -/
def ring4 : List Node := [peer 20, peer 30, peer 40, peer 50]

/-- A node that has just started on the ring `ring`: empty store, empty transaction table. -/
def freshNode (h : Nat) (ring : List Node) : NodeState :=
  ⟨⟨h, 0⟩, ring, ring.length, ⟨[]⟩, ⟨[]⟩, [], [], 0, [], []⟩

/-- The five nodes of `ring5`, freshly started. -/
def nodes5 : List NodeState := ring5.map (fun nd => freshNode nd.nodeHashCode ring5)

/-- The key `"k"`. -/
def keyK : Str := ['k']

/-- The value `"v"`. -/
def valV : Str := ['v']

/-- The nodes of `ring5` after the node `10` has coordinated `create("k", "v")` for a key with
hash position 5 and all messages (the three CREATEs, then the three REPLYs) are delivered. -/
def nodes5Created : Option (List NodeState) := do
  let coord ← clientCreate (fun _ => 5) 512 0 (freshNode 10 ring5) keyK valV
  let nodes1 ← deliverAll 1 coord.sent ({ coord with sent := [] } :: nodes5.drop 1)
  deliverAll 2 (allSent nodes1) (nodes1.map (fun nd => { nd with sent := [] }))

/-- The nodes of `ring5` that survive the failure of the node `10`, after one repair round on
the ring `ring4`. -/
def nodes4Repaired : Option (List NodeState) := do
  let nodes ← nodes5Created
  repairRound 10 3 ring4 (nodes.drop 1)

/-- A REPLY for transaction 1, sent by the peer `20`. -/
def replyMsg (success : Bool) : Message := Message.ofSuccess 1 ⟨20, 0⟩ .REPLY success

/-- The node `10` after `clientCreate("k", "v")` at time 0: transaction 1 is pending. -/
def pendingCreate : NodeState :=
  (clientCreate (fun _ => 5) 512 0 (freshNode 10 ring5) keyK valV).getD (freshNode 10 ring5)

/-- The node `10` after `clientRead("k")` at time 0: transaction 1 is pending. -/
def pendingRead : NodeState :=
  (clientRead (fun _ => 5) 512 0 (freshNode 10 ring5) keyK).getD (freshNode 10 ring5)

/-- The node `10` after `clientCreate("k", "v")` and then `clientRead("k")`, both at time 0:
transactions 1 (CREATE) and 2 (READ) are pending. -/
def pendingCreateRead : NodeState :=
  (clientRead (fun _ => 5) 512 0 pendingCreate keyK).getD pendingCreate

/-- The node `10` after `clientRead("k")` at time 0 and `clientRead("k")` at time 100:
transactions 1 and 2, both READ, are pending. -/
def pendingReadRead : NodeState :=
  (clientRead (fun _ => 5) 512 100 pendingRead keyK).getD pendingRead

/-- The node `10` after `clientRead("k")` and three successful REPLY messages for its
transaction. -/
def readThreeReplies : NodeState :=
  (checkMessages 1 pendingRead [replyMsg true, replyMsg true, replyMsg true]).getD pendingRead

/-- The node `10` after `clientCreate("k", "v")` and one successful REPLY for its transaction. -/
def createOneReply : NodeState :=
  (checkMessages 1 pendingCreate [replyMsg true]).getD pendingCreate

/-! ## Stabilization, client calls and the local store, as the specification words them -/

/-- The two background CREATE messages for one stored key as the table of the specification
(section 4.6) lists them: the targets and the role tags follow the recorded role of the entry;
`h0`, `h1` are `hasMyReplicas[0]`, `hasMyReplicas[1]` and `r0`, `r1` are `haveReplicasOf[0]`,
`haveReplicasOf[1]`. -/
def stabilizationMessages (addr : Address) (h0 h1 r0 r1 : Node) (key : Str) (en : Entry) :
    List (Address × Message) :=
  match en.replica with
  | .PRIMARY =>
    [(h0.nodeAddress, Message.ofKeyValue (-1) addr .CREATE key en.value .SECONDARY),
      (h1.nodeAddress, Message.ofKeyValue (-1) addr .CREATE key en.value .TERTIARY)]
  | .SECONDARY =>
    [(h0.nodeAddress, Message.ofKeyValue (-1) addr .CREATE key en.value .TERTIARY),
      (r0.nodeAddress, Message.ofKeyValue (-1) addr .CREATE key en.value .PRIMARY)]
  | .TERTIARY =>
    [(r1.nodeAddress, Message.ofKeyValue (-1) addr .CREATE key en.value .PRIMARY),
      (r0.nodeAddress, Message.ofKeyValue (-1) addr .CREATE key en.value .SECONDARY)]

/-- The background CREATE messages for a whole local store, key after key. -/
def stabilizationFanOut (addr : Address) (h0 h1 r0 r1 : Node) :
    List (Str × Entry) → List (Address × Message)
  | [] => []
  | (key, en) :: rest =>
    stabilizationMessages addr h0 h1 r0 r1 key en ++ stabilizationFanOut addr h0 h1 r0 r1 rest

/-- The local store that holds the given entries, serialised. -/
def storeOf (entries : List (Str × Entry)) : List (Str × Str) :=
  entries.map (fun p => (p.1, p.2.convertToString))

/-- Every value of the local store is a serialised entry. -/
def SerialisedStore (st : NodeState) : Prop :=
  ∀ p ∈ st.ht.hashTable, ∃ en : Entry, p.2 = en.convertToString

/-- The fan-out of a client call as the specification words it: one message per replica, in
replica order, built from the position of the replica in the list. -/
def fanOut (mk : Nat → Message) (replicas : List Node) : List (Address × Message) :=
  replicas.enum.map (fun p => (p.2.nodeAddress, mk p.1))

/-- Every inbound message is admitted. -/
def anyMessage (_ : NodeState) (_ : Message) : Prop := True

/-- Every record of the transaction table is keyed by a transaction id that the counter has
already handed out. -/
def IdsAllocated (st : NodeState) : Prop :=
  ∀ p ∈ st.statusHT.hashTable, ∃ n : Int, n ≤ st.g_transID ∧ p.1 = to_string n

/-- The step from `st` to `st1` leaves the transaction counter alone and adds no key to the
transaction table. -/
def KeysKept (st st1 : NodeState) : Prop :=
  st1.g_transID = st.g_transID ∧
    ∀ p ∈ st1.statusHT.hashTable, ∃ q ∈ st.statusHT.hashTable, q.1 = p.1

/-- The effect of a client call on the coordinator `st`, giving `st1`: the next transaction id
is taken, one message per replica is sent in replica order, and one record of the given kind is
registered under the new id, with time stamp `now` and both counts 0; nothing else changes. -/
def ClientEffect (st st1 : NodeState) (replicas : List Node) (kind : Str) (mk : Nat → Message)
    (now : Int) (key value : Str) : Prop :=
  st1.g_transID = st.g_transID + 1 ∧
    st1.sent = st.sent ++ fanOut mk replicas ∧
    st1.statusHT.hashTable = insertSorted (to_string (st.g_transID + 1))
      (txRecord kind (to_string now) (to_string 0) (to_string 0) key value)
      st.statusHT.hashTable ∧
    st.statusHT.contains (to_string (st.g_transID + 1)) = false ∧
    st1.statusHT.read (to_string (st.g_transID + 1)) =
      txRecord kind (to_string now) (to_string 0) (to_string 0) key value ∧
    (∀ k, k ≠ to_string (st.g_transID + 1) → st1.statusHT.read k = st.statusHT.read k) ∧
    st1.ht = st.ht ∧ st1.log = st.log

/-! ## More example data -/

/-- A ring of three peers. -/
def ring3 : List Node := [peer 10, peer 20, peer 30]

/-- The node `20` of `ring5`, storing the key `"k"` as its SECONDARY replica. -/
def storingNode : NodeState :=
  (createKeyValue 1 (freshNode 20 ring5) keyK valV .SECONDARY (-1) ⟨10, 0⟩).1

/-- The node `storingNode` after `findNeighbors`. -/
def storingNodeNeighbors : NodeState := (findNeighbors storingNode).getD storingNode

/-- An entry with the value `"new"`, written at time 5. -/
def entryNew : Entry := ⟨['n', 'e', 'w'], 5, .PRIMARY⟩

/-- An entry with the value `"old"`, written at time 3. -/
def entryOld : Entry := ⟨['o', 'l', 'd'], 3, .SECONDARY⟩

/-- A READREPLY for transaction 1, sent by the peer `20`. -/
def readReplyMsg (value : Str) : Message := Message.ofValue 1 ⟨20, 0⟩ value

/-- The node `10` after `clientUpdate("k", "v")` at time 0: transaction 1 is pending. -/
def pendingUpdate : NodeState :=
  (clientUpdate (fun _ => 5) 512 0 (freshNode 10 ring5) keyK valV).getD (freshNode 10 ring5)

/-! ## The round trip of key and value: conditions and example data -/

/-- Whether a string contains the separator `"::"`, that is `s.find("::") != string::npos`. -/
def containsSep : Str → Bool
  | [] => false
  | ':' :: ':' :: _ => true
  | _ :: rest => containsSep rest

/-- A key that the record round-trips: it does not contain `"::"` and does not end in a colon
(which would join the separator that follows it). -/
def RoundTripKey (key : Str) : Prop :=
  containsSep key = false ∧ key.getLast? ≠ some ':'

/-- A value that the record round-trips: it does not contain `"::"`. -/
def RoundTripValue (value : Str) : Prop := containsSep value = false

instance (key : Str) : Decidable (RoundTripKey key) := by
  unfold RoundTripKey; infer_instance

instance (value : Str) : Decidable (RoundTripValue value) := by
  unfold RoundTripValue; infer_instance

/-- The key `"a::b"`. -/
def keySep : Str := ['a', ':', ':', 'b']

/-- The key `"a:"`. -/
def keyColon : Str := ['a', ':']

/-- The value `"v::w"`. -/
def valSep : Str := ['v', ':', ':', 'w']

/-- The node `10` after `clientCreate("a::b", "v")` at time 0: transaction 1 is pending. -/
def pendingCreateSep : NodeState :=
  (clientCreate (fun _ => 5) 512 0 (freshNode 10 ring5) keySep valV).getD (freshNode 10 ring5)

/-! ## Integers and their decimal representation -/

theorem digitChar_props (d : Nat) (h : d < 10) :
    (digitChar d).isDigit = true ∧ digitVal (digitChar d) = d ∧ digitChar d ≠ ':' ∧
      digitChar d ≠ '-' ∧ digitChar d ≠ '+' ∧ isspace (digitChar d) = false := by
  interval_cases d <;> decide

theorem natToStrAux_digits (fuel n : Nat) : ∀ c ∈ natToStrAux fuel n, c.isDigit = true := by
  induction fuel generalizing n with
  | zero => intro c hc; simp [natToStrAux] at hc
  | succ fuel ih =>
    intro c hc
    unfold natToStrAux at hc
    split at hc
    · rename_i h
      simp at hc
      subst hc
      exact (digitChar_props n h).1
    · rcases List.mem_append.1 hc with h1 | h1
      · exact ih _ c h1
      · simp at h1
        subst h1
        exact (digitChar_props _ (Nat.mod_lt _ (by norm_num))).1

theorem natToStrAux_ne_nil (fuel n : Nat) : natToStrAux (fuel + 1) n ≠ [] := by
  unfold natToStrAux
  split <;> simp

theorem parseDigits_snoc (xs : Str) (c : Char) (acc : Nat) (hxs : ∀ x ∈ xs, x.isDigit = true)
    (hc : c.isDigit = true) :
    parseDigits acc (xs ++ [c]) = parseDigits acc xs * 10 + digitVal c := by
  induction xs generalizing acc with
  | nil => simp [parseDigits, hc]
  | cons x xs ih =>
    have hx : x.isDigit = true := hxs x (List.mem_cons_self _ _)
    simp only [List.cons_append, parseDigits, hx, if_true]
    exact ih _ (fun y hy => hxs y (List.mem_cons_of_mem _ hy))

theorem parseDigits_natToStrAux (fuel n : Nat) (h : n < fuel) :
    parseDigits 0 (natToStrAux fuel n) = n := by
  induction fuel generalizing n with
  | zero => omega
  | succ fuel ih =>
    unfold natToStrAux
    split
    · rename_i h10
      simp [parseDigits, (digitChar_props n h10).1, (digitChar_props n h10).2.1]
    · rename_i h10
      have hlt : n % 10 < 10 := Nat.mod_lt _ (by norm_num)
      rw [parseDigits_snoc _ _ _ (natToStrAux_digits fuel _) (digitChar_props _ hlt).1,
        ih (n / 10) (by omega), (digitChar_props _ hlt).2.1]
      omega

theorem stoiDigits_natToStr (n : Nat) : stoiDigits (natToStr n) = some (n : Int) := by
  unfold natToStr
  have hne := natToStrAux_ne_nil n n
  have hd := natToStrAux_digits (n + 1) n
  have hv := parseDigits_natToStrAux (n + 1) n (by omega)
  cases hs : natToStrAux (n + 1) n with
  | nil => exact absurd hs hne
  | cons c cs =>
    rw [hs] at hd hv
    have hc : c.isDigit = true := hd c (List.mem_cons_self _ _)
    simp [stoiDigits, hc, hv]

theorem natToStr_head (n : Nat) :
    ∃ c cs, natToStr n = c :: cs ∧ c.isDigit = true := by
  unfold natToStr
  have hne := natToStrAux_ne_nil n n
  have hd := natToStrAux_digits (n + 1) n
  cases hs : natToStrAux (n + 1) n with
  | nil => exact absurd hs hne
  | cons c cs =>
    rw [hs] at hd
    exact ⟨c, cs, rfl, hd c (List.mem_cons_self _ _)⟩

theorem isDigit_facts (c : Char) (h : c.isDigit = true) :
    c ≠ ':' ∧ c ≠ '-' ∧ c ≠ '+' ∧ isspace c = false := by
  refine ⟨?_, ?_, ?_, ?_⟩
  · rintro rfl; revert h; decide
  · rintro rfl; revert h; decide
  · rintro rfl; revert h; decide
  · have h1 : c ≠ ' ' := by rintro rfl; revert h; decide
    have h2 : c ≠ '\t' := by rintro rfl; revert h; decide
    have h3 : c ≠ '\r' := by rintro rfl; revert h; decide
    have h4 : c ≠ '\n' := by rintro rfl; revert h; decide
    have h5 : c ≠ '\x0b' := by rintro rfl; revert h; decide
    have h6 : c ≠ '\x0c' := by rintro rfl; revert h; decide
    simp [isspace, h1, h2, h3, h4, h5, h6]

theorem stoi_to_string (x : Int) : stoi (to_string x) = some x := by
  unfold to_string
  split
  · rename_i hneg
    have h1 : stoi ('-' :: natToStr x.natAbs) = (stoiDigits (natToStr x.natAbs)).map (fun v => -v) := by
      simp [stoi, List.dropWhile, isspace]
    rw [h1, stoiDigits_natToStr]
    simp only [Option.map_some', Option.some.injEq]
    omega
  · rename_i hpos
    obtain ⟨c, cs, hcs, hc⟩ := natToStr_head x.natAbs
    have hf := isDigit_facts c hc
    have h1 : stoi (natToStr x.natAbs) = stoiDigits (natToStr x.natAbs) := by
      rw [hcs]
      unfold stoi
      simp only [List.dropWhile, hf.2.2.2]
      split
      · rename_i heq; simp at heq; exact absurd heq.1 hf.2.1
      · rename_i heq; simp at heq; exact absurd heq.1 hf.2.2.1
      · rfl
    rw [h1, stoiDigits_natToStr]
    simp
    omega

theorem to_string_noColon (x : Int) : ∀ c ∈ to_string x, c ≠ ':' := by
  intro c hc
  unfold to_string at hc
  have hd : ∀ c ∈ natToStr x.natAbs, c ≠ ':' := fun c hc =>
    (isDigit_facts c (natToStrAux_digits _ _ c hc)).1
  split at hc
  · rcases List.mem_cons.1 hc with h | h
    · subst h; decide
    · exact hd c h
  · exact hd c hc

theorem to_string_ne_nil (x : Int) : to_string x ≠ [] := by
  unfold to_string
  split
  · simp
  · exact natToStrAux_ne_nil _ _

/-! ## Splitting a record -/

theorem splitFields_sep (x : Str) : splitFields (':' :: ':' :: x) = [] :: splitFields x := by
  simp [splitFields]

theorem splitFields_ne_nil (s : Str) : splitFields s ≠ [] := by
  induction s using splitFields.induct with
  | case1 => simp [splitFields]
  | case2 rest ih => simp [splitFields]
  | case3 c rest hne f fs heq ih => rw [splitFields.eq_3 _ _ hne, heq]; simp
  | case4 c rest hne heq ih => exact absurd heq ih

theorem splitFields_cons_of_ne (c : Char) (x : Str) (hc : c ≠ ':') :
    splitFields (c :: x) = (c :: (splitFields x).head!) :: (splitFields x).tail := by
  have hne : ∀ rest, c = ':' → x = ':' :: rest → False := fun _ h _ => hc h
  rw [splitFields.eq_3 _ _ hne]
  cases h : splitFields x with
  | nil => exact absurd h (splitFields_ne_nil x)
  | cons f fs => simp

theorem splitFields_noColon_append (p : Str) (hp : ∀ c ∈ p, c ≠ ':') (x : Str) :
    splitFields (p ++ sep ++ x) = p :: splitFields x := by
  induction p with
  | nil => simp [sep, splitFields_sep]
  | cons c p ih =>
    have hc : c ≠ ':' := hp c (List.mem_cons_self _ _)
    have := ih (fun d hd => hp d (List.mem_cons_of_mem _ hd))
    simp only [List.cons_append] at this ⊢
    rw [splitFields_cons_of_ne _ _ hc, this]
    simp

theorem splitFields_length_cons (c : Char) (x : Str)
    (hne : ∀ rest, c = ':' → x = ':' :: rest → False) :
    (splitFields (c :: x)).length = (splitFields x).length := by
  rw [splitFields.eq_3 _ _ hne]
  cases h : splitFields x with
  | nil => exact absurd h (splitFields_ne_nil x)
  | cons f fs => simp

theorem splitFields_sep_length (a b : Str) : 2 ≤ (splitFields (a ++ sep ++ b)).length := by
  induction a using splitFields.induct with
  | case1 =>
    simp only [sep, List.nil_append, List.cons_append, splitFields_sep, List.length_cons]
    have := splitFields_ne_nil b
    have : 0 < (splitFields b).length := List.length_pos.2 this
    omega
  | case2 rest ih =>
    simp only [List.cons_append, splitFields_sep, List.length_cons] at ih ⊢
    omega
  | case3 c rest hne f fs heq ih =>
    cases rest with
    | nil =>
      by_cases hc : c = ':'
      · subst hc
        simp only [sep, List.nil_append, List.cons_append, splitFields_sep, List.length_cons]
        have : 0 < (splitFields (':' :: b)).length := List.length_pos.2 (splitFields_ne_nil _)
        omega
      · simp only [List.cons_append]
        rw [splitFields_length_cons _ _ (fun _ h _ => hc h)]
        exact ih
    | cons d rest1 =>
      simp only [List.cons_append]
      rw [splitFields_length_cons]
      · exact ih
      · intro r h1 h2
        simp only [List.cons_append, List.cons.injEq] at h2
        exact hne rest1 h1 (by rw [h2.1])
  | case4 c rest hne heq ih => exact absurd heq (splitFields_ne_nil _)

/-! ## Records and the hash table -/

theorem splitFields_txRecord (kind ts sc fc a b : Str) (hk : ∀ c ∈ kind, c ≠ ':')
    (ht : ∀ c ∈ ts, c ≠ ':') (hs : ∀ c ∈ sc, c ≠ ':') (hf : ∀ c ∈ fc, c ≠ ':') :
    splitFields (txRecord kind ts sc fc a b) =
      kind :: ts :: sc :: fc :: splitFields (a ++ sep ++ b) := by
  have e : txRecord kind ts sc fc a b =
      kind ++ sep ++ (ts ++ sep ++ (sc ++ sep ++ (fc ++ sep ++ (a ++ sep ++ b)))) := by
    simp [txRecord, List.append_assoc]
  rw [e, splitFields_noColon_append _ hk, splitFields_noColon_append _ ht,
    splitFields_noColon_append _ hs, splitFields_noColon_append _ hf]

theorem splitFields_sep_two (a b : Str) :
    ∃ k v rest, splitFields (a ++ sep ++ b) = k :: v :: rest := by
  have h := splitFields_sep_length a b
  match hs : splitFields (a ++ sep ++ b) with
  | [] => rw [hs] at h; simp at h
  | [_] => rw [hs] at h; simp at h
  | k :: v :: rest => exact ⟨k, v, rest, rfl⟩

theorem txRecord_ne_nil (kind ts sc fc a b : Str) : txRecord kind ts sc fc a b ≠ [] := by
  simp [txRecord, sep]

theorem HashTable.read_of_not_contains (t : HashTable) (key : Str)
    (h : t.contains key = false) : t.read key = [] := by
  unfold HashTable.read
  have : t.hashTable.find? (fun p => p.1 == key) = none := by
    rw [List.find?_eq_none]
    intro p hp
    simp only [HashTable.contains, List.any_eq_false] at h
    exact h p hp
  rw [this]

theorem HashTable.contains_of_read_ne_nil (t : HashTable) (key : Str)
    (h : t.read key ≠ []) : t.contains key = true := by
  by_contra hc
  exact h (t.read_of_not_contains key (by simpa using hc))

theorem HashTable.read_mem (t : HashTable) (key : Str) (h : t.read key ≠ []) :
    (key, t.read key) ∈ t.hashTable := by
  unfold HashTable.read at h ⊢
  cases hf : t.hashTable.find? (fun p => p.1 == key) with
  | none => rw [hf] at h; exact absurd rfl h
  | some p =>
    have h1 := List.find?_some hf
    have h2 := List.mem_of_find?_eq_some hf
    simp only [beq_iff_eq] at h1
    simp only
    rw [← h1]
    exact h2

theorem find?_map_update (l : List (Str × Str)) (key value : Str)
    (h : l.any (fun p => p.1 == key) = true) :
    (l.map (fun p => if p.1 == key then (p.1, value) else p)).find? (fun p => p.1 == key) =
      some (key, value) := by
  induction l with
  | nil => simp at h
  | cons q l ih =>
    by_cases hq : q.1 = key
    · simp [List.find?, hq]
    · have hq2 : (q.1 == key) = false := by simpa using hq
      simp only [List.any_cons, hq2, Bool.false_or] at h
      simp only [List.map_cons, hq2, Bool.false_eq_true, if_false, List.find?, ih h]

theorem HashTable.read_update (t : HashTable) (key value : Str) (h : t.contains key = true) :
    (t.update key value).2.read key = value := by
  unfold HashTable.update HashTable.read
  simp only [h, if_true]
  rw [find?_map_update _ _ _ h]

theorem HashTable.contains_deleteKey (t : HashTable) (key : Str) :
    (t.deleteKey key).2.contains key = false := by
  unfold HashTable.deleteKey
  by_cases h : t.contains key = true
  · rw [if_pos h]
    simp only [HashTable.contains, List.any_eq_false]
    intro p hp
    simp only [List.mem_filter, Bool.not_eq_true'] at hp
    simp [hp.2]
  · rw [if_neg h]
    simpa using h

theorem HashTable.contains_update (t : HashTable) (key value k : Str) :
    (t.update key value).2.contains k = t.contains k := by
  unfold HashTable.update
  by_cases h : t.contains key = true
  · rw [if_pos h]
    simp only [HashTable.contains, List.any_map]
    congr 1
    funext p
    by_cases hp : p.1 = key <;> simp [hp]
  · rw [if_neg h]

theorem HashTable.mem_deleteKey (t : HashTable) (key : Str) (p : Str × Str)
    (h : p ∈ (t.deleteKey key).2.hashTable) : p ∈ t.hashTable := by
  unfold HashTable.deleteKey at h
  split at h
  · exact (List.mem_filter.1 h).1
  · exact h

theorem HashTable.mem_deleteKey_ne (t : HashTable) (key : Str) (p : Str × Str)
    (h : p ∈ (t.deleteKey key).2.hashTable) : p.1 ≠ key := by
  intro hk
  have := t.contains_deleteKey key
  simp only [HashTable.contains, List.any_eq_false] at this
  exact this p h (by simp [hk])

theorem HashTable.mem_update (t : HashTable) (key value : Str) (p : Str × Str)
    (h : p ∈ (t.update key value).2.hashTable) : p ∈ t.hashTable ∨ p = (key, value) := by
  unfold HashTable.update at h
  split at h
  · simp only [List.mem_map] at h
    obtain ⟨q, hq, rfl⟩ := h
    by_cases hk : q.1 = key
    · right; simp [hk]
    · left; simp [hk, hq]
  · exact Or.inl h

theorem mem_insertSorted (key value : Str) (l : List (Str × Str)) (p : Str × Str) :
    p ∈ insertSorted key value l ↔ p = (key, value) ∨ p ∈ l := by
  induction l with
  | nil => simp [insertSorted]
  | cons q l ih =>
    obtain ⟨k, v⟩ := q
    unfold insertSorted
    split
    · simp
    · simp only [List.mem_cons, ih]
      tauto

theorem HashTable.mem_create (t : HashTable) (key value : Str) (p : Str × Str)
    (h : p ∈ (t.create key value).2.hashTable) : p ∈ t.hashTable ∨ p = (key, value) := by
  unfold HashTable.create at h
  split at h
  · exact Or.inl h
  · exact ((mem_insertSorted _ _ _ _).1 h).symm

/-! ## The replica set -/

theorem findNodesScan_start (pos : Nat) (ring : List Node) (s : Nat) (a b c : Node)
    (ha : ring[s]? = some a) (hpa : pos ≤ a.nodeHashCode)
    (hlt : ∀ nd ∈ ring.take s, nd.nodeHashCode < pos)
    (hb : ring[(s + 1) % ring.length]? = some b) (hc : ring[(s + 2) % ring.length]? = some c) :
    ∀ (rest : List Node) (i : Nat), (∀ j, rest[j]? = ring[i + j]?) → i ≤ s →
      findNodesScan pos ring rest i = some [a, b, c] := by
  intro rest
  induction rest with
  | nil =>
    intro i hrest his
    exfalso
    have h0 := hrest 0
    simp only [List.getElem?_nil, Nat.add_zero] at h0
    have h1 : ring.length ≤ i := List.getElem?_eq_none_iff.1 h0.symm
    have h2 : ring[s]? = none := List.getElem?_eq_none (by omega)
    rw [h2] at ha
    exact Option.noConfusion ha
  | cons x rest ih =>
    intro i hrest his
    have hx : ring[i]? = some x := by
      have := hrest 0
      simpa using this.symm
    unfold findNodesScan
    by_cases hpx : pos ≤ x.nodeHashCode
    · rw [if_pos hpx]
      have hi : i = s := by
        by_contra hne
        have hlt2 : i < s := by omega
        have hmem : x ∈ ring.take s := by
          rw [List.mem_iff_getElem?]
          exact ⟨i, by rw [List.getElem?_take_of_lt hlt2]; exact hx⟩
        have := hlt x hmem
        omega
      subst hi
      rw [hx] at ha
      cases ha
      simp [hb, hc]
    · rw [if_neg hpx]
      have hi : i ≠ s := by
        rintro rfl
        rw [hx] at ha
        cases ha
        exact hpx hpa
      apply ih (i + 1) _ (by omega)
      intro j
      have := hrest (j + 1)
      simp only [List.getElem?_cons_succ] at this
      rw [this]
      congr 1
      omega

theorem strictRing_lt (ring : List Node) (hs : StrictRing ring) (i j : Nat) (a b : Node)
    (ha : ring[i]? = some a) (hb : ring[j]? = some b) (hij : i < j) :
    a.nodeHashCode < b.nodeHashCode := by
  unfold StrictRing at hs
  rw [List.pairwise_iff_getElem] at hs
  obtain ⟨hi, rfl⟩ := List.getElem?_eq_some_iff.1 ha
  obtain ⟨hj, rfl⟩ := List.getElem?_eq_some_iff.1 hb
  exact hs i j hi hj hij

theorem strictRing_le_last (ring : List Node) (hs : StrictRing ring) (last : Node)
    (hl : ring[ring.length - 1]? = some last) (nd : Node) (hnd : nd ∈ ring) :
    nd.nodeHashCode ≤ last.nodeHashCode := by
  obtain ⟨i, hi⟩ := List.mem_iff_getElem?.1 hnd
  have hlen : i < ring.length := (List.getElem?_eq_some_iff.1 hi).1
  by_cases h : i = ring.length - 1
  · subst h
    rw [hi] at hl
    cases hl
    exact le_refl _
  · exact le_of_lt (strictRing_lt ring hs i _ nd last hi hl (by omega))

theorem findNodes_of_startIndex (hashFunc : Str → Nat) (RING_SIZE : Nat) (ring : List Node)
    (key : Str) (s : Nat) (hn : 3 ≤ ring.length) (hsorted : StrictRing ring)
    (hs : IsStartIndex (hashFunc key % RING_SIZE) ring s) :
    ∃ a b c, ring[s]? = some a ∧ ring[(s + 1) % ring.length]? = some b ∧
      ring[(s + 2) % ring.length]? = some c ∧
      findNodes hashFunc RING_SIZE ring key = some [a, b, c] := by
  have hpos : 0 < ring.length := by omega
  obtain ⟨first, hfirst⟩ : ∃ x, ring[0]? = some x :=
    ⟨_, List.getElem?_eq_getElem (by omega)⟩
  obtain ⟨last, hlast⟩ : ∃ x, ring[ring.length - 1]? = some x :=
    ⟨_, List.getElem?_eq_getElem (by omega)⟩
  obtain ⟨n1, hn1⟩ : ∃ x, ring[1]? = some x := ⟨_, List.getElem?_eq_getElem (by omega)⟩
  obtain ⟨n2, hn2⟩ : ∃ x, ring[2]? = some x := ⟨_, List.getElem?_eq_getElem (by omega)⟩
  have h1 : 1 % ring.length = 1 := Nat.mod_eq_of_lt (by omega)
  have h2 : 2 % ring.length = 2 := Nat.mod_eq_of_lt (by omega)
  unfold findNodes hashFunction
  simp only [ge_iff_le, hn, if_true, hfirst, hlast, Option.bind_eq_bind, Option.some_bind]
  by_cases hcase : hashFunc key % RING_SIZE ≤ first.nodeHashCode ∨
      hashFunc key % RING_SIZE > last.nodeHashCode
  · rw [if_pos hcase]
    have hs0 : s = 0 := by
      rcases hs with ⟨⟨nd, hnd, hp⟩, hbefore⟩ | ⟨h0, _⟩
      · by_contra hne
        rcases hcase with hc | hc
        · have hmem : first ∈ ring.take s := by
            rw [List.mem_iff_getElem?]
            exact ⟨0, by rw [List.getElem?_take_of_lt (by omega)]; exact hfirst⟩
          have := hbefore first hmem
          omega
        · have := strictRing_le_last ring hsorted last hlast nd
            (List.mem_iff_getElem?.2 ⟨s, hnd⟩)
          omega
      · exact h0
    subst hs0
    refine ⟨first, n1, n2, hfirst, ?_, ?_, ?_⟩
    · simpa [h1] using hn1
    · simpa [h2] using hn2
    · simp [hn1, hn2]
  · rw [if_neg hcase]
    have hc1 : first.nodeHashCode < hashFunc key % RING_SIZE := by
      by_contra h; exact hcase (Or.inl (by omega))
    have hc2 : hashFunc key % RING_SIZE ≤ last.nodeHashCode := by
      by_contra h; exact hcase (Or.inr (by omega))
    rcases hs with ⟨⟨a, ha, hpa⟩, hbefore⟩ | ⟨_, hall⟩
    · have hslen : s < ring.length := (List.getElem?_eq_some_iff.1 ha).1
      obtain ⟨b, hb⟩ : ∃ x, ring[(s + 1) % ring.length]? = some x :=
        ⟨_, List.getElem?_eq_getElem (Nat.mod_lt _ hpos)⟩
      obtain ⟨c, hc⟩ : ∃ x, ring[(s + 2) % ring.length]? = some x :=
        ⟨_, List.getElem?_eq_getElem (Nat.mod_lt _ hpos)⟩
      refine ⟨a, b, c, ha, hb, hc, ?_⟩
      have hs1 : 1 ≤ s := by
        by_contra hne
        have hs0 : s = 0 := by omega
        subst hs0
        rw [hfirst] at ha
        cases ha
        omega
      exact findNodesScan_start _ ring s a b c ha hpa hbefore hb hc (ring.drop 1) 1
        (fun j => List.getElem?_drop ring 1 j) hs1
    · exfalso
      have := hall last (List.mem_iff_getElem?.2 ⟨_, hlast⟩)
      omega

/-! ## Distinct replicas -/

theorem exists_startIndex (p : Nat) (ring : List Node) :
    ∃ s, IsStartIndex p ring s ∧ (ring ≠ [] → s < ring.length) := by
  classical
  by_cases h : ∃ i : Nat, ∃ nd : Node, ring[i]? = some nd ∧ p ≤ nd.nodeHashCode
  · refine ⟨Nat.find h, Or.inl ⟨Nat.find_spec h, ?_⟩, ?_⟩
    · intro nd hnd
      obtain ⟨j, hj⟩ := List.mem_iff_getElem?.1 hnd
      have hjs : j < Nat.find h := by
        by_contra hge
        rw [List.getElem?_take_eq_none (by omega)] at hj
        exact Option.noConfusion hj
      rw [List.getElem?_take_of_lt hjs] at hj
      by_contra hlt
      exact Nat.find_min h hjs ⟨nd, hj, by omega⟩
    · intro _
      obtain ⟨nd, hnd, _⟩ := Nat.find_spec h
      exact (List.getElem?_eq_some_iff.1 hnd).1
  · refine ⟨0, Or.inr ⟨rfl, ?_⟩, ?_⟩
    · intro nd hnd
      obtain ⟨j, hj⟩ := List.mem_iff_getElem?.1 hnd
      by_contra hlt
      exact h ⟨j, nd, hj, by omega⟩
    · intro hne
      exact List.length_pos.2 hne

theorem strictRing_ne (ring : List Node) (hs : StrictRing ring) (i j : Nat) (a b : Node)
    (ha : ring[i]? = some a) (hb : ring[j]? = some b) (hij : i ≠ j) : a ≠ b := by
  intro hab
  subst hab
  rcases Nat.lt_or_gt_of_ne hij with h | h
  · exact absurd (strictRing_lt ring hs i j a a ha hb h) (lt_irrefl _)
  · exact absurd (strictRing_lt ring hs j i a a hb ha h) (lt_irrefl _)

theorem succ_mod_cases (s n : Nat) (hs : s < n) (hn : 3 ≤ n) :
    (s + 1) % n ≠ s ∧ (s + 2) % n ≠ s ∧ (s + 1) % n ≠ (s + 2) % n := by
  have e1 : (s + 1) % n = if s + 1 < n then s + 1 else s + 1 - n := by
    split
    · exact Nat.mod_eq_of_lt (by omega)
    · rw [Nat.mod_eq_sub_mod (by omega)]
      exact Nat.mod_eq_of_lt (by omega)
  have e2 : (s + 2) % n = if s + 2 < n then s + 2 else s + 2 - n := by
    split
    · exact Nat.mod_eq_of_lt (by omega)
    · rw [Nat.mod_eq_sub_mod (by omega)]
      exact Nat.mod_eq_of_lt (by omega)
  rw [e1, e2]
  split <;> split <;> omega

theorem findNodes_three_distinct (hashFunc : Str → Nat) (RING_SIZE : Nat) (ring : List Node)
    (key : Str) (hn : 3 ≤ ring.length) (hsorted : StrictRing ring) :
    ∃ a b c, findNodes hashFunc RING_SIZE ring key = some [a, b, c] ∧
      a ≠ b ∧ a ≠ c ∧ b ≠ c := by
  obtain ⟨s, hs, hlen⟩ := exists_startIndex (hashFunc key % RING_SIZE) ring
  have hslt : s < ring.length := hlen (by intro h; rw [h] at hn; simp at hn)
  obtain ⟨a, b, c, ha, hb, hc, hf⟩ :=
    findNodes_of_startIndex hashFunc RING_SIZE ring key s hn hsorted hs
  obtain ⟨m1, m2, m3⟩ := succ_mod_cases s ring.length hslt hn
  exact ⟨a, b, c, hf, strictRing_ne ring hsorted _ _ a b ha hb (Ne.symm m1),
    strictRing_ne ring hsorted _ _ a c ha hc (Ne.symm m2),
    strictRing_ne ring hsorted _ _ b c hb hc m3⟩

theorem findNodes_small (hashFunc : Str → Nat) (RING_SIZE : Nat) (ring : List Node)
    (key : Str) (hn : ring.length < 3) : findNodes hashFunc RING_SIZE ring key = some [] := by
  unfold findNodes
  simp only [ge_iff_le]
  rw [if_neg (by omega)]

/-! ## The REPLY handler -/

theorem kind_noColon (kind : Str)
    (hk : kind = strCREATE ∨ kind = strREAD ∨ kind = strUPDATE ∨ kind = strDELETE) :
    ∀ c ∈ kind, c ≠ ':' := by
  rcases hk with rfl | rfl | rfl | rfl <;> decide

theorem handleReply_absent (st : NodeState) (mesg : Message)
    (h : st.statusHT.contains (to_string mesg.transID) = false) :
    handleReply st mesg = some st := by
  unfold handleReply
  simp [st.statusHT.read_of_not_contains _ h]

theorem handleReadReply_absent (st : NodeState) (mesg : Message)
    (h : st.statusHT.contains (to_string mesg.transID) = false) :
    handleReadReply st mesg = some st := by
  unfold handleReadReply
  simp [st.statusHT.read_of_not_contains _ h]

theorem handleReply_record (st : NodeState) (mesg : Message) (kind ts : Str) (s f : Int)
    (a b : Str) (hk : ∀ c ∈ kind, c ≠ ':') (hts : ∀ c ∈ ts, c ≠ ':')
    (hread : st.statusHT.read (to_string mesg.transID) =
      txRecord kind ts (to_string s) (to_string f) a b) :
    ∃ k v rest, splitFields (a ++ sep ++ b) = k :: v :: rest ∧
      handleReply st mesg = some (replyOutcome st mesg kind ts s f k v) := by
  obtain ⟨k, v, rest, hsplit⟩ := splitFields_sep_two a b
  refine ⟨k, v, rest, hsplit, ?_⟩
  unfold handleReply
  simp only [hread, ne_eq, txRecord_ne_nil, not_false_eq_true, if_true]
  rw [splitFields_txRecord _ _ _ _ _ _ hk hts (to_string_noColon s) (to_string_noColon f),
    hsplit]
  simp [stoi_to_string]

theorem replyOutcome_open (st : NodeState) (mesg : Message) (kind ts : Str) (s f : Int)
    (k v : Str) (hc : st.statusHT.contains (to_string mesg.transID) = true)
    (hs : (if mesg.success then s + 1 else s) ≠ 2)
    (hf : (if mesg.success then f else f + 1) ≠ 2) :
    (replyOutcome st mesg kind ts s f k v).log = st.log ∧
      (replyOutcome st mesg kind ts s f k v).addr = st.addr ∧
      (replyOutcome st mesg kind ts s f k v).statusHT.read (to_string mesg.transID) =
        txRecord kind ts (to_string (if mesg.success then s + 1 else s))
          (to_string (if mesg.success then f else f + 1)) k v := by
  unfold replyOutcome
  simp only [hs, hf, if_false, ite_self]
  exact ⟨trivial, trivial, HashTable.read_update _ _ _ hc⟩

theorem replyOutcome_close (st : NodeState) (mesg : Message) (kind ts : Str) (s f : Int)
    (k v : Str) (hk : kind = strCREATE ∨ kind = strUPDATE ∨ kind = strDELETE)
    (ok : Bool)
    (h2 : (ok = true ∧ (if mesg.success then s + 1 else s) = 2) ∨
      (ok = false ∧ (if mesg.success then s + 1 else s) ≠ 2 ∧
        (if mesg.success then f else f + 1) = 2)) :
    (replyOutcome st mesg kind ts s f k v).log =
        st.log ++ [coordinatorOutcome kind ok st.addr mesg.transID k v] ∧
      (replyOutcome st mesg kind ts s f k v).addr = st.addr ∧
      (replyOutcome st mesg kind ts s f k v).statusHT.contains (to_string mesg.transID)
        = false := by
  unfold replyOutcome coordinatorOutcome
  rcases h2 with ⟨rfl, h⟩ | ⟨rfl, h, h'⟩
  · rcases hk with rfl | rfl | rfl <;>
      simp [h, NodeState.deleteStatus, NodeState.logCall, HashTable.contains_deleteKey,
        strCREATE, strUPDATE, strDELETE]
  · rcases hk with rfl | rfl | rfl <;>
      simp [h, h', NodeState.deleteStatus, NodeState.logCall, HashTable.contains_deleteKey,
        strCREATE, strUPDATE, strDELETE]

/-! ## Three replies -/

theorem reply_step_open (now : Int) (st : NodeState) (mesg : Message) (tid : Int)
    (kind ts : Str) (s f : Int) (a b : Str) (bs : Bool)
    (hk : ∀ c ∈ kind, c ≠ ':') (hts : ∀ c ∈ ts, c ≠ ':')
    (hty : mesg.type = .REPLY) (hid : mesg.transID = tid) (hb : mesg.success = bs)
    (hread : st.statusHT.read (to_string tid) =
      txRecord kind ts (to_string s) (to_string f) a b)
    (hs : (if bs then s + 1 else s) ≠ 2) (hf : (if bs then f else f + 1) ≠ 2) :
    ∃ st1 k v, handleMessage now st mesg = some st1 ∧ st1.log = st.log ∧ st1.addr = st.addr ∧
      st1.statusHT.read (to_string tid) =
        txRecord kind ts (to_string (if bs then s + 1 else s))
          (to_string (if bs then f else f + 1)) k v := by
  subst hid hb
  obtain ⟨k, v, rest, _, hh⟩ := handleReply_record st mesg kind ts s f a b hk hts hread
  have hc := st.statusHT.contains_of_read_ne_nil _ (by rw [hread]; exact txRecord_ne_nil _ _ _ _ _ _)
  obtain ⟨o1, o2, o3⟩ := replyOutcome_open st mesg kind ts s f k v hc hs hf
  exact ⟨_, k, v, by simp only [handleMessage, hty, hh], o1, o2, o3⟩

theorem reply_step_close (now : Int) (st : NodeState) (mesg : Message) (tid : Int)
    (kind ts : Str) (s f : Int) (a b : Str) (bs ok : Bool)
    (hk : kind = strCREATE ∨ kind = strUPDATE ∨ kind = strDELETE) (hts : ∀ c ∈ ts, c ≠ ':')
    (hty : mesg.type = .REPLY) (hid : mesg.transID = tid) (hb : mesg.success = bs)
    (hread : st.statusHT.read (to_string tid) =
      txRecord kind ts (to_string s) (to_string f) a b)
    (h2 : (ok = true ∧ (if bs then s + 1 else s) = 2) ∨
      (ok = false ∧ (if bs then s + 1 else s) ≠ 2 ∧ (if bs then f else f + 1) = 2)) :
    ∃ st1 k v, handleMessage now st mesg = some st1 ∧
      st1.log = st.log ++ [coordinatorOutcome kind ok st.addr tid k v] ∧
      st1.addr = st.addr ∧ st1.statusHT.contains (to_string tid) = false := by
  subst hid hb
  have hk4 : kind = strCREATE ∨ kind = strREAD ∨ kind = strUPDATE ∨ kind = strDELETE := by
    tauto
  obtain ⟨k, v, rest, _, hh⟩ :=
    handleReply_record st mesg kind ts s f a b (kind_noColon kind hk4) hts hread
  obtain ⟨o1, o2, o3⟩ := replyOutcome_close st mesg kind ts s f k v hk ok h2
  exact ⟨_, k, v, by simp only [handleMessage, hty, hh], o1, o2, o3⟩

theorem reply_step_absent (now : Int) (st : NodeState) (mesg : Message)
    (hty : mesg.type = .REPLY ∨ mesg.type = .READREPLY)
    (h : st.statusHT.contains (to_string mesg.transID) = false) :
    handleMessage now st mesg = some st := by
  rcases hty with hty | hty
  · simp only [handleMessage, hty, handleReply_absent st mesg h]
  · simp only [handleMessage, hty, handleReadReply_absent st mesg h]

theorem reply_three (now : Int) (st : NodeState) (tid created : Int)
    (kind key value : Str) (m1 m2 m3 : Message)
    (hkind : kind = strCREATE ∨ kind = strUPDATE ∨ kind = strDELETE)
    (hfresh : st.statusHT.read (to_string tid) =
      txRecord kind (to_string created) (to_string 0) (to_string 0) key value)
    (h1 : m1.type = .REPLY ∧ m1.transID = tid) (h2 : m2.type = .REPLY ∧ m2.transID = tid)
    (h3 : m3.type = .REPLY ∧ m3.transID = tid) :
    ∃ st1 k v, checkMessages now st [m1, m2, m3] = some st1 ∧
      st1.log = st.log ++ [coordinatorOutcome kind
        (atLeastTwo m1.success m2.success m3.success) st.addr tid k v] ∧
      st1.statusHT.contains (to_string tid) = false := by
  have hk4 : kind = strCREATE ∨ kind = strREAD ∨ kind = strUPDATE ∨ kind = strDELETE := by
    tauto
  have hkc := kind_noColon kind hk4
  have htc := to_string_noColon created
  obtain ⟨sa, k1, v1, ha, hla, haa, hra⟩ :=
    reply_step_open now st m1 tid kind _ 0 0 key value m1.success hkc htc h1.1 h1.2 rfl hfresh
      (by cases m1.success <;> decide) (by cases m1.success <;> decide)
  by_cases hsame : m2.success = m1.success
  · -- the second reply completes the quorum, the third finds no record
    obtain ⟨sb, k2, v2, hb, hlb, hab, hcb⟩ :=
      reply_step_close now sa m2 tid kind _ _ _ k1 v1 m2.success m1.success hkind htc
        h2.1 h2.2 rfl hra (by rw [hsame]; cases m1.success <;> decide)
    have hc := reply_step_absent now sb m3 (Or.inl h3.1) (by rw [h3.2]; exact hcb)
    refine ⟨sb, k2, v2, ?_, ?_, hcb⟩
    · simp [checkMessages, ha, hb, hc]
    · rw [hlb, hla, haa, hsame]
      cases m1.success <;> cases m3.success <;> rfl
  · obtain ⟨sb, k2, v2, hb, hlb, hab, hrb⟩ :=
      reply_step_open now sa m2 tid kind _ _ _ k1 v1 m2.success hkc htc h2.1 h2.2 rfl hra
        (by revert hsame; cases m1.success <;> cases m2.success <;> decide)
        (by revert hsame; cases m1.success <;> cases m2.success <;> decide)
    obtain ⟨sc, k3, v3, hc, hlc, hac, hcc⟩ :=
      reply_step_close now sb m3 tid kind _ _ _ k2 v2 m3.success m3.success hkind htc
        h3.1 h3.2 rfl hrb
        (by revert hsame; cases m1.success <;> cases m2.success <;> cases m3.success <;> decide)
    refine ⟨sc, k3, v3, ?_, ?_, hcc⟩
    · simp [checkMessages, ha, hb, hc]
    · rw [hlc, hlb, hla, hab, haa]
      revert hsame
      cases m1.success <;> cases m2.success <;> cases m3.success <;> simp [atLeastTwo]

/-! ## The invariant of the transaction table -/

theorem recordCounts_txRecord (kind ts : Str) (s f : Int) (a b : Str)
    (hk : ∀ c ∈ kind, c ≠ ':') (hts : ∀ c ∈ ts, c ≠ ':') :
    recordCounts (txRecord kind ts (to_string s) (to_string f) a b) = some (s, f) := by
  unfold recordCounts
  rw [splitFields_txRecord _ _ _ _ _ _ hk hts (to_string_noColon s) (to_string_noColon f)]
  simp [stoi_to_string]

theorem goodTable_counts (st : NodeState) (h : GoodTable st) : CountsAtMostTwo st := by
  intro p hp
  obtain ⟨kind, ts, s, f, a, b, hv, hk, hts, hs, hf⟩ := h p hp
  exact ⟨s, f, by rw [hv]; exact recordCounts_txRecord _ _ _ _ _ _ (kind_noColon _ hk) hts,
    by omega⟩

theorem sendToReplicas_statusHT (mk : Nat → Message) (l : List Node) :
    ∀ (st : NodeState) (i : Nat), (sendToReplicas st mk l i).statusHT = st.statusHT := by
  induction l with
  | nil => intro st i; rfl
  | cons nd l ih => intro st i; unfold sendToReplicas; rw [ih]; rfl

theorem goodTable_create (st st1 : NodeState) (key kind ts a b : Str)
    (hk : kind = strCREATE ∨ kind = strREAD ∨ kind = strUPDATE ∨ kind = strDELETE)
    (hts : ∀ c ∈ ts, c ≠ ':') (h : GoodTable st)
    (h1 : st1.statusHT = (st.statusHT.create key
      (txRecord kind ts (to_string 0) (to_string 0) a b)).2) : GoodTable st1 := by
  intro p hp
  rw [h1] at hp
  rcases HashTable.mem_create _ _ _ _ hp with hp | rfl
  · exact h p hp
  · exact ⟨kind, ts, 0, 0, a, b, rfl, hk, hts, by decide, by decide⟩

theorem goodTable_clientCreate (hashFunc : Str → Nat) (RING_SIZE : Nat) (now : Int)
    (st st1 : NodeState) (key value : Str) (h : GoodTable st)
    (hstep : clientCreate hashFunc RING_SIZE now st key value = some st1) : GoodTable st1 := by
  unfold clientCreate at hstep
  simp only [Option.bind_eq_bind, Option.bind_eq_some, Option.some.injEq] at hstep
  obtain ⟨replicas, _, rfl⟩ := hstep
  exact goodTable_create st _ _ strCREATE _ key value (Or.inl rfl) (to_string_noColon now) h
    (by rw [sendToReplicas_statusHT])

theorem goodTable_clientRead (hashFunc : Str → Nat) (RING_SIZE : Nat) (now : Int)
    (st st1 : NodeState) (key : Str) (h : GoodTable st)
    (hstep : clientRead hashFunc RING_SIZE now st key = some st1) : GoodTable st1 := by
  unfold clientRead at hstep
  simp only [Option.bind_eq_bind, Option.bind_eq_some, Option.some.injEq] at hstep
  obtain ⟨replicas, _, rfl⟩ := hstep
  exact goodTable_create st _ _ strREAD _ key [] (Or.inr (Or.inl rfl)) (to_string_noColon now) h
    (by rw [sendToReplicas_statusHT])

theorem goodTable_clientUpdate (hashFunc : Str → Nat) (RING_SIZE : Nat) (now : Int)
    (st st1 : NodeState) (key value : Str) (h : GoodTable st)
    (hstep : clientUpdate hashFunc RING_SIZE now st key value = some st1) : GoodTable st1 := by
  unfold clientUpdate at hstep
  simp only [Option.bind_eq_bind, Option.bind_eq_some, Option.some.injEq] at hstep
  obtain ⟨replicas, _, rfl⟩ := hstep
  exact goodTable_create st _ _ strUPDATE _ key value (Or.inr (Or.inr (Or.inl rfl)))
    (to_string_noColon now) h (by rw [sendToReplicas_statusHT])

theorem goodTable_clientDelete (hashFunc : Str → Nat) (RING_SIZE : Nat) (now : Int)
    (st st1 : NodeState) (key : Str) (h : GoodTable st)
    (hstep : clientDelete hashFunc RING_SIZE now st key = some st1) : GoodTable st1 := by
  unfold clientDelete at hstep
  simp only [Option.bind_eq_bind, Option.bind_eq_some, Option.some.injEq] at hstep
  obtain ⟨replicas, _, rfl⟩ := hstep
  exact goodTable_create st _ _ strDELETE _ key [] (Or.inr (Or.inr (Or.inr rfl)))
    (to_string_noColon now) h (by rw [sendToReplicas_statusHT])

theorem sweepLoop_subset (TIME_OUT now : Int) (recs : List (Str × Str)) :
    ∀ (tuple : List Str) (st st1 : NodeState), sweepLoop TIME_OUT now recs tuple st = some st1 →
      ∀ p ∈ st1.statusHT.hashTable, p ∈ st.statusHT.hashTable := by
  induction recs with
  | nil =>
    intro tuple st st1 h p hp
    simp only [sweepLoop, Option.some.injEq] at h
    subst h
    exact hp
  | cons r recs ih =>
    intro tuple st st1 h p hp
    obtain ⟨key, val⟩ := r
    unfold sweepLoop at h
    simp only [Option.bind_eq_bind, Option.bind_eq_some] at h
    obtain ⟨timestamp, _, t0, _, h⟩ := h
    split at h
    · simp only [Option.bind_eq_some] at h
      obtain ⟨tid, _, h⟩ := h
      exact HashTable.mem_deleteKey _ _ _ (ih _ _ _ h p hp)
    · split at h
      · simp only [Option.bind_eq_some] at h
        obtain ⟨tid, _, t5, _, h⟩ := h
        exact HashTable.mem_deleteKey _ _ _ (ih _ _ _ h p hp)
      · exact ih _ _ _ h p hp

theorem goodTable_timeoutSweep (TIME_OUT now : Int) (st st1 : NodeState) (h : GoodTable st)
    (hstep : timeoutSweep TIME_OUT now st = some st1) : GoodTable st1 :=
  fun p hp => h p (sweepLoop_subset TIME_OUT now _ _ _ _ hstep p hp)

theorem findNeighborsLoop_statusHT (ring : List Node) (rest : List Node) :
    ∀ (i : Nat) (st st1 : NodeState), findNeighborsLoop ring rest i st = some st1 →
      st1.statusHT = st.statusHT := by
  induction rest with
  | nil => intro i st st1 h; simp only [findNeighborsLoop, Option.some.injEq] at h; rw [← h]
  | cons x rest ih =>
    intro i st st1 h
    unfold findNeighborsLoop at h
    split at h
    · simp only [Option.bind_eq_bind, Option.bind_eq_some] at h
      obtain ⟨a, _, b, _, c, _, d, _, h⟩ := h
      have e := ih _ _ _ h
      exact e
    · exact ih _ _ _ h

theorem stabilizationSend_statusHT (st st1 : NodeState) (key : Str) (en : Entry)
    (h : stabilizationSend st key en = some st1) : st1.statusHT = st.statusHT := by
  unfold stabilizationSend at h
  split at h <;>
  · simp only [Option.bind_eq_bind, Option.bind_eq_some, Option.some.injEq] at h
    obtain ⟨n0, _, n1, _, rfl⟩ := h
    rfl

theorem stabilizationLoop_statusHT (recs : List (Str × Str)) :
    ∀ (st st1 : NodeState), stabilizationLoop recs st = some st1 →
      st1.statusHT = st.statusHT := by
  induction recs with
  | nil => intro st st1 h; simp only [stabilizationLoop, Option.some.injEq] at h; rw [← h]
  | cons r recs ih =>
    intro st st1 h
    obtain ⟨key, value⟩ := r
    unfold stabilizationLoop at h
    simp only [Option.bind_eq_some] at h
    obtain ⟨en, _, st2, h2, h⟩ := h
    rw [ih _ _ h, stabilizationSend_statusHT _ _ _ _ h2]

theorem stabilizationProtocol_statusHT (st st1 : NodeState)
    (h : stabilizationProtocol st = some st1) : st1.statusHT = st.statusHT := by
  unfold stabilizationProtocol at h
  simp only [Option.bind_eq_some] at h
  obtain ⟨st2, h2, h⟩ := h
  rw [stabilizationLoop_statusHT _ _ _ h]
  exact findNeighborsLoop_statusHT _ _ _ _ _ h2

theorem goodTable_updateRing (TIME_OUT now : Int) (curMemList : List Node)
    (st st1 : NodeState) (h : GoodTable st)
    (hstep : updateRing TIME_OUT now curMemList st = some st1) : GoodTable st1 := by
  unfold updateRing at hstep
  simp only [Option.bind_eq_some] at hstep
  obtain ⟨st2, h2, hsw⟩ := hstep
  refine goodTable_timeoutSweep TIME_OUT now st2 st1 ?_ hsw
  have e : st2.statusHT = st.statusHT := by
    split at h2
    · rw [stabilizationProtocol_statusHT _ _ h2]
    · simp only [Option.some.injEq] at h2
      rw [← h2]
  intro p hp
  rw [e] at hp
  exact h p hp

/-! ## The invariant under inbound messages -/

theorem HashTable.mem_update_deleteKey (t : HashTable) (key value : Str) (p : Str × Str)
    (h : p ∈ ((t.update key value).2.deleteKey key).2.hashTable) : p ∈ t.hashTable := by
  have h1 := HashTable.mem_deleteKey _ _ _ h
  have h2 := HashTable.mem_deleteKey_ne _ _ _ h
  rcases HashTable.mem_update _ _ _ _ h1 with h3 | h3
  · exact h3
  · rw [h3] at h2
    exact absurd rfl h2

theorem replyOutcome_mem (st : NodeState) (mesg : Message) (kind ts : Str) (s f : Int)
    (k v : Str) (hk : kind = strCREATE ∨ kind = strUPDATE ∨ kind = strDELETE)
    (p : Str × Str) (hp : p ∈ (replyOutcome st mesg kind ts s f k v).statusHT.hashTable) :
    p ∈ st.statusHT.hashTable ∨
      (p.2 = txRecord kind ts (to_string (if mesg.success then s + 1 else s))
          (to_string (if mesg.success then f else f + 1)) k v ∧
        (if mesg.success then s + 1 else s) ≠ 2 ∧ (if mesg.success then f else f + 1) ≠ 2) := by
  unfold replyOutcome at hp
  by_cases hs : (if mesg.success then s + 1 else s) = 2
  · left
    rcases hk with rfl | rfl | rfl <;>
    · simp only [hs, if_true, NodeState.deleteStatus, NodeState.logCall, strCREATE, strUPDATE,
        strDELETE, List.cons.injEq, Char.reduceEq, false_and, and_false, if_false] at hp
      exact HashTable.mem_update_deleteKey _ _ _ _ hp
  · by_cases hf : (if mesg.success then f else f + 1) = 2
    · left
      rcases hk with rfl | rfl | rfl <;>
      · simp only [hs, hf, if_true, if_false, NodeState.deleteStatus, NodeState.logCall,
          strCREATE, strUPDATE, strDELETE, List.cons.injEq, Char.reduceEq, false_and,
          and_false] at hp
        exact HashTable.mem_update_deleteKey _ _ _ _ hp
    · simp only [hs, hf, if_false, ite_self] at hp
      rcases HashTable.mem_update _ _ _ _ hp with h3 | h3
      · exact Or.inl h3
      · exact Or.inr ⟨by rw [h3], hs, hf⟩

theorem recordKind_txRecord (kind ts sc fc a b : Str) (hk : ∀ c ∈ kind, c ≠ ':') :
    recordKind (txRecord kind ts sc fc a b) = some kind := by
  have e : txRecord kind ts sc fc a b =
      kind ++ sep ++ (ts ++ sep ++ sc ++ sep ++ fc ++ sep ++ a ++ sep ++ b) := by
    simp [txRecord, List.append_assoc]
  unfold recordKind
  rw [e, splitFields_noColon_append _ hk]
  simp

theorem goodTable_handleReply (st st1 : NodeState) (mesg : Message) (h : GoodTable st)
    (hkind : recordKind (st.statusHT.read (to_string mesg.transID)) ≠ some strREAD)
    (hstep : handleReply st mesg = some st1) : GoodTable st1 := by
  by_cases hval : st.statusHT.read (to_string mesg.transID) = []
  · unfold handleReply at hstep
    simp only [hval, ne_eq, not_true_eq_false, if_false, Option.some.injEq] at hstep
    rw [← hstep]
    exact h
  · obtain ⟨kind, ts, s, f, a, b, hv, hk, hts, hs, hf⟩ := h _ (HashTable.read_mem _ _ hval)
    simp only at hv
    have hkc := kind_noColon kind hk
    obtain ⟨k, v, rest, _, hh⟩ := handleReply_record st mesg kind ts s f a b hkc hts hv
    rw [hh] at hstep
    simp only [Option.some.injEq] at hstep
    rw [hv, recordKind_txRecord _ _ _ _ _ _ hkc] at hkind
    have hk3 : kind = strCREATE ∨ kind = strUPDATE ∨ kind = strDELETE := by
      rcases hk with h1 | h1 | h1 | h1
      · exact Or.inl h1
      · exact absurd (by rw [h1]) hkind
      · exact Or.inr (Or.inl h1)
      · exact Or.inr (Or.inr h1)
    intro p hp
    rw [← hstep] at hp
    rcases replyOutcome_mem st mesg kind ts s f k v hk3 p hp with h1 | ⟨h1, h2, h3⟩
    · exact h p h1
    · refine ⟨kind, ts, _, _, k, v, h1, hk, hts, ?_, ?_⟩
      · revert h2; cases mesg.success <;> simp <;> omega
      · revert h3; cases mesg.success <;> simp <;> omega

theorem readReplyUpdate_spec (st : NodeState) (mesg : Message) (kind ts sc fc k v : Str)
    (rest : List Str) (s f : Int) (r : Int × Int × NodeState)
    (h : readReplyUpdate st mesg (kind :: ts :: sc :: fc :: k :: v :: rest) s f = some r) :
    ∃ w, r.2.2.statusHT = (st.statusHT.update (to_string mesg.transID)
        (txRecord kind ts (to_string r.1) (to_string r.2.1) k w)).2 ∧
      r.1 ≤ s + 1 ∧ r.2.1 ≤ f + 1 ∧ s ≤ r.1 ∧ f ≤ r.2.1 := by
  unfold readReplyUpdate at h
  split at h
  · simp only [Option.bind_eq_bind, Option.bind_eq_some, List.getElem?_cons_zero,
      List.getElem?_cons_succ, Option.some.injEq, exists_eq_left'] at h
    obtain ⟨en, _, rfl⟩ := h
    exact ⟨en.value, rfl, by simp⟩
  · simp only [Option.bind_eq_bind, Option.some_bind, List.getElem?_cons_zero,
      List.getElem?_cons_succ, Option.some.injEq] at h
    subst h
    exact ⟨v, rfl, by simp⟩

theorem readReplyQuorum_spec (st st1 : NodeState) (mesg : Message) (tuple : List Str)
    (s f : Int) (h : readReplyQuorum st mesg tuple s f = some st1) :
    st1.statusHT = (st.statusHT.deleteKey (to_string mesg.transID)).2 ∨
      (st1 = st ∧ s ≠ 2 ∧ f ≠ 2) := by
  unfold readReplyQuorum at h
  split at h
  · simp only [Option.bind_eq_bind, Option.bind_eq_some, Option.some.injEq] at h
    obtain ⟨en, _, t4, _, rfl⟩ := h
    exact Or.inl rfl
  · split at h
    · simp only [Option.bind_eq_bind, Option.bind_eq_some, Option.some.injEq] at h
      obtain ⟨t4, _, rfl⟩ := h
      exact Or.inl rfl
    · simp only [Option.some.injEq] at h
      exact Or.inr ⟨h.symm, by assumption, by assumption⟩

theorem goodTable_handleReadReply (st st1 : NodeState) (mesg : Message) (h : GoodTable st)
    (hstep : handleReadReply st mesg = some st1) : GoodTable st1 := by
  by_cases hval : st.statusHT.read (to_string mesg.transID) = []
  · unfold handleReadReply at hstep
    simp only [hval, ne_eq, not_true_eq_false, if_false, Option.some.injEq] at hstep
    rw [← hstep]
    exact h
  · obtain ⟨kind, ts, s, f, a, b, hv, hk, hts, hs, hf⟩ := h _ (HashTable.read_mem _ _ hval)
    simp only at hv
    have hkc := kind_noColon kind hk
    obtain ⟨k, v, rest, hsplit⟩ := splitFields_sep_two a b
    unfold handleReadReply at hstep
    simp only [hv, ne_eq, txRecord_ne_nil, not_false_eq_true, if_true] at hstep
    rw [splitFields_txRecord _ _ _ _ _ _ hkc hts (to_string_noColon s) (to_string_noColon f),
      hsplit] at hstep
    simp only [Option.bind_eq_bind, List.getElem?_cons_zero, List.getElem?_cons_succ,
      Option.some_bind, stoi_to_string, Option.bind_eq_some] at hstep
    obtain ⟨r, hr, hq⟩ := hstep
    obtain ⟨w, hw, hr1, hr2, _, _⟩ := readReplyUpdate_spec st mesg _ _ _ _ _ _ _ _ _ r hr
    intro p hp
    rcases readReplyQuorum_spec _ _ _ _ _ _ hq with hd | ⟨he, h1, h2⟩
    · rw [hd, hw] at hp
      exact h p (HashTable.mem_update_deleteKey _ _ _ _ hp)
    · rw [he, hw] at hp
      rcases HashTable.mem_update _ _ _ _ hp with h3 | h3
      · exact h p h3
      · exact ⟨kind, ts, r.1, r.2.1, k, w, by rw [h3], hk, hts, by omega, by omega⟩

theorem goodTable_reachable (hashFunc : Str → Nat) (RING_SIZE : Nat) (TIME_OUT : Int)
    (st : NodeState) (h : Reachable hashFunc RING_SIZE TIME_OUT replyOfKind st) :
    GoodTable st := by
  induction h with
  | init st h0 => intro p hp; rw [h0] at hp; simp at hp
  | create now st st1 key value _ hstep ih => exact goodTable_clientCreate _ _ _ _ _ _ _ ih hstep
  | read now st st1 key _ hstep ih => exact goodTable_clientRead _ _ _ _ _ _ ih hstep
  | update now st st1 key value _ hstep ih => exact goodTable_clientUpdate _ _ _ _ _ _ _ ih hstep
  | delete now st st1 key _ hstep ih => exact goodTable_clientDelete _ _ _ _ _ _ ih hstep
  | sweep now st st1 _ hstep ih => exact goodTable_timeoutSweep _ _ _ _ ih hstep
  | ringUpdate now curMemList st st1 _ hstep ih => exact goodTable_updateRing _ _ _ _ _ ih hstep
  | message now st st1 mesg _ hall hstep ih =>
    rcases hall with hty | ⟨hty, hkind⟩
    · simp only [handleMessage, hty] at hstep
      exact goodTable_handleReadReply _ _ _ ih hstep
    · simp only [handleMessage, hty] at hstep
      exact goodTable_handleReply _ _ _ ih hkind hstep

/-! ## The timeout sweep -/

theorem sweepLoop_createDelete (TIME_OUT now : Int) (recs : List (Str × Str)) :
    ∀ (tuple : List Str) (st : NodeState),
      (∀ p ∈ recs, (recordKind p.2 = some strCREATE ∨ recordKind p.2 = some strDELETE) ∧
        (recordCreated p.2).isSome = true) →
      (tuple = [] ∨ ((tuple[0]? = some strCREATE ∨ tuple[0]? = some strDELETE) ∧
        ((tuple[1]?).bind stoi).isSome = true)) →
      sweepLoop TIME_OUT now recs tuple st = some st := by
  induction recs with
  | nil => intro tuple st _ _; rfl
  | cons r recs ih =>
    intro tuple st hrecs htuple
    obtain ⟨key, val⟩ := r
    have hr := hrecs (key, val) (List.mem_cons_self _ _)
    simp only [recordKind, recordCreated] at hr
    have hnew : ((tuple ++ splitFields val)[0]? = some strCREATE ∨
        (tuple ++ splitFields val)[0]? = some strDELETE) ∧
        (((tuple ++ splitFields val)[1]?).bind stoi).isSome = true := by
      rcases htuple with rfl | ⟨h0, h1⟩
      · simpa using hr
      · have hlen : 1 < tuple.length := by
          by_contra hle
          rw [List.getElem?_eq_none (by omega)] at h1
          simp at h1
        rw [List.getElem?_append_left (by omega), List.getElem?_append_left hlen]
        exact ⟨h0, h1⟩
    obtain ⟨hkind, hts⟩ := hnew
    obtain ⟨t, ht⟩ := Option.isSome_iff_exists.1 hts
    have hrec := ih (tuple ++ splitFields val) st
      (fun p hp => hrecs p (List.mem_cons_of_mem _ hp)) (Or.inr ⟨hkind, hts⟩)
    unfold sweepLoop
    rcases hkind with hk | hk
    · simp only [Option.bind_eq_bind, ht, hk, Option.some_bind, strCREATE, strREAD, strUPDATE,
        List.cons.injEq, Char.reduceEq, false_and, and_false, if_false]
      exact hrec
    · simp only [Option.bind_eq_bind, ht, hk, Option.some_bind, strDELETE, strREAD, strUPDATE,
        List.cons.injEq, Char.reduceEq, false_and, and_false, if_false]
      exact hrec

theorem timeoutSweep_createDelete (TIME_OUT now : Int) (st : NodeState)
    (h : ∀ p ∈ st.statusHT.hashTable,
      (recordKind p.2 = some strCREATE ∨ recordKind p.2 = some strDELETE) ∧
        (recordCreated p.2).isSome = true) :
    timeoutSweep TIME_OUT now st = some st :=
  sweepLoop_createDelete TIME_OUT now _ [] st h (Or.inl rfl)

/-! ## The claims -/

/-- C1: for a ring of at least three peers sorted strictly ascending by hash code and
`p = hash(k) mod RING_SIZE`, `findNodes(k)` returns exactly
`[ring[s], ring[(s+1) mod n], ring[(s+2) mod n]]`, where `s` is the least index whose peer has a
hash code `≥ p`, or `s = 0` when no peer has one. -/
theorem findNodes_replica_set (hashFunc : Str → Nat) (RING_SIZE : Nat) (ring : List Node)
    (key : Str) (s : Nat) (hn : 3 ≤ ring.length) (hsorted : StrictRing ring)
    (hs : IsStartIndex (hashFunc key % RING_SIZE) ring s) :
    ∃ a b c, ring[s]? = some a ∧ ring[(s + 1) % ring.length]? = some b ∧
      ring[(s + 2) % ring.length]? = some c ∧
      findNodes hashFunc RING_SIZE ring key = some [a, b, c] :=
  findNodes_of_startIndex hashFunc RING_SIZE ring key s hn hsorted hs

/-- Witness of C1: on `ring5` a key at position 25 has start index 2 and the replica set
`30, 40, 50`. -/
theorem findNodes_replica_set_witness :
    ∃ a b c, ring5[2]? = some a ∧ ring5[(2 + 1) % ring5.length]? = some b ∧
      ring5[(2 + 2) % ring5.length]? = some c ∧
      findNodes (fun _ => 25) 512 ring5 keyK = some [a, b, c] :=
  findNodes_replica_set (fun _ => 25) 512 ring5 keyK 2 (by decide) (by decide)
    (Or.inl ⟨⟨peer 30, rfl, by decide⟩, by decide⟩)

/-- C2: `findNodes(k)` returns exactly three pairwise distinct peers whenever the ring holds at
least three peers strictly ordered by hash code, and the empty list whenever the ring holds fewer
than three peers. -/
theorem findNodes_three_or_none (hashFunc : Str → Nat) (RING_SIZE : Nat) (ring : List Node)
    (key : Str) :
    (3 ≤ ring.length → StrictRing ring →
      ∃ a b c, findNodes hashFunc RING_SIZE ring key = some [a, b, c] ∧
        a ≠ b ∧ a ≠ c ∧ b ≠ c) ∧
    (ring.length < 3 → findNodes hashFunc RING_SIZE ring key = some []) :=
  ⟨findNodes_three_distinct hashFunc RING_SIZE ring key,
    findNodes_small hashFunc RING_SIZE ring key⟩

/-- Witness of C2: three distinct replicas on `ring5`, none on a ring of two peers. -/
theorem findNodes_three_or_none_witness :
    (∃ a b c, findNodes (fun _ => 45) 512 ring5 keyK = some [a, b, c] ∧
        a ≠ b ∧ a ≠ c ∧ b ≠ c) ∧
    findNodes (fun _ => 45) 512 [peer 10, peer 20] keyK = some [] :=
  ⟨(findNodes_three_or_none (fun _ => 45) 512 ring5 keyK).1 (by decide) (by decide),
    (findNodes_three_or_none (fun _ => 45) 512 [peer 10, peer 20] keyK).2 (by decide)⟩

/-- C3: for a freshly registered CREATE, UPDATE or DELETE transaction (both counts 0) and any
three REPLY messages carrying its id, handled in order by `checkMessages`: exactly one
coordinator-side outcome is logged for that id, it is the success log of the kind if and only if
at least two of the three replies are successes (the failure log of the kind otherwise), and the
record is absent from the transaction table afterwards. -/
theorem reply_quorum_of_three (now : Int) (st : NodeState) (tid created : Int)
    (kind key value : Str) (m1 m2 m3 : Message)
    (hkind : kind = strCREATE ∨ kind = strUPDATE ∨ kind = strDELETE)
    (hfresh : st.statusHT.read (to_string tid) =
      txRecord kind (to_string created) (to_string 0) (to_string 0) key value)
    (h1 : m1.type = .REPLY ∧ m1.transID = tid) (h2 : m2.type = .REPLY ∧ m2.transID = tid)
    (h3 : m3.type = .REPLY ∧ m3.transID = tid) :
    ∃ st1 k v, checkMessages now st [m1, m2, m3] = some st1 ∧
      st1.log = st.log ++ [coordinatorOutcome kind
        (atLeastTwo m1.success m2.success m3.success) st.addr tid k v] ∧
      st1.statusHT.contains (to_string tid) = false :=
  reply_three now st tid created kind key value m1 m2 m3 hkind hfresh h1 h2 h3

/-- Witness of C3: the pending CREATE of `pendingCreate` with the replies success, failure,
success. -/
theorem reply_quorum_of_three_witness :
    ∃ st1 k v, checkMessages 1 pendingCreate [replyMsg true, replyMsg false, replyMsg true]
        = some st1 ∧
      st1.log = pendingCreate.log ++ [coordinatorOutcome strCREATE
        (atLeastTwo (replyMsg true).success (replyMsg false).success (replyMsg true).success)
        pendingCreate.addr 1 k v] ∧
      st1.statusHT.contains (to_string 1) = false :=
  reply_quorum_of_three 1 pendingCreate 1 0 strCREATE keyK valV (replyMsg true)
    (replyMsg false) (replyMsg true) (Or.inl rfl) (by decide) ⟨rfl, rfl⟩ ⟨rfl, rfl⟩ ⟨rfl, rfl⟩

/-- C4: a REPLY or READREPLY whose transaction id has no record in the transaction table is
dropped by `checkMessages`: the state of the node (transaction table, local store, log calls,
messages sent) is unchanged. -/
theorem checkMessages_drops_unknown (now : Int) (st : NodeState) (mesg : Message)
    (hty : mesg.type = .REPLY ∨ mesg.type = .READREPLY)
    (habsent : st.statusHT.contains (to_string mesg.transID) = false) :
    checkMessages now st [mesg] = some st := by
  simp [checkMessages, reply_step_absent now st mesg hty habsent]

/-- Witness of C4: a REPLY for transaction 7 at a node whose only pending transaction is 1. -/
theorem checkMessages_drops_unknown_witness :
    checkMessages 1 pendingCreate [Message.ofSuccess 7 ⟨20, 0⟩ .REPLY true]
      = some pendingCreate :=
  checkMessages_drops_unknown 1 pendingCreate (Message.ofSuccess 7 ⟨20, 0⟩ .REPLY true)
    (Or.inl rfl) (by decide)

theorem reachable_checkMessages (hashFunc : Str → Nat) (RING_SIZE : Nat) (TIME_OUT now : Int)
    (queue : List Message) :
    ∀ (st st1 : NodeState), Reachable hashFunc RING_SIZE TIME_OUT anyReply st →
      (∀ m ∈ queue, m.type = .REPLY ∨ m.type = .READREPLY) →
      checkMessages now st queue = some st1 →
      Reachable hashFunc RING_SIZE TIME_OUT anyReply st1 := by
  induction queue with
  | nil =>
    intro st st1 hr _ h
    simp only [checkMessages, Option.some.injEq] at h
    rw [← h]
    exact hr
  | cons m queue ih =>
    intro st st1 hr hq h
    simp only [checkMessages, Option.bind_eq_some] at h
    obtain ⟨st2, h2, h3⟩ := h
    exact ih st2 st1 (.message now st st2 m hr (hq m (List.mem_cons_self _ _)) h2)
      (fun x hx => hq x (List.mem_cons_of_mem _ hx)) h3

/-- Counterexample to C5 as stated: after `clientRead` and three successful REPLY messages for
its transaction the READ record is still in the table, with success count 3. -/
theorem counts_any_reply_counterexample :
    ¬ ∀ st, Reachable (fun _ => 5) 512 10 anyReply st → CountsAtMostTwo st := by
  intro hall
  have h0 : Reachable (fun _ => 5) 512 10 anyReply (freshNode 10 ring5) := .init _ rfl
  have h1 : Reachable (fun _ => 5) 512 10 anyReply pendingRead :=
    .read 0 (freshNode 10 ring5) pendingRead keyK h0 (by decide)
  have h2 : Reachable (fun _ => 5) 512 10 anyReply readThreeReplies :=
    reachable_checkMessages _ _ _ 1 [replyMsg true, replyMsg true, replyMsg true] pendingRead
      readThreeReplies h1 (by decide) (by decide)
  obtain ⟨s, f, hc, hle⟩ := hall readThreeReplies h2
    (to_string 1, txRecord strREAD (to_string 0) (to_string 3) (to_string 0) keyK [])
    (by decide)
  have hc2 : recordCounts (txRecord strREAD (to_string 0) (to_string 3) (to_string 0) keyK [])
      = some (3, 0) := by decide
  simp only [hc2, Option.some.injEq, Prod.mk.injEq] at hc
  omega

/-- C5 (amended): in every state reachable from the empty transaction table by client calls,
timeout sweeps, ring updates and the handling of READREPLY messages and of REPLY messages that
do not carry the id of a READ record, every record that remains in the table has
`success + failure ≤ 2`. -/
theorem counts_at_most_two (hashFunc : Str → Nat) (RING_SIZE : Nat) (TIME_OUT : Int)
    (st : NodeState) (h : Reachable hashFunc RING_SIZE TIME_OUT replyOfKind st) :
    CountsAtMostTwo st :=
  goodTable_counts st (goodTable_reachable hashFunc RING_SIZE TIME_OUT st h)

/-- Witness of C5 (amended): the state after `clientCreate` and one successful REPLY for its
transaction is reachable. -/
theorem counts_at_most_two_witness : CountsAtMostTwo createOneReply :=
  counts_at_most_two (fun _ => 5) 512 10 createOneReply
    (.message 1 pendingCreate createOneReply (replyMsg true)
      (.create 0 (freshNode 10 ring5) pendingCreate keyK valV (.init _ rfl) (by decide))
      (Or.inr ⟨rfl, by decide⟩) (by decide))

theorem pendingCreateRead_table :
    pendingCreateRead.statusHT.hashTable =
      [(to_string 1, txRecord strCREATE (to_string 0) (to_string 0) (to_string 0) keyK valV),
        (to_string 2, txRecord strREAD (to_string 0) (to_string 0) (to_string 0) keyK [])] := by
  decide

/-- C6 (failing input): the table of `pendingCreateRead` holds the CREATE record 1 and the READ
record 2, both created at time 0. Whatever TIME_OUT and the current time are, the sweep judges
record 2 by the fields of record 1, which are still at the front of `tuple`: the READ record is
not removed and nothing is logged, however old it is. -/
theorem sweep_keeps_stale_read (TIME_OUT now : Int) :
    recordKind (pendingCreateRead.statusHT.read (to_string 2)) = some strREAD ∧
      recordCreated (pendingCreateRead.statusHT.read (to_string 2)) = some 0 ∧
      timeoutSweep TIME_OUT now pendingCreateRead = some pendingCreateRead := by
  refine ⟨by decide, by decide, ?_⟩
  have e1 : splitFields (txRecord strCREATE (to_string 0) (to_string 0) (to_string 0) keyK valV)
      = [strCREATE, to_string 0, to_string 0, to_string 0, keyK, valV] := by decide
  have e2 : stoi (to_string 0) = some 0 := stoi_to_string 0
  have e3 : ¬ strCREATE = strREAD := by decide
  have e4 : ¬ strCREATE = strUPDATE := by decide
  unfold timeoutSweep
  rw [pendingCreateRead_table]
  simp [sweepLoop, e1, e2, e3, e4]

/-- Counterexample to C7: with TIME_OUT = 10, the CREATE record of `pendingCreate`, created at
time 0, is still in the table after the sweep at time 100, and nothing is logged. -/
theorem sweep_keeps_stale_create :
    recordKind (pendingCreate.statusHT.read (to_string 1)) = some strCREATE ∧
      recordCreated (pendingCreate.statusHT.read (to_string 1)) = some 0 ∧
      ∃ st1, timeoutSweep 10 100 pendingCreate = some st1 ∧
        st1.statusHT.contains (to_string 1) = true ∧ st1.log = pendingCreate.log :=
  ⟨by decide, by decide, pendingCreate, by decide, by decide, rfl⟩

/-- C7 (amended): the timeout sweep has no branch for CREATE and DELETE records: on a
transaction table that holds only CREATE and DELETE records, whatever their age, the sweep
removes no record and makes no log call; the state of the node is unchanged. -/
theorem sweep_ignores_create_delete (TIME_OUT now : Int) (st : NodeState)
    (h : ∀ p ∈ st.statusHT.hashTable,
      (recordKind p.2 = some strCREATE ∨ recordKind p.2 = some strDELETE) ∧
        (recordCreated p.2).isSome = true) :
    timeoutSweep TIME_OUT now st = some st :=
  timeoutSweep_createDelete TIME_OUT now st h

/-- Witness of C7 (amended): the pending CREATE of `pendingCreate`, swept at time 100. -/
theorem sweep_ignores_create_delete_witness :
    timeoutSweep 10 100 pendingCreate = some pendingCreate :=
  sweep_ignores_create_delete 10 100 pendingCreate (by decide)

/-- C8 (failing input): with TIME_OUT = 10, at time 100 the table of `pendingReadRead` holds the
READ record 1 created at time 0 and the READ record 2 created at time 100. The sweep removes
record 1 and then judges record 2 by the time stamp of record 1: record 2, of age 0, is removed
as well and a READ failure is logged for it. -/
theorem sweep_removes_fresh_read :
    recordCreated (pendingReadRead.statusHT.read (to_string 2)) = some 100 ∧
      (timeoutSweep 10 100 pendingReadRead).map (fun st => (st.statusHT.hashTable, st.log)) =
        some ([], [.logReadFail ⟨10, 0⟩ true 1
            (txRecord strREAD (to_string 0) (to_string 0) (to_string 0) keyK []),
          .logReadFail ⟨10, 0⟩ true 2
            (txRecord strREAD (to_string 100) (to_string 0) (to_string 0) keyK [])]) := by
  decide

/-- C9 (failing input): on `ring5` the key `"k"` (hash position 5) is stored by its replicas
`10`, `20`, `30`, tagged PRIMARY, SECONDARY, TERTIARY. When the primary `10` fails and the
survivors run one repair round on `ring4`, the replica set is `20, 30, 40`, but no CREATE is sent
to the peer `40`: it does not store the key (the peer `50` does). -/
theorem repair_misses_new_tertiary :
    findNodes (fun _ => 5) 512 ring5 keyK = some [peer 10, peer 20, peer 30] ∧
      nodes5Created.map (fun ns => ns.map (fun nd => (nd.addr.id,
        (Entry.fromString (nd.ht.read keyK)).map (fun en => en.replica)))) =
        some [(10, some .PRIMARY), (20, some .SECONDARY), (30, some .TERTIARY),
          (40, none), (50, none)] ∧
      findNodes (fun _ => 5) 512 ring4 keyK = some [peer 20, peer 30, peer 40] ∧
      nodes4Repaired.map (fun ns => ns.map (fun nd => (nd.addr.id, storesKey keyK nd))) =
        some [(20, true), (30, true), (40, false), (50, true)] := by
  decide

/-- C10: `createKeyValue` applies the local-store create (the entry is inserted if and only if
the key is absent); with transaction id -1 it makes no log call and sends no message, with any
other transaction id it makes exactly one replica-side log call and sends exactly one REPLY, to
the coordinator. -/
theorem createKeyValue_effects (now : Int) (st : NodeState) (key value : Str)
    (replica : ReplicaType) (transID : Int) (coodAddr : Address) :
    (createKeyValue now st key value replica transID coodAddr).1.ht =
        (st.ht.create key (Entry.convertToString ⟨value, now, replica⟩)).2 ∧
      (createKeyValue now st key value replica transID coodAddr).2 = !st.ht.contains key ∧
      (st.ht.contains key = false →
        (createKeyValue now st key value replica transID coodAddr).1.ht.hashTable =
          insertSorted key (Entry.convertToString ⟨value, now, replica⟩) st.ht.hashTable) ∧
      (st.ht.contains key = true →
        (createKeyValue now st key value replica transID coodAddr).1.ht = st.ht) ∧
      (transID = -1 →
        (createKeyValue now st key value replica transID coodAddr).1.log = st.log ∧
        (createKeyValue now st key value replica transID coodAddr).1.sent = st.sent) ∧
      (transID ≠ -1 →
        (createKeyValue now st key value replica transID coodAddr).1.log = st.log ++
          [if st.ht.contains key then .logCreateFail st.addr false transID key value
            else .logCreateSuccess st.addr false transID key value] ∧
        (createKeyValue now st key value replica transID coodAddr).1.sent = st.sent ++
          [(coodAddr, Message.ofSuccess transID st.addr .REPLY (!st.ht.contains key))]) := by
  by_cases hc : st.ht.contains key = true <;> by_cases ht : transID = -1 <;>
    simp [createKeyValue, HashTable.create, hc, ht, NodeState.logCall, NodeState.ENsend]

/-- Witness of C10: a stabilization CREATE and a client CREATE at a fresh node. -/
theorem createKeyValue_effects_witness :
    ((createKeyValue 3 (freshNode 40 ring4) keyK valV .TERTIARY (-1) ⟨20, 0⟩).1.log = [] ∧
      (createKeyValue 3 (freshNode 40 ring4) keyK valV .TERTIARY (-1) ⟨20, 0⟩).1.sent = []) ∧
    ((createKeyValue 3 (freshNode 40 ring4) keyK valV .TERTIARY 1 ⟨20, 0⟩).1.log = [] ++
        [if (freshNode 40 ring4).ht.contains keyK
          then .logCreateFail (freshNode 40 ring4).addr false 1 keyK valV
          else .logCreateSuccess (freshNode 40 ring4).addr false 1 keyK valV] ∧
      (createKeyValue 3 (freshNode 40 ring4) keyK valV .TERTIARY 1 ⟨20, 0⟩).1.sent = [] ++
        [(⟨20, 0⟩, Message.ofSuccess 1 (freshNode 40 ring4).addr .REPLY
          (!(freshNode 40 ring4).ht.contains keyK))]) :=
  ⟨(createKeyValue_effects 3 (freshNode 40 ring4) keyK valV .TERTIARY (-1) ⟨20, 0⟩).2.2.2.2.1 rfl,
    (createKeyValue_effects 3 (freshNode 40 ring4) keyK valV .TERTIARY 1 ⟨20, 0⟩).2.2.2.2.2
      (by decide)⟩

/-! ## Serialised entries -/

theorem dropWhile_noColon (p rest : Str) (hp : ∀ c ∈ p, c ≠ ':') :
    (p ++ ':' :: rest).dropWhile (fun c => c != ':') = ':' :: rest := by
  induction p with
  | nil => simp [List.dropWhile]
  | cons c p ih =>
    have hc : c ≠ ':' := hp c (List.mem_cons_self _ _)
    have hb : (c != ':') = true := by simpa using hc
    rw [List.cons_append, List.dropWhile_cons, if_pos hb]
    exact ih (fun d hd => hp d (List.mem_cons_of_mem _ hd))

theorem takeWhile_noColon (p rest : Str) (hp : ∀ c ∈ p, c ≠ ':') :
    (p ++ ':' :: rest).takeWhile (fun c => c != ':') = p := by
  induction p with
  | nil => simp [List.takeWhile]
  | cons c p ih =>
    have hc : c ≠ ':' := hp c (List.mem_cons_self _ _)
    have hb : (c != ':') = true := by simpa using hc
    rw [List.cons_append, List.takeWhile_cons, if_pos hb,
      ih (fun d hd => hp d (List.mem_cons_of_mem _ hd))]

theorem ReplicaType.ofChar_toChar (r : ReplicaType) : ReplicaType.ofChar r.toChar = some r := by
  cases r <;> decide

theorem Entry.fromString_convertToString (en : Entry) :
    Entry.fromString en.convertToString = some en := by
  unfold Entry.fromString Entry.convertToString
  rw [dropWhile_noColon _ _ (to_string_noColon en.timestamp),
    takeWhile_noColon _ _ (to_string_noColon en.timestamp)]
  simp [stoi_to_string, ReplicaType.ofChar_toChar]

theorem Entry.convertToString_ne_nil (en : Entry) : en.convertToString ≠ [] := by
  unfold Entry.convertToString
  simp

/-! ## Fields that are read back -/

theorem splitFields_head_cons (r : Str) (f0 : Char) (f1 : Str) (fs : List Str)
    (h : splitFields r = (f0 :: f1) :: fs) : ∃ r1, r = f0 :: r1 := by
  cases r with
  | nil => simp [splitFields] at h
  | cons c rest =>
    by_cases hm : ∃ rest1, c = ':' ∧ rest = ':' :: rest1
    · obtain ⟨rest1, rfl, rfl⟩ := hm
      rw [splitFields_sep] at h
      simp at h
    · have hne : ∀ rest1, c = ':' → rest = ':' :: rest1 → False :=
        fun rest1 h1 h2 => hm ⟨rest1, h1, h2⟩
      rw [splitFields.eq_3 _ _ hne] at h
      cases hs : splitFields rest with
      | nil => exact absurd hs (splitFields_ne_nil rest)
      | cons g gs =>
        rw [hs] at h
        simp only [List.cons.injEq] at h
        exact ⟨rest, by rw [h.1.1]⟩

theorem splitFields_head_nil (r : Str) (fs : List Str) (h : splitFields r = [] :: fs)
    (hfs : fs ≠ []) : ∃ r1, r = ':' :: ':' :: r1 := by
  cases r with
  | nil => simp [splitFields] at h; exact absurd h hfs
  | cons c rest =>
    by_cases hm : ∃ rest1, c = ':' ∧ rest = ':' :: rest1
    · obtain ⟨rest1, rfl, rfl⟩ := hm
      exact ⟨rest1, rfl⟩
    · have hne : ∀ rest1, c = ':' → rest = ':' :: rest1 → False :=
        fun rest1 h1 h2 => hm ⟨rest1, h1, h2⟩
      rw [splitFields.eq_3 _ _ hne] at h
      cases hs : splitFields rest with
      | nil => exact absurd hs (splitFields_ne_nil rest)
      | cons g gs =>
        rw [hs] at h
        simp at h

theorem splitFields_cons_eq (c : Char) (x f : Str) (fs : List Str)
    (hne : ∀ rest, c = ':' → x = ':' :: rest → False) (hx : splitFields x = f :: fs) :
    splitFields (c :: x) = (c :: f) :: fs := by
  rw [splitFields.eq_3 _ _ hne, hx]

theorem splitFields_field_append (s : Str) :
    ∀ (k : Str) (rest : List Str), splitFields s = k :: rest → rest ≠ [] →
      ∀ x, splitFields (k ++ sep ++ x) = k :: splitFields x := by
  induction s using splitFields.induct with
  | case1 =>
    intro k rest h hrest
    simp [splitFields] at h
    exact absurd h.2 hrest
  | case2 r ih =>
    intro k rest h hrest x
    rw [splitFields_sep] at h
    simp only [List.cons.injEq] at h
    rw [← h.1]
    simp [sep, splitFields_sep]
  | case3 c r hne f fs heq ih =>
    intro k rest h hrest x
    rw [splitFields_cons_eq c r f fs hne heq] at h
    simp only [List.cons.injEq] at h
    obtain ⟨rfl, rfl⟩ := h
    have h2 := ih f fs heq hrest x
    simp only [List.cons_append]
    refine splitFields_cons_eq c _ f _ ?_ h2
    intro rest1 hc hstart
    cases f with
    | nil =>
      obtain ⟨r1, hr1⟩ := splitFields_head_nil r fs heq hrest
      exact hne _ hc hr1
    | cons f0 f1 =>
      obtain ⟨r1, hr1⟩ := splitFields_head_cons r f0 f1 fs heq
      simp only [List.cons_append, List.cons.injEq] at hstart
      exact hne r1 hc (by rw [hr1, hstart.1])
  | case4 c r hne heq ih =>
    intro k rest h
    exact absurd heq (splitFields_ne_nil r)

theorem splitFields_field (s : Str) : ∀ f ∈ splitFields s, splitFields f = [f] := by
  induction s using splitFields.induct with
  | case1 => intro f hf; simp [splitFields] at hf; subst hf; simp [splitFields]
  | case2 r ih =>
    intro f hf
    rw [splitFields_sep] at hf
    rcases List.mem_cons.1 hf with rfl | hf
    · simp [splitFields]
    · exact ih f hf
  | case3 c r hne g gs heq ih =>
    intro f hf
    rw [splitFields_cons_eq c r g gs hne heq] at hf
    rcases List.mem_cons.1 hf with rfl | hf
    · have hg : splitFields g = [g] := ih g (by rw [heq]; exact List.mem_cons_self _ _)
      refine splitFields_cons_eq c g g [] ?_ hg
      intro rest1 hc hstart
      subst hstart
      obtain ⟨r1, hr1⟩ := splitFields_head_cons r _ _ gs heq
      exact hne r1 hc hr1
    · exact ih f (by rw [heq]; exact List.mem_cons_of_mem _ hf)
  | case4 c r hne heq ih => exact absurd heq (splitFields_ne_nil r)

/-- The fields 4 and 5 of a record are read back unchanged once the record is rewritten with
them. -/
theorem splitFields_rewritten (a b k v : Str) (rest : List Str)
    (h : splitFields (a ++ sep ++ b) = k :: v :: rest) :
    splitFields (k ++ sep ++ v) = [k, v] := by
  rw [splitFields_field_append _ k (v :: rest) h (by simp),
    splitFields_field _ v (by rw [h]; simp)]

/-! ## Neighbours and the stabilization loop -/

theorem findNeighborsLoop_frame (ring : List Node) (rest : List Node) :
    ∀ (i : Nat) (st st1 : NodeState), findNeighborsLoop ring rest i st = some st1 →
      ∃ h r, st1 = { st with hasMyReplicas := h, haveReplicasOf := r } := by
  induction rest with
  | nil =>
    intro i st st1 h
    simp only [findNeighborsLoop, Option.some.injEq] at h
    exact ⟨st.hasMyReplicas, st.haveReplicasOf, h.symm⟩
  | cons x rest ih =>
    intro i st st1 h
    unfold findNeighborsLoop at h
    split at h
    · simp only [Option.bind_eq_bind, Option.bind_eq_some] at h
      obtain ⟨a, _, b, _, c, _, d, _, h⟩ := h
      obtain ⟨hh, r, e⟩ := ih _ _ _ h
      exact ⟨hh, r, e⟩
    · exact ih _ _ _ h

theorem findNeighborsLoop_total (ring : List Node) (hne : ring ≠ []) (rest : List Node) :
    ∀ (i : Nat) (st : NodeState),
      ∃ st1, findNeighborsLoop ring rest i st = some st1 ∧
        (((st.hasMyReplicas.length = 2 ∧ st.haveReplicasOf.length = 2) ∨
            ∃ nd ∈ rest, nd.nodeAddress = st.addr) →
          st1.hasMyReplicas.length = 2 ∧ st1.haveReplicasOf.length = 2) := by
  have hpos : 0 < ring.length := List.length_pos.2 hne
  induction rest with
  | nil =>
    intro i st
    refine ⟨st, rfl, ?_⟩
    rintro (h | ⟨nd, hnd, _⟩)
    · exact h
    · simp at hnd
  | cons x rest ih =>
    intro i st
    unfold findNeighborsLoop
    by_cases hx : x.nodeAddress = st.addr
    · rw [if_pos hx]
      obtain ⟨a, ha⟩ : ∃ a, ring[toSizeT ((i : Int) + 1) % ring.length]? = some a :=
        ⟨_, List.getElem?_eq_getElem (Nat.mod_lt _ hpos)⟩
      obtain ⟨b, hb⟩ : ∃ a, ring[toSizeT ((i : Int) + 2) % ring.length]? = some a :=
        ⟨_, List.getElem?_eq_getElem (Nat.mod_lt _ hpos)⟩
      obtain ⟨c, hc⟩ : ∃ a, ring[toSizeT ((i : Int) - 1) % ring.length]? = some a :=
        ⟨_, List.getElem?_eq_getElem (Nat.mod_lt _ hpos)⟩
      obtain ⟨d, hd⟩ : ∃ a, ring[toSizeT ((i : Int) - 2) % ring.length]? = some a :=
        ⟨_, List.getElem?_eq_getElem (Nat.mod_lt _ hpos)⟩
      simp only [ha, hb, hc, hd, Option.bind_eq_bind, Option.some_bind]
      obtain ⟨st1, h1, h2⟩ := ih (i + 1)
        { st with hasMyReplicas := [a, b], haveReplicasOf := [c, d] }
      exact ⟨st1, h1, fun _ => h2 (Or.inl ⟨rfl, rfl⟩)⟩
    · rw [if_neg hx]
      obtain ⟨st1, h1, h2⟩ := ih (i + 1) st
      refine ⟨st1, h1, ?_⟩
      rintro (h | ⟨nd, hnd, hadd⟩)
      · exact h2 (Or.inl h)
      · rcases List.mem_cons.1 hnd with rfl | hnd
        · exact absurd hadd hx
        · exact h2 (Or.inr ⟨nd, hnd, hadd⟩)

theorem stabilizationSend_eq (st : NodeState) (h0 h1 r0 r1 : Node) (key : Str) (en : Entry)
    (hh : st.hasMyReplicas = [h0, h1]) (hr : st.haveReplicasOf = [r0, r1]) :
    stabilizationSend st key en =
      some { st with sent := st.sent ++ stabilizationMessages st.addr h0 h1 r0 r1 key en } := by
  unfold stabilizationSend stabilizationMessages
  cases en.replica <;> simp [hh, hr, NodeState.ENsend]

theorem stabilizationLoop_eq (h0 h1 r0 r1 : Node) (entries : List (Str × Entry)) :
    ∀ (st : NodeState), st.hasMyReplicas = [h0, h1] → st.haveReplicasOf = [r0, r1] →
      stabilizationLoop (storeOf entries) st =
        some { st with sent := st.sent ++ stabilizationFanOut st.addr h0 h1 r0 r1 entries } := by
  induction entries with
  | nil => intro st _ _; simp [storeOf, stabilizationLoop, stabilizationFanOut]
  | cons p entries ih =>
    intro st hh hr
    obtain ⟨key, en⟩ := p
    have e : storeOf ((key, en) :: entries) = (key, en.convertToString) :: storeOf entries := rfl
    rw [e]
    unfold stabilizationLoop
    rw [Entry.fromString_convertToString, Option.some_bind,
      stabilizationSend_eq st h0 h1 r0 r1 key en hh hr, Option.some_bind,
      ih { st with sent := st.sent ++ stabilizationMessages st.addr h0 h1 r0 r1 key en } hh hr]
    simp [stabilizationFanOut, List.append_assoc]

/-! ## The neighbours on a ring of distinct peers -/

theorem toSizeT_natCast (k : Nat) (h : k < 2 ^ 64) : toSizeT (k : Int) = k := by
  unfold toSizeT
  have h1 : ((k : Int) % 2 ^ 64) = (k : Int) := Int.emod_eq_of_lt (by omega) (by exact_mod_cast h)
  rw [h1]
  simp

theorem address_index_unique (ring : List Node)
    (hd : (ring.map (fun nd => nd.nodeAddress)).Nodup) (i j : Nat) (a b : Node)
    (ha : ring[i]? = some a) (hb : ring[j]? = some b) (hab : a.nodeAddress = b.nodeAddress) :
    i = j := by
  have hi : i < (ring.map (fun nd => nd.nodeAddress)).length := by
    rw [List.length_map]
    exact (List.getElem?_eq_some_iff.1 ha).1
  refine List.getElem?_inj hi hd ?_
  rw [List.getElem?_map, List.getElem?_map, ha, hb]
  simp [hab]

theorem findNeighborsLoop_at (ring : List Node) (addr : Address) (i0 : Nat) (nd0 a b c d : Node)
    (hd : (ring.map (fun nd => nd.nodeAddress)).Nodup)
    (h0 : ring[i0]? = some nd0) (hself : nd0.nodeAddress = addr)
    (ha : ring[toSizeT ((i0 : Int) + 1) % ring.length]? = some a)
    (hb : ring[toSizeT ((i0 : Int) + 2) % ring.length]? = some b)
    (hc : ring[toSizeT ((i0 : Int) - 1) % ring.length]? = some c)
    (hdd : ring[toSizeT ((i0 : Int) - 2) % ring.length]? = some d) (rest : List Node) :
    ∀ (i : Nat) (st : NodeState), st.addr = addr → (∀ j, rest[j]? = ring[i + j]?) →
      findNeighborsLoop ring rest i st =
        some (if i ≤ i0 then { st with hasMyReplicas := [a, b], haveReplicasOf := [c, d] }
          else st) := by
  induction rest with
  | nil =>
    intro i st _ hrest
    have h1 := hrest 0
    simp only [List.getElem?_nil, Nat.add_zero] at h1
    have h2 : ring.length ≤ i := List.getElem?_eq_none_iff.1 h1.symm
    have h3 : i0 < ring.length := (List.getElem?_eq_some_iff.1 h0).1
    rw [if_neg (by omega)]
    rfl
  | cons x rest ih =>
    intro i st hst hrest
    have hx : ring[i]? = some x := by
      have := hrest 0
      simpa using this.symm
    have hrest1 : ∀ j, rest[j]? = ring[i + 1 + j]? := by
      intro j
      have := hrest (j + 1)
      simp only [List.getElem?_cons_succ] at this
      rw [this]
      congr 1
      omega
    unfold findNeighborsLoop
    by_cases hxa : x.nodeAddress = st.addr
    · have hi : i = i0 :=
        address_index_unique ring hd i i0 x nd0 hx h0 (by rw [hxa, hst, hself])
      subst hi
      rw [if_pos hxa]
      simp only [ha, hb, hc, hdd, Option.bind_eq_bind, Option.some_bind]
      rw [ih (i + 1) { st with hasMyReplicas := [a, b], haveReplicasOf := [c, d] } hst hrest1,
        if_neg (by omega), if_pos (le_refl _)]
    · have hi : i ≠ i0 := by
        rintro rfl
        rw [hx] at h0
        cases h0
        exact hxa (by rw [hself, hst])
      rw [if_neg hxa, ih (i + 1) st hst hrest1]
      by_cases hle : i ≤ i0
      · rw [if_pos hle, if_pos (by omega)]
      · rw [if_neg hle, if_neg (by omega)]

theorem findNeighbors_at (st : NodeState) (i0 : Nat) (nd0 : Node)
    (hd : (st.ring.map (fun nd => nd.nodeAddress)).Nodup)
    (h0 : st.ring[i0]? = some nd0) (hself : nd0.nodeAddress = st.addr) :
    ∃ a b c d, st.ring[toSizeT ((i0 : Int) + 1) % st.ring.length]? = some a ∧
      st.ring[toSizeT ((i0 : Int) + 2) % st.ring.length]? = some b ∧
      st.ring[toSizeT ((i0 : Int) - 1) % st.ring.length]? = some c ∧
      st.ring[toSizeT ((i0 : Int) - 2) % st.ring.length]? = some d ∧
      findNeighbors st = some { st with hasMyReplicas := [a, b], haveReplicasOf := [c, d] } := by
  have hlt : i0 < st.ring.length := (List.getElem?_eq_some_iff.1 h0).1
  have hpos : 0 < st.ring.length := by omega
  obtain ⟨a, ha⟩ : ∃ a, st.ring[toSizeT ((i0 : Int) + 1) % st.ring.length]? = some a :=
    ⟨_, List.getElem?_eq_getElem (Nat.mod_lt _ hpos)⟩
  obtain ⟨b, hb⟩ : ∃ a, st.ring[toSizeT ((i0 : Int) + 2) % st.ring.length]? = some a :=
    ⟨_, List.getElem?_eq_getElem (Nat.mod_lt _ hpos)⟩
  obtain ⟨c, hc⟩ : ∃ a, st.ring[toSizeT ((i0 : Int) - 1) % st.ring.length]? = some a :=
    ⟨_, List.getElem?_eq_getElem (Nat.mod_lt _ hpos)⟩
  obtain ⟨d, hdd⟩ : ∃ a, st.ring[toSizeT ((i0 : Int) - 2) % st.ring.length]? = some a :=
    ⟨_, List.getElem?_eq_getElem (Nat.mod_lt _ hpos)⟩
  refine ⟨a, b, c, d, ha, hb, hc, hdd, ?_⟩
  unfold findNeighbors
  rw [findNeighborsLoop_at st.ring st.addr i0 nd0 a b c d hd h0 hself ha hb hc hdd st.ring 0 st
    rfl (fun j => by rw [Nat.zero_add]), if_pos (Nat.zero_le _)]

/-! ## The fan-out of the client calls -/

theorem to_string_injective (a b : Int) (h : to_string a = to_string b) : a = b := by
  have h1 := stoi_to_string a
  rw [h, stoi_to_string b] at h1
  exact (Option.some.inj h1).symm

theorem sendToReplicas_eq (mk : Nat → Message) (l : List Node) :
    ∀ (st : NodeState) (i : Nat), sendToReplicas st mk l i =
      { st with sent := st.sent ++ (l.enumFrom i).map (fun p => (p.2.nodeAddress, mk p.1)) } := by
  induction l with
  | nil => intro st i; simp [sendToReplicas]
  | cons nd l ih =>
    intro st i
    unfold sendToReplicas
    rw [ih]
    simp [NodeState.ENsend, List.enumFrom_cons, List.append_assoc]

theorem findNodesScan_shape (pos : Nat) (ring : List Node) (hne : ring ≠ []) (rest : List Node) :
    ∀ i, ∃ reps, findNodesScan pos ring rest i = some reps ∧
      (reps = [] ∨ ∃ a b c, reps = [a, b, c]) := by
  have hpos : 0 < ring.length := List.length_pos.2 hne
  induction rest with
  | nil => intro i; exact ⟨[], rfl, Or.inl rfl⟩
  | cons x rest ih =>
    intro i
    unfold findNodesScan
    by_cases hx : pos ≤ x.nodeHashCode
    · rw [if_pos hx]
      obtain ⟨b, hb⟩ : ∃ a, ring[(i + 1) % ring.length]? = some a :=
        ⟨_, List.getElem?_eq_getElem (Nat.mod_lt _ hpos)⟩
      obtain ⟨c, hc⟩ : ∃ a, ring[(i + 2) % ring.length]? = some a :=
        ⟨_, List.getElem?_eq_getElem (Nat.mod_lt _ hpos)⟩
      exact ⟨[x, b, c], by simp [hb, hc], Or.inr ⟨x, b, c, rfl⟩⟩
    · rw [if_neg hx]
      exact ih (i + 1)

theorem findNodes_shape (hashFunc : Str → Nat) (RING_SIZE : Nat) (ring : List Node)
    (key : Str) :
    ∃ reps, findNodes hashFunc RING_SIZE ring key = some reps ∧
      (reps = [] ∨ ∃ a b c, reps = [a, b, c]) := by
  unfold findNodes
  by_cases hn : ring.length ≥ 3
  · have hn3 : 3 ≤ ring.length := hn
    obtain ⟨first, hfirst⟩ : ∃ x, ring[0]? = some x :=
      ⟨_, List.getElem?_eq_getElem (by omega)⟩
    obtain ⟨last, hlast⟩ : ∃ x, ring[ring.length - 1]? = some x :=
      ⟨_, List.getElem?_eq_getElem (by omega)⟩
    obtain ⟨n1, hn1⟩ : ∃ x, ring[1]? = some x := ⟨_, List.getElem?_eq_getElem (by omega)⟩
    obtain ⟨n2, hn2⟩ : ∃ x, ring[2]? = some x := ⟨_, List.getElem?_eq_getElem (by omega)⟩
    simp only [hn, if_true, hfirst, hlast, hn1, hn2, Option.bind_eq_bind, Option.some_bind]
    split
    · exact ⟨_, rfl, Or.inr ⟨_, _, _, rfl⟩⟩
    · exact findNodesScan_shape _ ring (by intro h; rw [h] at hn3; simp at hn3) _ 1
  · rw [if_neg hn]
    exact ⟨[], rfl, Or.inl rfl⟩

theorem find?_insertSorted_self (key value : Str) (l : List (Str × Str))
    (h : l.any (fun p => p.1 == key) = false) :
    (insertSorted key value l).find? (fun p => p.1 == key) = some (key, value) := by
  induction l with
  | nil => simp [insertSorted]
  | cons q l ih =>
    obtain ⟨k, v⟩ := q
    simp only [List.any_cons, Bool.or_eq_false_iff] at h
    unfold insertSorted
    split
    · simp
    · simp only [List.find?, h.1]
      exact ih h.2

theorem find?_insertSorted_ne (key value k : Str) (l : List (Str × Str)) (hk : k ≠ key) :
    (insertSorted key value l).find? (fun p => p.1 == k) = l.find? (fun p => p.1 == k) := by
  have hk2 : (key == k) = false := by simpa using Ne.symm hk
  induction l with
  | nil => simp [insertSorted, List.find?, hk2]
  | cons q l ih =>
    obtain ⟨k1, v⟩ := q
    unfold insertSorted
    split
    · simp [List.find?, hk2]
    · simp only [List.find?]
      rw [ih]

theorem HashTable.read_create_self (t : HashTable) (key value : Str)
    (h : t.contains key = false) : (t.create key value).2.read key = value := by
  unfold HashTable.create HashTable.read
  rw [if_neg (by simp [h])]
  simp only
  rw [find?_insertSorted_self key value _ h]

theorem HashTable.read_create_ne (t : HashTable) (key value k : Str) (hk : k ≠ key) :
    (t.create key value).2.read k = t.read k := by
  unfold HashTable.create
  split
  · rfl
  · unfold HashTable.read
    simp only
    rw [find?_insertSorted_ne key value k _ hk]

theorem idsAllocated_fresh (st : NodeState) (h : IdsAllocated st) :
    st.statusHT.contains (to_string (st.g_transID + 1)) = false := by
  unfold HashTable.contains
  rw [List.any_eq_false]
  intro p hp
  obtain ⟨n, hn, hp1⟩ := h p hp
  intro hcon
  simp only [beq_iff_eq] at hcon
  rw [hp1] at hcon
  have := to_string_injective _ _ hcon
  omega

/-! ## Transaction ids -/

theorem KeysKept.refl (st : NodeState) : KeysKept st st :=
  ⟨rfl, fun p hp => ⟨p, hp, rfl⟩⟩

theorem KeysKept.trans (a b c : NodeState) (h1 : KeysKept a b) (h2 : KeysKept b c) :
    KeysKept a c := by
  refine ⟨h2.1.trans h1.1, fun p hp => ?_⟩
  obtain ⟨q, hq, e⟩ := h2.2 p hp
  obtain ⟨r, hr, e2⟩ := h1.2 q hq
  exact ⟨r, hr, e2.trans e⟩

theorem idsAllocated_keysKept (st st1 : NodeState) (h : IdsAllocated st)
    (hk : KeysKept st st1) : IdsAllocated st1 := by
  intro p hp
  obtain ⟨q, hq, e⟩ := hk.2 p hp
  obtain ⟨n, hn, hq1⟩ := h q hq
  exact ⟨n, by rw [hk.1]; exact hn, by rw [← e, hq1]⟩

theorem HashTable.update_keys (t : HashTable) (key value : Str) (p : Str × Str)
    (h : p ∈ (t.update key value).2.hashTable) : ∃ q ∈ t.hashTable, q.1 = p.1 := by
  unfold HashTable.update at h
  split at h
  · simp only [List.mem_map] at h
    obtain ⟨q, hq, rfl⟩ := h
    refine ⟨q, hq, ?_⟩
    split <;> rfl
  · exact ⟨p, h, rfl⟩

theorem keysKept_update (st : NodeState) (key value : Str) :
    KeysKept st { st with statusHT := (st.statusHT.update key value).2 } :=
  ⟨rfl, fun p hp => HashTable.update_keys _ _ _ p hp⟩

theorem keysKept_logDelete (st : NodeState) (c : LogCall) (key : Str) :
    KeysKept st ((st.logCall c).deleteStatus key) :=
  ⟨rfl, fun p hp => ⟨p, HashTable.mem_deleteKey _ _ _ hp, rfl⟩⟩

theorem keysKept_replyOutcome (st : NodeState) (mesg : Message) (t0 t1 : Str) (s f : Int)
    (t4 t5 : Str) : KeysKept st (replyOutcome st mesg t0 t1 s f t4 t5) := by
  unfold replyOutcome
  simp only
  split_ifs <;>
    first
    | exact keysKept_update st _ _
    | exact KeysKept.trans _ _ _ (keysKept_update st _ _) (keysKept_logDelete _ _ _)

theorem keysKept_handleReply (st st1 : NodeState) (mesg : Message)
    (h : handleReply st mesg = some st1) : KeysKept st st1 := by
  unfold handleReply at h
  simp only at h
  split at h
  · simp only [Option.bind_eq_bind, Option.bind_eq_some, Option.some.injEq] at h
    obtain ⟨s, _, f, _, t0, _, t1, _, t4, _, t5, _, rfl⟩ := h
    exact keysKept_replyOutcome _ _ _ _ _ _ _ _
  · simp only [Option.some.injEq] at h
    rw [← h]
    exact KeysKept.refl st

theorem keysKept_readReplyUpdate (st : NodeState) (mesg : Message) (tuple : List Str)
    (s f : Int) (r : Int × Int × NodeState)
    (h : readReplyUpdate st mesg tuple s f = some r) : KeysKept st r.2.2 := by
  unfold readReplyUpdate at h
  simp only at h
  split at h
  · simp only [Option.bind_eq_bind, Option.bind_eq_some, Option.some.injEq] at h
    obtain ⟨en, _, t0, _, t1, _, t4, _, rfl⟩ := h
    exact keysKept_update st _ _
  · simp only [Option.bind_eq_bind, Option.bind_eq_some, Option.some.injEq] at h
    obtain ⟨t0, _, t1, _, t4, _, t5, _, rfl⟩ := h
    exact keysKept_update st _ _

theorem keysKept_readReplyQuorum (st st1 : NodeState) (mesg : Message) (tuple : List Str)
    (s f : Int) (h : readReplyQuorum st mesg tuple s f = some st1) : KeysKept st st1 := by
  unfold readReplyQuorum at h
  simp only at h
  split at h
  · simp only [Option.bind_eq_bind, Option.bind_eq_some, Option.some.injEq] at h
    obtain ⟨en, _, t4, _, rfl⟩ := h
    exact keysKept_logDelete _ _ _
  · split at h
    · simp only [Option.bind_eq_bind, Option.bind_eq_some, Option.some.injEq] at h
      obtain ⟨t4, _, rfl⟩ := h
      exact keysKept_logDelete _ _ _
    · simp only [Option.some.injEq] at h
      rw [← h]
      exact KeysKept.refl st

theorem keysKept_handleReadReply (st st1 : NodeState) (mesg : Message)
    (h : handleReadReply st mesg = some st1) : KeysKept st st1 := by
  unfold handleReadReply at h
  simp only at h
  split at h
  · simp only [Option.bind_eq_bind, Option.bind_eq_some] at h
    obtain ⟨s, _, f, _, r, hr, hq⟩ := h
    exact KeysKept.trans _ _ _ (keysKept_readReplyUpdate _ _ _ _ _ _ hr)
      (keysKept_readReplyQuorum _ _ _ _ _ _ hq)
  · simp only [Option.some.injEq] at h
    rw [← h]
    exact KeysKept.refl st

theorem createKeyValue_status (now : Int) (st : NodeState) (key value : Str)
    (replica : ReplicaType) (transID : Int) (coodAddr : Address) :
    (createKeyValue now st key value replica transID coodAddr).1.statusHT = st.statusHT ∧
      (createKeyValue now st key value replica transID coodAddr).1.g_transID = st.g_transID := by
  unfold createKeyValue
  simp only
  split_ifs <;> exact ⟨rfl, rfl⟩

theorem updateKeyValue_status (now : Int) (st : NodeState) (key value : Str)
    (replica : ReplicaType) (transID : Int) (coodAddr : Address) :
    (updateKeyValue now st key value replica transID coodAddr).1.statusHT = st.statusHT ∧
      (updateKeyValue now st key value replica transID coodAddr).1.g_transID = st.g_transID := by
  unfold updateKeyValue
  simp only
  split_ifs <;> exact ⟨rfl, rfl⟩

theorem deletekey_status (st : NodeState) (key : Str) (transID : Int) (coodAddr : Address) :
    (deletekey st key transID coodAddr).1.statusHT = st.statusHT ∧
      (deletekey st key transID coodAddr).1.g_transID = st.g_transID := by
  unfold deletekey
  simp only
  split_ifs <;> exact ⟨rfl, rfl⟩

theorem readKey_status (st : NodeState) (key : Str) (transID : Int) (coodAddr : Address)
    (r : NodeState × Str) (h : readKey st key transID coodAddr = some r) :
    r.1.statusHT = st.statusHT ∧ r.1.g_transID = st.g_transID := by
  unfold readKey at h
  by_cases hres : st.ht.read key = []
  · simp only [hres, ne_eq, not_true_eq_false, if_false, Option.bind_eq_bind, Option.some_bind,
      Option.some.injEq] at h
    rw [← h]
    exact ⟨rfl, rfl⟩
  · cases hfs : Entry.fromString (st.ht.read key) with
    | none =>
      simp only [hres, ne_eq, not_false_eq_true, if_true, Option.bind_eq_bind, hfs,
        Option.none_bind] at h
      exact Option.noConfusion h
    | some en =>
      simp only [hres, ne_eq, not_false_eq_true, if_true, Option.bind_eq_bind, hfs,
        Option.some_bind, Option.some.injEq] at h
      rw [← h]
      exact ⟨rfl, rfl⟩

theorem keysKept_of_eq (st st1 : NodeState) (h1 : st1.statusHT = st.statusHT)
    (h2 : st1.g_transID = st.g_transID) : KeysKept st st1 :=
  ⟨h2, fun p hp => ⟨p, by rw [← h1]; exact hp, rfl⟩⟩

theorem keysKept_handleMessage (now : Int) (st st1 : NodeState) (mesg : Message)
    (h : handleMessage now st mesg = some st1) : KeysKept st st1 := by
  unfold handleMessage at h
  split at h
  · simp only [Option.some.injEq] at h
    rw [← h]
    exact keysKept_of_eq _ _ (createKeyValue_status _ _ _ _ _ _ _).1
      (createKeyValue_status _ _ _ _ _ _ _).2
  · simp only [Option.some.injEq] at h
    rw [← h]
    exact keysKept_of_eq _ _ (deletekey_status _ _ _ _).1 (deletekey_status _ _ _ _).2
  · simp only [Option.map_eq_some'] at h
    obtain ⟨r, hr, rfl⟩ := h
    exact keysKept_of_eq _ _ (readKey_status _ _ _ _ r hr).1 (readKey_status _ _ _ _ r hr).2
  · simp only [Option.some.injEq] at h
    rw [← h]
    exact keysKept_of_eq _ _ (updateKeyValue_status _ _ _ _ _ _ _).1
      (updateKeyValue_status _ _ _ _ _ _ _).2
  · exact keysKept_handleReply _ _ _ h
  · exact keysKept_handleReadReply _ _ _ h

theorem keysKept_sweepLoop (TIME_OUT now : Int) (recs : List (Str × Str)) :
    ∀ (tuple : List Str) (st st1 : NodeState),
      sweepLoop TIME_OUT now recs tuple st = some st1 → KeysKept st st1 := by
  induction recs with
  | nil =>
    intro tuple st st1 h
    simp only [sweepLoop, Option.some.injEq] at h
    rw [← h]
    exact KeysKept.refl st
  | cons r recs ih =>
    intro tuple st st1 h
    obtain ⟨key, val⟩ := r
    unfold sweepLoop at h
    simp only [Option.bind_eq_bind, Option.bind_eq_some] at h
    obtain ⟨timestamp, _, t0, _, h⟩ := h
    split at h
    · simp only [Option.bind_eq_some] at h
      obtain ⟨tid, _, h⟩ := h
      exact KeysKept.trans _ _ _ (keysKept_logDelete _ _ _) (ih _ _ _ h)
    · split at h
      · simp only [Option.bind_eq_some] at h
        obtain ⟨tid, _, t5, _, h⟩ := h
        exact KeysKept.trans _ _ _ (keysKept_logDelete _ _ _) (ih _ _ _ h)
      · exact ih _ _ _ h

theorem stabilizationSend_frame (st st1 : NodeState) (key : Str) (en : Entry)
    (h : stabilizationSend st key en = some st1) : ∃ sent, st1 = { st with sent := sent } := by
  unfold stabilizationSend at h
  split at h <;>
  · simp only [Option.bind_eq_bind, Option.bind_eq_some, Option.some.injEq] at h
    obtain ⟨n0, _, n1, _, rfl⟩ := h
    exact ⟨_, rfl⟩

theorem stabilizationLoop_frame (recs : List (Str × Str)) :
    ∀ (st st1 : NodeState), stabilizationLoop recs st = some st1 →
      ∃ sent, st1 = { st with sent := sent } := by
  induction recs with
  | nil =>
    intro st st1 h
    simp only [stabilizationLoop, Option.some.injEq] at h
    exact ⟨st.sent, h.symm⟩
  | cons r recs ih =>
    intro st st1 h
    obtain ⟨key, value⟩ := r
    unfold stabilizationLoop at h
    simp only [Option.bind_eq_some] at h
    obtain ⟨en, _, st2, h2, h⟩ := h
    obtain ⟨s2, rfl⟩ := stabilizationSend_frame _ _ _ _ h2
    obtain ⟨s3, rfl⟩ := ih _ _ h
    exact ⟨s3, rfl⟩

theorem keysKept_updateRing (TIME_OUT now : Int) (curMemList : List Node)
    (st st1 : NodeState) (h : updateRing TIME_OUT now curMemList st = some st1) :
    KeysKept st st1 := by
  unfold updateRing at h
  simp only [Option.bind_eq_some] at h
  obtain ⟨st2, h2, hsw⟩ := h
  refine KeysKept.trans _ _ _ ?_ (keysKept_sweepLoop _ _ _ _ _ _ hsw)
  split at h2
  · unfold stabilizationProtocol at h2
    simp only [Option.bind_eq_some] at h2
    obtain ⟨st3, h3, h4⟩ := h2
    obtain ⟨hh, rr, rfl⟩ := findNeighborsLoop_frame _ _ _ _ _ h3
    obtain ⟨s3, rfl⟩ := stabilizationLoop_frame _ _ _ h4
    exact keysKept_of_eq _ _ rfl rfl
  · simp only [Option.some.injEq] at h2
    rw [← h2]
    exact keysKept_of_eq _ _ rfl rfl

theorem idsAllocated_client (st st1 : NodeState) (value : Str) (h : IdsAllocated st)
    (hg : st1.g_transID = st.g_transID + 1)
    (ht : st1.statusHT = (st.statusHT.create (to_string (st.g_transID + 1)) value).2) :
    IdsAllocated st1 := by
  intro p hp
  rw [ht] at hp
  rcases HashTable.mem_create _ _ _ _ hp with hp | rfl
  · obtain ⟨n, hn, e⟩ := h p hp
    exact ⟨n, by rw [hg]; omega, e⟩
  · exact ⟨st.g_transID + 1, by rw [hg], rfl⟩

theorem idsAllocated_reachable (hashFunc : Str → Nat) (RING_SIZE : Nat) (TIME_OUT : Int)
    (allowed : NodeState → Message → Prop) (st : NodeState)
    (h : Reachable hashFunc RING_SIZE TIME_OUT allowed st) : IdsAllocated st := by
  induction h with
  | init st h0 => intro p hp; rw [h0] at hp; simp at hp
  | create now st st1 key value _ hstep ih =>
    unfold clientCreate at hstep
    simp only [Option.bind_eq_bind, Option.bind_eq_some, Option.some.injEq] at hstep
    obtain ⟨replicas, _, rfl⟩ := hstep
    exact idsAllocated_client st _ (txRecord strCREATE (to_string now) (to_string 0) (to_string 0) key value) ih
      (by simp [sendToReplicas_eq]) (by simp [sendToReplicas_eq])
  | read now st st1 key _ hstep ih =>
    unfold clientRead at hstep
    simp only [Option.bind_eq_bind, Option.bind_eq_some, Option.some.injEq] at hstep
    obtain ⟨replicas, _, rfl⟩ := hstep
    exact idsAllocated_client st _ (txRecord strREAD (to_string now) (to_string 0) (to_string 0) key []) ih
      (by simp [sendToReplicas_eq]) (by simp [sendToReplicas_eq])
  | update now st st1 key value _ hstep ih =>
    unfold clientUpdate at hstep
    simp only [Option.bind_eq_bind, Option.bind_eq_some, Option.some.injEq] at hstep
    obtain ⟨replicas, _, rfl⟩ := hstep
    exact idsAllocated_client st _ (txRecord strUPDATE (to_string now) (to_string 0) (to_string 0) key value) ih
      (by simp [sendToReplicas_eq]) (by simp [sendToReplicas_eq])
  | delete now st st1 key _ hstep ih =>
    unfold clientDelete at hstep
    simp only [Option.bind_eq_bind, Option.bind_eq_some, Option.some.injEq] at hstep
    obtain ⟨replicas, _, rfl⟩ := hstep
    exact idsAllocated_client st _ (txRecord strDELETE (to_string now) (to_string 0) (to_string 0) key []) ih
      (by simp [sendToReplicas_eq]) (by simp [sendToReplicas_eq])
  | sweep now st st1 _ hstep ih =>
    exact idsAllocated_keysKept _ _ ih (keysKept_sweepLoop _ _ _ _ _ _ hstep)
  | ringUpdate now curMemList st st1 _ hstep ih =>
    exact idsAllocated_keysKept _ _ ih (keysKept_updateRing _ _ _ _ _ hstep)
  | message now st st1 mesg _ _ hstep ih =>
    exact idsAllocated_keysKept _ _ ih (keysKept_handleMessage _ _ _ _ hstep)

/-! ## The READREPLY handler -/

theorem Entry.fromString_nil : Entry.fromString [] = none := by
  simp [Entry.fromString]

theorem handleReadReply_record (st : NodeState) (mesg : Message) (kind ts : Str) (s f : Int)
    (a b k v : Str) (rest : List Str) (hk : ∀ c ∈ kind, c ≠ ':') (hts : ∀ c ∈ ts, c ≠ ':')
    (hread : st.statusHT.read (to_string mesg.transID) =
      txRecord kind ts (to_string s) (to_string f) a b)
    (hsplit : splitFields (a ++ sep ++ b) = k :: v :: rest) :
    handleReadReply st mesg =
      (readReplyUpdate st mesg
        (kind :: ts :: to_string s :: to_string f :: k :: v :: rest) s f).bind
        (fun r => readReplyQuorum r.2.2 mesg
          (kind :: ts :: to_string s :: to_string f :: k :: v :: rest) r.1 r.2.1) := by
  unfold handleReadReply
  simp only [hread, ne_eq, txRecord_ne_nil, not_false_eq_true, if_true]
  rw [splitFields_txRecord _ _ _ _ _ _ hk hts (to_string_noColon s) (to_string_noColon f),
    hsplit]
  simp [stoi_to_string]

theorem readReplyUpdate_value (st : NodeState) (mesg : Message) (kind ts sc fc k v : Str)
    (rest : List Str) (s f : Int) (en : Entry) (hval : Entry.fromString mesg.value = some en) :
    readReplyUpdate st mesg (kind :: ts :: sc :: fc :: k :: v :: rest) s f =
      some (s + 1, f, { st with statusHT := (st.statusHT.update (to_string mesg.transID)
        (txRecord kind ts (to_string (s + 1)) (to_string f) k en.value)).2 }) := by
  have hne : mesg.value ≠ [] := by
    intro h
    rw [h, Entry.fromString_nil] at hval
    exact Option.noConfusion hval
  unfold readReplyUpdate
  simp [hne, hval]

theorem readReplyQuorum_success (st : NodeState) (mesg : Message) (kind ts sc fc k v : Str)
    (rest : List Str) (f : Int) (en : Entry) (hval : Entry.fromString mesg.value = some en) :
    readReplyQuorum st mesg (kind :: ts :: sc :: fc :: k :: v :: rest) 2 f =
      some ((st.logCall (.logReadSuccess st.addr true mesg.transID k en.value)).deleteStatus
        (to_string mesg.transID)) := by
  unfold readReplyQuorum
  simp [hval]

theorem readReplyQuorum_open (st : NodeState) (mesg : Message) (tuple : List Str) (s f : Int)
    (hs : s ≠ 2) (hf : f ≠ 2) : readReplyQuorum st mesg tuple s f = some st := by
  unfold readReplyQuorum
  simp [hs, hf]

/-! ## Removing a peer from the ring -/

theorem mod_of_lt_two_mul (x m : Nat) (h : x < 2 * m) :
    x % m = if x < m then x else x - m := by
  split
  · exact Nat.mod_eq_of_lt (by assumption)
  · rw [Nat.mod_eq_sub_mod (by omega)]
    exact Nat.mod_eq_of_lt (by omega)

theorem erase_index_zero (s j t : Nat)
    (ht : (j < s ∧ t + 1 = s) ∨ (s < j ∧ t = s)) :
    (if t < j then t else t + 1) = s := by
  split_ifs <;> omega

theorem erase_index_one (n s j t : Nat) (hn : 4 ≤ n) (hs : s < n) (hj : j < n)
    (h1 : j ≠ (s + 1) % n) (ht : (j < s ∧ t + 1 = s) ∨ (s < j ∧ t = s)) :
    (if (t + 1) % (n - 1) < j then (t + 1) % (n - 1) else (t + 1) % (n - 1) + 1) =
      (s + 1) % n := by
  rw [mod_of_lt_two_mul (s + 1) n (by omega)] at h1 ⊢
  rw [mod_of_lt_two_mul (t + 1) (n - 1) (by omega)]
  by_cases c1 : s + 1 < n <;> by_cases c2 : t + 1 < n - 1 <;>
    simp only [c1, c2, if_true, if_false] at h1 ⊢ <;> split_ifs <;> omega

theorem erase_index_two (n s j t : Nat) (hn : 4 ≤ n) (hs : s < n) (hj : j < n)
    (h1 : j ≠ (s + 1) % n) (h2 : j ≠ (s + 2) % n)
    (ht : (j < s ∧ t + 1 = s) ∨ (s < j ∧ t = s)) :
    (if (t + 2) % (n - 1) < j then (t + 2) % (n - 1) else (t + 2) % (n - 1) + 1) =
      (s + 2) % n := by
  rw [mod_of_lt_two_mul (s + 1) n (by omega)] at h1
  rw [mod_of_lt_two_mul (s + 2) n (by omega)] at h2 ⊢
  rw [mod_of_lt_two_mul (t + 2) (n - 1) (by omega)]
  by_cases c0 : s + 1 < n <;> by_cases c1 : s + 2 < n <;> by_cases c2 : t + 2 < n - 1 <;>
    simp only [c0, c1, c2, if_true, if_false] at h1 h2 ⊢ <;> split_ifs <;> omega

theorem erase_index_shift (s j : Nat) (h0 : j ≠ s) :
    (j < s ∧ (if j < s then s - 1 else s) + 1 = s) ∨
      (s < j ∧ (if j < s then s - 1 else s) = s) := by
  split_ifs <;> omega

theorem getElem?_eraseIdx_map (ring : List Node) (j i : Nat) :
    (ring.eraseIdx j)[i]? = ring[if i < j then i else i + 1]? := by
  rw [List.getElem?_eraseIdx]
  split <;> rfl

theorem strictRing_eraseIdx (ring : List Node) (j : Nat) (h : StrictRing ring) :
    StrictRing (ring.eraseIdx j) :=
  List.Pairwise.sublist (List.eraseIdx_sublist ring j) h

theorem isStartIndex_eraseIdx (p : Nat) (ring : List Node) (s j : Nat) (hjs : j ≠ s)
    (hs : IsStartIndex p ring s) :
    IsStartIndex p (ring.eraseIdx j) (if j < s then s - 1 else s) := by
  rcases hs with ⟨⟨nd, hnd, hp⟩, hbefore⟩ | ⟨h0, hall⟩
  · refine Or.inl ⟨⟨nd, ?_, hp⟩, ?_⟩
    · rw [getElem?_eraseIdx_map]
      by_cases h : j < s
      · rw [if_pos h, if_neg (by omega)]
        rw [← hnd]
        congr 1
        omega
      · rw [if_neg h, if_pos (by omega)]
        exact hnd
    · intro x hx
      obtain ⟨i, hi⟩ := List.mem_iff_getElem?.1 hx
      have hlt : i < (if j < s then s - 1 else s) := by
        by_contra hge
        rw [List.getElem?_take_eq_none (by omega)] at hi
        exact Option.noConfusion hi
      rw [List.getElem?_take_of_lt hlt, getElem?_eraseIdx_map] at hi
      apply hbefore x
      rw [List.mem_iff_getElem?]
      refine ⟨if i < j then i else i + 1, ?_⟩
      rw [List.getElem?_take_of_lt ?_]
      · exact hi
      · split_ifs at hlt ⊢ <;> omega
  · refine Or.inr ⟨?_, ?_⟩
    · subst h0
      rw [if_neg (by omega)]
    · intro x hx
      exact hall x ((List.eraseIdx_sublist ring j).subset hx)

theorem findNodes_eraseIdx (hashFunc : Str → Nat) (RING_SIZE : Nat) (ring : List Node)
    (key : Str) (j : Nat) (x : Node) (reps : List Node) (hn : 4 ≤ ring.length)
    (hsorted : StrictRing ring) (hj : ring[j]? = some x)
    (hreps : findNodes hashFunc RING_SIZE ring key = some reps) (hx : x ∉ reps) :
    findNodes hashFunc RING_SIZE (ring.eraseIdx j) key = some reps := by
  have hjlt : j < ring.length := (List.getElem?_eq_some_iff.1 hj).1
  obtain ⟨s, hs, hlen⟩ := exists_startIndex (hashFunc key % RING_SIZE) ring
  have hslt : s < ring.length := hlen (by intro h; rw [h] at hn; simp at hn)
  obtain ⟨a, b, c, ha, hb, hc, hf⟩ :=
    findNodes_of_startIndex hashFunc RING_SIZE ring key s (by omega) hsorted hs
  rw [hf] at hreps
  cases hreps
  simp only [List.mem_cons, List.mem_singleton, not_or, List.not_mem_nil, or_false] at hx
  have h0 : j ≠ s := by
    rintro rfl
    rw [hj] at ha
    exact hx.1 (Option.some.inj ha)
  have h1 : j ≠ (s + 1) % ring.length := by
    intro h
    rw [← h, hj] at hb
    exact hx.2.1 (Option.some.inj hb)
  have h2 : j ≠ (s + 2) % ring.length := by
    intro h
    rw [← h, hj] at hc
    exact hx.2.2 (Option.some.inj hc)
  have hlen2 : (ring.eraseIdx j).length = ring.length - 1 := List.length_eraseIdx_of_lt hjlt
  obtain ⟨a1, b1, c1, ha1, hb1, hc1, hf1⟩ :=
    findNodes_of_startIndex hashFunc RING_SIZE (ring.eraseIdx j) key
      (if j < s then s - 1 else s) (by omega) (strictRing_eraseIdx ring j hsorted)
      (isStartIndex_eraseIdx _ ring s j h0 hs)
  have hsh := erase_index_shift s j h0
  have e0 := erase_index_zero s j _ hsh
  have e1 := erase_index_one ring.length s j _ hn hslt hjlt h1 hsh
  have e2 := erase_index_two ring.length s j _ hn hslt hjlt h1 h2 hsh
  rw [getElem?_eraseIdx_map, e0, ha] at ha1
  rw [hlen2, getElem?_eraseIdx_map, e1, hb] at hb1
  rw [hlen2, getElem?_eraseIdx_map, e2, hc] at hc1
  rw [hf1, ← Option.some.inj ha1, ← Option.some.inj hb1, ← Option.some.inj hc1]

/-! ## The replica handlers -/

theorem stabilizationFanOut_length (addr : Address) (h0 h1 r0 r1 : Node)
    (entries : List (Str × Entry)) :
    (stabilizationFanOut addr h0 h1 r0 r1 entries).length = 2 * entries.length := by
  induction entries with
  | nil => rfl
  | cons p entries ih =>
    obtain ⟨key, en⟩ := p
    simp only [stabilizationFanOut, List.length_append, ih, List.length_cons]
    unfold stabilizationMessages
    cases en.replica <;> simp <;> omega

theorem stabilizationProtocol_eq (st st1 : NodeState) (entries : List (Str × Entry))
    (h0 h1 r0 r1 : Node) (hstore : st.ht.hashTable = storeOf entries)
    (hn : findNeighbors st = some st1) (hh : st1.hasMyReplicas = [h0, h1])
    (hr : st1.haveReplicasOf = [r0, r1]) :
    stabilizationProtocol st =
      some { st1 with sent := st.sent ++ stabilizationFanOut st.addr h0 h1 r0 r1 entries } := by
  obtain ⟨hm, rr, e⟩ := findNeighborsLoop_frame _ _ _ _ _ hn
  have hht : st1.ht.hashTable = storeOf entries := by rw [e]; exact hstore
  have hs : st1.sent = st.sent := by rw [e]
  have ha : st1.addr = st.addr := by rw [e]
  unfold stabilizationProtocol
  rw [hn, Option.some_bind, hht, stabilizationLoop_eq h0 h1 r0 r1 entries st1 hh hr, hs, ha]

theorem serialisedStore_entries (l : List (Str × Str))
    (h : ∀ p ∈ l, ∃ en : Entry, p.2 = en.convertToString) : ∃ entries, l = storeOf entries := by
  induction l with
  | nil => exact ⟨[], rfl⟩
  | cons p l ih =>
    obtain ⟨en, hen⟩ := h p (List.mem_cons_self _ _)
    obtain ⟨entries, he⟩ := ih (fun q hq => h q (List.mem_cons_of_mem _ hq))
    refine ⟨(p.1, en) :: entries, ?_⟩
    simp only [storeOf, List.map_cons, ← hen]
    rw [he]
    rfl

theorem HashTable.read_of_contains (t : HashTable) (key : Str) (h : t.contains key = true) :
    ∃ p ∈ t.hashTable, t.read key = p.2 := by
  unfold HashTable.contains at h
  rw [List.any_eq_true] at h
  obtain ⟨q, hq, hqk⟩ := h
  unfold HashTable.read
  cases hf : t.hashTable.find? (fun p => p.1 == key) with
  | none =>
    rw [List.find?_eq_none] at hf
    exact absurd hqk (hf q hq)
  | some p => exact ⟨p, List.mem_of_find?_eq_some hf, rfl⟩

theorem serialisedStore_read (st : NodeState) (key : Str) (h : SerialisedStore st) :
    (st.ht.read key = [] ↔ st.ht.contains key = false) ∧
      (st.ht.read key ≠ [] → ∃ en : Entry, st.ht.read key = en.convertToString) := by
  by_cases hc : st.ht.contains key = true
  · obtain ⟨p, hp, hr⟩ := st.ht.read_of_contains key hc
    obtain ⟨en, hen⟩ := h p hp
    have hne : st.ht.read key ≠ [] := by
      rw [hr, hen]
      exact en.convertToString_ne_nil
    exact ⟨⟨fun h0 => absurd h0 hne, fun h0 => by rw [hc] at h0; exact Bool.noConfusion h0⟩,
      fun _ => ⟨en, by rw [hr, hen]⟩⟩
  · have hc2 : st.ht.contains key = false := by simpa using hc
    have hr := st.ht.read_of_not_contains key hc2
    exact ⟨⟨fun _ => hc2, fun _ => hr⟩, fun hne => absurd hr hne⟩

theorem readKey_eq (st : NodeState) (key : Str) (transID : Int) (coodAddr : Address)
    (h : SerialisedStore st) :
    ∃ c, readKey st key transID coodAddr =
      some ({ st with
        log := st.log ++ [c]
        sent := st.sent ++ [(coodAddr, Message.ofValue transID st.addr (st.ht.read key))] },
        st.ht.read key) := by
  unfold readKey
  by_cases hres : st.ht.read key = []
  · refine ⟨.logReadFail st.addr false transID key, ?_⟩
    simp [hres, NodeState.logCall, NodeState.ENsend]
  · obtain ⟨en, hen⟩ := (serialisedStore_read st key h).2 hres
    refine ⟨.logReadSuccess st.addr false transID key en.value, ?_⟩
    have hfs : Entry.fromString (st.ht.read key) = some en := by
      rw [hen]
      exact en.fromString_convertToString
    simp [hres, hfs, NodeState.logCall, NodeState.ENsend]

theorem replica_handlers (now : Int) (st : NodeState) (mesg : Message)
    (hstore : SerialisedStore st) :
    (mesg.type = .CREATE → mesg.transID ≠ -1 →
      ∃ st1, handleMessage now st mesg = some st1 ∧
        st1.sent = st.sent ++ [(mesg.fromAddr,
          Message.ofSuccess mesg.transID st.addr .REPLY (!st.ht.contains mesg.key))] ∧
        (st.ht.contains mesg.key = true → st1.ht = st.ht)) ∧
    (mesg.type = .UPDATE →
      ∃ st1, handleMessage now st mesg = some st1 ∧
        st1.sent = st.sent ++ [(mesg.fromAddr,
          Message.ofSuccess mesg.transID st.addr .REPLY (st.ht.contains mesg.key))] ∧
        (st.ht.contains mesg.key = false → st1.ht = st.ht)) ∧
    (mesg.type = .DELETE →
      ∃ st1, handleMessage now st mesg = some st1 ∧
        st1.sent = st.sent ++ [(mesg.fromAddr,
          Message.ofSuccess mesg.transID st.addr .REPLY (st.ht.contains mesg.key))] ∧
        (st.ht.contains mesg.key = false → st1.ht = st.ht)) ∧
    (mesg.type = .READ →
      ∃ st1, handleMessage now st mesg = some st1 ∧
        st1.sent = st.sent ++ [(mesg.fromAddr,
          Message.ofValue mesg.transID st.addr (st.ht.read mesg.key))] ∧
        (st.ht.read mesg.key = [] ↔ st.ht.contains mesg.key = false) ∧
        st1.ht = st.ht) := by
  refine ⟨?_, ?_, ?_, ?_⟩
  · intro hty hid
    refine ⟨(createKeyValue now st mesg.key mesg.value mesg.replica mesg.transID
      mesg.fromAddr).1, by simp only [handleMessage, hty], ?_, ?_⟩
    · by_cases hc : st.ht.contains mesg.key = true <;>
        simp [createKeyValue, HashTable.create, hc, hid, NodeState.logCall, NodeState.ENsend]
    · intro hc
      simp [createKeyValue, HashTable.create, hc, hid, NodeState.logCall, NodeState.ENsend]
  · intro hty
    refine ⟨(updateKeyValue now st mesg.key mesg.value mesg.replica mesg.transID
      mesg.fromAddr).1, by simp only [handleMessage, hty], ?_, ?_⟩
    · by_cases hc : st.ht.contains mesg.key = true <;>
        simp [updateKeyValue, HashTable.update, hc, NodeState.logCall, NodeState.ENsend]
    · intro hc
      simp [updateKeyValue, HashTable.update, hc, NodeState.logCall, NodeState.ENsend]
  · intro hty
    refine ⟨(deletekey st mesg.key mesg.transID mesg.fromAddr).1,
      by simp only [handleMessage, hty], ?_, ?_⟩
    · by_cases hc : st.ht.contains mesg.key = true <;>
        simp [deletekey, HashTable.deleteKey, hc, NodeState.logCall, NodeState.ENsend]
    · intro hc
      simp [deletekey, HashTable.deleteKey, hc, NodeState.logCall, NodeState.ENsend]
  · intro hty
    obtain ⟨c, hc⟩ := readKey_eq st mesg.key mesg.transID mesg.fromAddr hstore
    refine ⟨{ st with
        log := st.log ++ [c]
        sent := st.sent ++ [(mesg.fromAddr,
          Message.ofValue mesg.transID st.addr (st.ht.read mesg.key))] },
      by simp only [handleMessage, hty, hc, Option.map_some'], rfl,
      (serialisedStore_read st mesg.key hstore).1, rfl⟩

/-! ## The local store and the client calls -/

theorem replyOutcome_ht (st : NodeState) (mesg : Message) (t0 t1 : Str) (s f : Int)
    (t4 t5 : Str) : (replyOutcome st mesg t0 t1 s f t4 t5).ht = st.ht := by
  unfold replyOutcome
  simp only
  split_ifs <;> rfl

theorem handleReply_ht (st st1 : NodeState) (mesg : Message)
    (h : handleReply st mesg = some st1) : st1.ht = st.ht := by
  unfold handleReply at h
  simp only at h
  split at h
  · simp only [Option.bind_eq_bind, Option.bind_eq_some, Option.some.injEq] at h
    obtain ⟨s, _, f, _, t0, _, t1, _, t4, _, t5, _, rfl⟩ := h
    exact replyOutcome_ht _ _ _ _ _ _ _ _
  · simp only [Option.some.injEq] at h
    rw [← h]

theorem handleReadReply_ht (st st1 : NodeState) (mesg : Message)
    (h : handleReadReply st mesg = some st1) : st1.ht = st.ht := by
  unfold handleReadReply at h
  simp only at h
  split at h
  · simp only [Option.bind_eq_bind, Option.bind_eq_some] at h
    obtain ⟨s, _, f, _, r, hr, hq⟩ := h
    have h1 : r.2.2.ht = st.ht := by
      unfold readReplyUpdate at hr
      simp only at hr
      split at hr
      · simp only [Option.bind_eq_bind, Option.bind_eq_some, Option.some.injEq] at hr
        obtain ⟨en, _, t0, _, t1, _, t4, _, rfl⟩ := hr
        rfl
      · simp only [Option.bind_eq_bind, Option.bind_eq_some, Option.some.injEq] at hr
        obtain ⟨t0, _, t1, _, t4, _, t5, _, rfl⟩ := hr
        rfl
    rw [← h1]
    unfold readReplyQuorum at hq
    simp only at hq
    split at hq
    · simp only [Option.bind_eq_bind, Option.bind_eq_some, Option.some.injEq] at hq
      obtain ⟨en, _, t4, _, rfl⟩ := hq
      rfl
    · split at hq
      · simp only [Option.bind_eq_bind, Option.bind_eq_some, Option.some.injEq] at hq
        obtain ⟨t4, _, rfl⟩ := hq
        rfl
      · simp only [Option.some.injEq] at hq
        rw [← hq]
  · simp only [Option.some.injEq] at h
    rw [← h]

theorem serialisedStore_of_ht (st st1 : NodeState) (h : SerialisedStore st)
    (e : st1.ht = st.ht) : SerialisedStore st1 := by
  intro p hp
  rw [e] at hp
  exact h p hp

theorem serialisedStore_createKeyValue (now : Int) (st : NodeState) (key value : Str)
    (replica : ReplicaType) (transID : Int) (coodAddr : Address) (h : SerialisedStore st) :
    SerialisedStore (createKeyValue now st key value replica transID coodAddr).1 := by
  intro p hp
  have e : (createKeyValue now st key value replica transID coodAddr).1.ht =
      (st.ht.create key (Entry.convertToString ⟨value, now, replica⟩)).2 := by
    unfold createKeyValue
    simp only
    split_ifs <;> rfl
  rw [e] at hp
  rcases HashTable.mem_create _ _ _ _ hp with hp | rfl
  · exact h p hp
  · exact ⟨_, rfl⟩

theorem serialisedStore_updateKeyValue (now : Int) (st : NodeState) (key value : Str)
    (replica : ReplicaType) (transID : Int) (coodAddr : Address) (h : SerialisedStore st) :
    SerialisedStore (updateKeyValue now st key value replica transID coodAddr).1 := by
  intro p hp
  have e : (updateKeyValue now st key value replica transID coodAddr).1.ht =
      (st.ht.update key (Entry.convertToString ⟨value, now, replica⟩)).2 := by
    unfold updateKeyValue
    simp only
    split_ifs <;> rfl
  rw [e] at hp
  rcases HashTable.mem_update _ _ _ _ hp with hp | rfl
  · exact h p hp
  · exact ⟨_, rfl⟩

theorem serialisedStore_deletekey (st : NodeState) (key : Str) (transID : Int)
    (coodAddr : Address) (h : SerialisedStore st) :
    SerialisedStore (deletekey st key transID coodAddr).1 := by
  intro p hp
  have e : (deletekey st key transID coodAddr).1.ht = (st.ht.deleteKey key).2 := by
    unfold deletekey
    simp only
    split_ifs <;> rfl
  rw [e] at hp
  exact h p (HashTable.mem_deleteKey _ _ _ hp)

theorem serialisedStore_handleMessage (now : Int) (st st1 : NodeState) (mesg : Message)
    (h : SerialisedStore st) (hstep : handleMessage now st mesg = some st1) :
    SerialisedStore st1 := by
  unfold handleMessage at hstep
  split at hstep
  · simp only [Option.some.injEq] at hstep
    rw [← hstep]
    exact serialisedStore_createKeyValue _ _ _ _ _ _ _ h
  · simp only [Option.some.injEq] at hstep
    rw [← hstep]
    exact serialisedStore_deletekey _ _ _ _ h
  · obtain ⟨c, hc⟩ := readKey_eq st mesg.key mesg.transID mesg.fromAddr h
    rw [hc] at hstep
    simp only [Option.map_some', Option.some.injEq] at hstep
    rw [← hstep]
    exact serialisedStore_of_ht _ _ h rfl
  · simp only [Option.some.injEq] at hstep
    rw [← hstep]
    exact serialisedStore_updateKeyValue _ _ _ _ _ _ _ h
  · exact serialisedStore_of_ht _ _ h (handleReply_ht _ _ _ hstep)
  · exact serialisedStore_of_ht _ _ h (handleReadReply_ht _ _ _ hstep)

theorem clientEffect_intro (st : NodeState) (replicas : List Node) (kind : Str)
    (mk : Nat → Message) (now : Int) (key value : Str) (hids : IdsAllocated st) :
    ClientEffect st
      { st with
        g_transID := st.g_transID + 1
        sent := st.sent ++ fanOut mk replicas
        statusHT := (st.statusHT.create (to_string (st.g_transID + 1))
          (txRecord kind (to_string now) (to_string 0) (to_string 0) key value)).2 }
      replicas kind mk now key value := by
  have hfresh := idsAllocated_fresh st hids
  refine ⟨rfl, rfl, ?_, hfresh, HashTable.read_create_self _ _ _ hfresh,
    fun k hk => HashTable.read_create_ne _ _ _ k hk, rfl, rfl⟩
  simp [HashTable.create, hfresh]

theorem clientCreate_eq (hashFunc : Str → Nat) (RING_SIZE : Nat) (now : Int) (st : NodeState)
    (key value : Str) (replicas : List Node)
    (h : findNodes hashFunc RING_SIZE st.ring key = some replicas) :
    clientCreate hashFunc RING_SIZE now st key value = some { st with
      g_transID := st.g_transID + 1
      sent := st.sent ++ fanOut (fun i => Message.ofKeyValue (st.g_transID + 1) st.addr .CREATE
        key value (ReplicaType.ofIndex i)) replicas
      statusHT := (st.statusHT.create (to_string (st.g_transID + 1))
        (txRecord strCREATE (to_string now) (to_string 0) (to_string 0) key value)).2 } := by
  simp [clientCreate, h, sendToReplicas_eq, fanOut, List.enum]

theorem clientRead_eq (hashFunc : Str → Nat) (RING_SIZE : Nat) (now : Int) (st : NodeState)
    (key : Str) (replicas : List Node)
    (h : findNodes hashFunc RING_SIZE st.ring key = some replicas) :
    clientRead hashFunc RING_SIZE now st key = some { st with
      g_transID := st.g_transID + 1
      sent := st.sent ++ fanOut (fun _ => Message.ofKey (st.g_transID + 1) st.addr .READ key)
        replicas
      statusHT := (st.statusHT.create (to_string (st.g_transID + 1))
        (txRecord strREAD (to_string now) (to_string 0) (to_string 0) key [])).2 } := by
  simp [clientRead, h, sendToReplicas_eq, fanOut, List.enum]

theorem clientUpdate_eq (hashFunc : Str → Nat) (RING_SIZE : Nat) (now : Int) (st : NodeState)
    (key value : Str) (replicas : List Node)
    (h : findNodes hashFunc RING_SIZE st.ring key = some replicas) :
    clientUpdate hashFunc RING_SIZE now st key value = some { st with
      g_transID := st.g_transID + 1
      sent := st.sent ++ fanOut (fun i => Message.ofKeyValue (st.g_transID + 1) st.addr .UPDATE
        key value (ReplicaType.ofIndex i)) replicas
      statusHT := (st.statusHT.create (to_string (st.g_transID + 1))
        (txRecord strUPDATE (to_string now) (to_string 0) (to_string 0) key value)).2 } := by
  simp [clientUpdate, h, sendToReplicas_eq, fanOut, List.enum]

theorem clientDelete_eq (hashFunc : Str → Nat) (RING_SIZE : Nat) (now : Int) (st : NodeState)
    (key : Str) (replicas : List Node)
    (h : findNodes hashFunc RING_SIZE st.ring key = some replicas) :
    clientDelete hashFunc RING_SIZE now st key = some { st with
      g_transID := st.g_transID + 1
      sent := st.sent ++ fanOut (fun _ => Message.ofKey (st.g_transID + 1) st.addr .DELETE key)
        replicas
      statusHT := (st.statusHT.create (to_string (st.g_transID + 1))
        (txRecord strDELETE (to_string now) (to_string 0) (to_string 0) key [])).2 } := by
  simp [clientDelete, h, sendToReplicas_eq, fanOut, List.enum]

/-! ## The claims C11 to C15 -/

/-- C11: for every local store of serialised entries and neighbour vectors of length 2 (as
`findNeighbors` leaves them), `stabilizationProtocol` emits exactly the two messages of the
specification's table per stored key and nothing else, each a CREATE with transaction id -1 that
carries the key and the stored value, with the targets and role tags of the recorded role; the
local store, the log and the transaction table are unchanged. -/
theorem stabilization_emits (st st1 : NodeState) (entries : List (Str × Entry))
    (h0 h1 r0 r1 : Node) (hstore : st.ht.hashTable = storeOf entries)
    (hn : findNeighbors st = some st1) (hh : st1.hasMyReplicas = [h0, h1])
    (hr : st1.haveReplicasOf = [r0, r1]) :
    ∃ st2, stabilizationProtocol st = some st2 ∧
      st2.sent = st.sent ++ stabilizationFanOut st.addr h0 h1 r0 r1 entries ∧
      (stabilizationFanOut st.addr h0 h1 r0 r1 entries).length = 2 * entries.length ∧
      st2.ht = st.ht ∧ st2.log = st.log ∧ st2.statusHT = st.statusHT := by
  obtain ⟨hm, rr, e⟩ := findNeighborsLoop_frame _ _ _ _ _ hn
  refine ⟨_, stabilizationProtocol_eq st st1 entries h0 h1 r0 r1 hstore hn hh hr, rfl,
    stabilizationFanOut_length _ _ _ _ _ _, ?_, ?_, ?_⟩ <;> rw [e]

/-- Witness of C11: the node `20` of `ring5`, storing `"k"` as SECONDARY, sends the key to its
successor `30` tagged TERTIARY and to its predecessor `10` tagged PRIMARY. -/
theorem stabilization_emits_witness :
    ∃ st2, stabilizationProtocol storingNode = some st2 ∧
      st2.sent = storingNode.sent ++ stabilizationFanOut storingNode.addr (peer 30) (peer 40)
        (peer 10) (peer 10) [(keyK, ⟨valV, 1, .SECONDARY⟩)] ∧
      (stabilizationFanOut storingNode.addr (peer 30) (peer 40) (peer 10) (peer 10)
        [(keyK, ⟨valV, 1, .SECONDARY⟩)]).length = 2 * [(keyK, (⟨valV, 1, .SECONDARY⟩ : Entry))].length ∧
      st2.ht = storingNode.ht ∧ st2.log = storingNode.log ∧
      st2.statusHT = storingNode.statusHT :=
  stabilization_emits storingNode storingNodeNeighbors [(keyK, ⟨valV, 1, .SECONDARY⟩)]
    (peer 30) (peer 40) (peer 10) (peer 10) (by decide) (by decide) (by decide) (by decide)

/-- C12: on a local store of serialised entries, the replica handler of an inbound client CREATE
(transaction id other than -1), UPDATE, DELETE or READ sends exactly one reply, to the sender of
the message and with its transaction id; the reply signals failure (REPLY with success = false,
READREPLY with an empty value) if and only if the precondition fails (CREATE of a key already
stored; UPDATE, DELETE, READ of a key not stored); whenever it signals failure, and for every
READ, the local store is unchanged. The store remains a store of serialised entries. -/
theorem replica_reply (now : Int) (st : NodeState) (mesg : Message)
    (hstore : SerialisedStore st) :
    (mesg.type = .CREATE → mesg.transID ≠ -1 →
      ∃ st1, handleMessage now st mesg = some st1 ∧ SerialisedStore st1 ∧
        st1.sent = st.sent ++ [(mesg.fromAddr,
          Message.ofSuccess mesg.transID st.addr .REPLY (!st.ht.contains mesg.key))] ∧
        (st.ht.contains mesg.key = true → st1.ht = st.ht)) ∧
    (mesg.type = .UPDATE →
      ∃ st1, handleMessage now st mesg = some st1 ∧ SerialisedStore st1 ∧
        st1.sent = st.sent ++ [(mesg.fromAddr,
          Message.ofSuccess mesg.transID st.addr .REPLY (st.ht.contains mesg.key))] ∧
        (st.ht.contains mesg.key = false → st1.ht = st.ht)) ∧
    (mesg.type = .DELETE →
      ∃ st1, handleMessage now st mesg = some st1 ∧ SerialisedStore st1 ∧
        st1.sent = st.sent ++ [(mesg.fromAddr,
          Message.ofSuccess mesg.transID st.addr .REPLY (st.ht.contains mesg.key))] ∧
        (st.ht.contains mesg.key = false → st1.ht = st.ht)) ∧
    (mesg.type = .READ →
      ∃ st1, handleMessage now st mesg = some st1 ∧ SerialisedStore st1 ∧
        st1.sent = st.sent ++ [(mesg.fromAddr,
          Message.ofValue mesg.transID st.addr (st.ht.read mesg.key))] ∧
        (st.ht.read mesg.key = [] ↔ st.ht.contains mesg.key = false) ∧
        st1.ht = st.ht) := by
  obtain ⟨hc, hu, hd, hr⟩ := replica_handlers now st mesg hstore
  refine ⟨fun hty hid => ?_, fun hty => ?_, fun hty => ?_, fun hty => ?_⟩
  · obtain ⟨st1, h1, h2, h3⟩ := hc hty hid
    exact ⟨st1, h1, serialisedStore_handleMessage now st st1 mesg hstore h1, h2, h3⟩
  · obtain ⟨st1, h1, h2, h3⟩ := hu hty
    exact ⟨st1, h1, serialisedStore_handleMessage now st st1 mesg hstore h1, h2, h3⟩
  · obtain ⟨st1, h1, h2, h3⟩ := hd hty
    exact ⟨st1, h1, serialisedStore_handleMessage now st st1 mesg hstore h1, h2, h3⟩
  · obtain ⟨st1, h1, h2, h3, h4⟩ := hr hty
    exact ⟨st1, h1, serialisedStore_handleMessage now st st1 mesg hstore h1, h2, h3, h4⟩

theorem storingNode_serialised : SerialisedStore storingNode := by
  intro p hp
  have e : storingNode.ht.hashTable = [(keyK, Entry.convertToString ⟨valV, 1, .SECONDARY⟩)] := by
    decide
  rw [e] at hp
  simp only [List.mem_singleton] at hp
  exact ⟨⟨valV, 1, .SECONDARY⟩, by rw [hp]⟩

/-- Witness of C12: a client CREATE, an UPDATE, a DELETE and a READ of the key `"k"` at the node
`storingNode`, which stores it. -/
theorem replica_reply_witness :
    (∃ st1, handleMessage 2 storingNode (Message.ofKeyValue 7 ⟨10, 0⟩ .CREATE keyK valV .PRIMARY)
        = some st1 ∧ SerialisedStore st1 ∧
      st1.sent = storingNode.sent ++ [((Message.ofKeyValue 7 ⟨10, 0⟩ .CREATE keyK valV
          .PRIMARY).fromAddr,
        Message.ofSuccess (Message.ofKeyValue 7 ⟨10, 0⟩ .CREATE keyK valV .PRIMARY).transID
          storingNode.addr .REPLY
          (!storingNode.ht.contains (Message.ofKeyValue 7 ⟨10, 0⟩ .CREATE keyK valV
            .PRIMARY).key))] ∧
      (storingNode.ht.contains (Message.ofKeyValue 7 ⟨10, 0⟩ .CREATE keyK valV .PRIMARY).key
        = true → st1.ht = storingNode.ht)) ∧
    (∃ st1, handleMessage 2 storingNode (Message.ofKeyValue 7 ⟨10, 0⟩ .UPDATE keyK valV .PRIMARY)
        = some st1 ∧ SerialisedStore st1 ∧
      st1.sent = storingNode.sent ++ [((Message.ofKeyValue 7 ⟨10, 0⟩ .UPDATE keyK valV
          .PRIMARY).fromAddr,
        Message.ofSuccess (Message.ofKeyValue 7 ⟨10, 0⟩ .UPDATE keyK valV .PRIMARY).transID
          storingNode.addr .REPLY
          (storingNode.ht.contains (Message.ofKeyValue 7 ⟨10, 0⟩ .UPDATE keyK valV
            .PRIMARY).key))] ∧
      (storingNode.ht.contains (Message.ofKeyValue 7 ⟨10, 0⟩ .UPDATE keyK valV .PRIMARY).key
        = false → st1.ht = storingNode.ht)) ∧
    (∃ st1, handleMessage 2 storingNode (Message.ofKey 7 ⟨10, 0⟩ .DELETE keyK) = some st1 ∧
      SerialisedStore st1 ∧
      st1.sent = storingNode.sent ++ [((Message.ofKey 7 ⟨10, 0⟩ .DELETE keyK).fromAddr,
        Message.ofSuccess (Message.ofKey 7 ⟨10, 0⟩ .DELETE keyK).transID storingNode.addr .REPLY
          (storingNode.ht.contains (Message.ofKey 7 ⟨10, 0⟩ .DELETE keyK).key))] ∧
      (storingNode.ht.contains (Message.ofKey 7 ⟨10, 0⟩ .DELETE keyK).key = false →
        st1.ht = storingNode.ht)) ∧
    (∃ st1, handleMessage 2 storingNode (Message.ofKey 7 ⟨10, 0⟩ .READ keyK) = some st1 ∧
      SerialisedStore st1 ∧
      st1.sent = storingNode.sent ++ [((Message.ofKey 7 ⟨10, 0⟩ .READ keyK).fromAddr,
        Message.ofValue (Message.ofKey 7 ⟨10, 0⟩ .READ keyK).transID storingNode.addr
          (storingNode.ht.read (Message.ofKey 7 ⟨10, 0⟩ .READ keyK).key))] ∧
      (storingNode.ht.read (Message.ofKey 7 ⟨10, 0⟩ .READ keyK).key = [] ↔
        storingNode.ht.contains (Message.ofKey 7 ⟨10, 0⟩ .READ keyK).key = false) ∧
      st1.ht = storingNode.ht) :=
  ⟨(replica_reply 2 storingNode (Message.ofKeyValue 7 ⟨10, 0⟩ .CREATE keyK valV .PRIMARY)
      storingNode_serialised).1 rfl (by decide),
    (replica_reply 2 storingNode (Message.ofKeyValue 7 ⟨10, 0⟩ .UPDATE keyK valV .PRIMARY)
      storingNode_serialised).2.1 rfl,
    (replica_reply 2 storingNode (Message.ofKey 7 ⟨10, 0⟩ .DELETE keyK)
      storingNode_serialised).2.2.1 rfl,
    (replica_reply 2 storingNode (Message.ofKey 7 ⟨10, 0⟩ .READ keyK)
      storingNode_serialised).2.2.2 rfl⟩

/-- C13: in every state that a coordinator reaches, each of the four client entry points takes
transaction id = previous counter + 1, sends exactly one message per peer of `findNodes(key)` in
replica order, each carrying that id and the key (for CREATE and UPDATE also the value and the
replica tag of the peer's position), and registers exactly one new record under that id with the
kind, key and value of the call, time stamp `now` and both counts 0; no other record of the
table is changed. -/
theorem client_calls (hashFunc : Str → Nat) (RING_SIZE : Nat) (TIME_OUT now : Int)
    (allowed : NodeState → Message → Prop) (st : NodeState) (key value : Str)
    (h : Reachable hashFunc RING_SIZE TIME_OUT allowed st) :
    ∃ replicas, findNodes hashFunc RING_SIZE st.ring key = some replicas ∧
      (replicas = [] ∨ ∃ a b c, replicas = [a, b, c]) ∧
      (∃ st1, clientCreate hashFunc RING_SIZE now st key value = some st1 ∧
        ClientEffect st st1 replicas strCREATE
          (fun i => Message.ofKeyValue (st.g_transID + 1) st.addr .CREATE key value
            (ReplicaType.ofIndex i)) now key value) ∧
      (∃ st1, clientRead hashFunc RING_SIZE now st key = some st1 ∧
        ClientEffect st st1 replicas strREAD
          (fun _ => Message.ofKey (st.g_transID + 1) st.addr .READ key) now key []) ∧
      (∃ st1, clientUpdate hashFunc RING_SIZE now st key value = some st1 ∧
        ClientEffect st st1 replicas strUPDATE
          (fun i => Message.ofKeyValue (st.g_transID + 1) st.addr .UPDATE key value
            (ReplicaType.ofIndex i)) now key value) ∧
      (∃ st1, clientDelete hashFunc RING_SIZE now st key = some st1 ∧
        ClientEffect st st1 replicas strDELETE
          (fun _ => Message.ofKey (st.g_transID + 1) st.addr .DELETE key) now key []) := by
  have hids := idsAllocated_reachable hashFunc RING_SIZE TIME_OUT allowed st h
  obtain ⟨replicas, hreps, hshape⟩ := findNodes_shape hashFunc RING_SIZE st.ring key
  exact ⟨replicas, hreps, hshape,
    ⟨_, clientCreate_eq _ _ now st key value replicas hreps, clientEffect_intro _ _ _ _ _ _ _ hids⟩,
    ⟨_, clientRead_eq _ _ now st key replicas hreps, clientEffect_intro _ _ _ _ _ _ _ hids⟩,
    ⟨_, clientUpdate_eq _ _ now st key value replicas hreps,
      clientEffect_intro _ _ _ _ _ _ _ hids⟩,
    ⟨_, clientDelete_eq _ _ now st key replicas hreps, clientEffect_intro _ _ _ _ _ _ _ hids⟩⟩

/-- Witness of C13: the client calls at the node `pendingCreate`, whose transaction 1 is
pending. -/
theorem client_calls_witness :
    ∃ replicas, findNodes (fun _ => 5) 512 pendingCreate.ring keyK = some replicas ∧
      (replicas = [] ∨ ∃ a b c, replicas = [a, b, c]) ∧
      (∃ st1, clientCreate (fun _ => 5) 512 3 pendingCreate keyK valV = some st1 ∧
        ClientEffect pendingCreate st1 replicas strCREATE
          (fun i => Message.ofKeyValue (pendingCreate.g_transID + 1) pendingCreate.addr .CREATE
            keyK valV (ReplicaType.ofIndex i)) 3 keyK valV) ∧
      (∃ st1, clientRead (fun _ => 5) 512 3 pendingCreate keyK = some st1 ∧
        ClientEffect pendingCreate st1 replicas strREAD
          (fun _ => Message.ofKey (pendingCreate.g_transID + 1) pendingCreate.addr .READ keyK)
          3 keyK []) ∧
      (∃ st1, clientUpdate (fun _ => 5) 512 3 pendingCreate keyK valV = some st1 ∧
        ClientEffect pendingCreate st1 replicas strUPDATE
          (fun i => Message.ofKeyValue (pendingCreate.g_transID + 1) pendingCreate.addr .UPDATE
            keyK valV (ReplicaType.ofIndex i)) 3 keyK valV) ∧
      (∃ st1, clientDelete (fun _ => 5) 512 3 pendingCreate keyK = some st1 ∧
        ClientEffect pendingCreate st1 replicas strDELETE
          (fun _ => Message.ofKey (pendingCreate.g_transID + 1) pendingCreate.addr .DELETE keyK)
          3 keyK []) :=
  client_calls (fun _ => 5) 512 10 3 anyMessage pendingCreate keyK valV
    (.create 0 (freshNode 10 ring5) pendingCreate keyK valV (.init _ rfl) (by decide))

/-- C14 (failing input): on the ring of three peers `10, 20, 30` the node at position 0
computes `(0 - 1) % 3` on the unsigned 64-bit value `2^64 - 1`, which is 0 and not 2: its
`haveReplicasOf` is `[ring[0], ring[2]]`, itself and the peer `30`, where wrapping backwards
gives `[ring[2], ring[1]]`; the node at position 1 gets `[ring[0], ring[0]]` where wrapping
backwards gives `[ring[0], ring[2]]`. -/
theorem findNeighbors_wraps_wrongly :
    toSizeT (0 - 1) % ring3.length = 0 ∧ toSizeT (0 - 2) % ring3.length = 2 ∧
      (findNeighbors (freshNode 10 ring3)).map (fun st => st.haveReplicasOf) =
        some [peer 10, peer 30] ∧
      (findNeighbors (freshNode 20 ring3)).map (fun st => st.haveReplicasOf) =
        some [peer 10, peer 10] ∧
      ring3[3 - 1]? = some (peer 30) ∧ ring3[3 - 2]? = some (peer 20) := by
  decide

/-- C15: for a ring of distinct peers that contains the local node at position `i`,
`findNeighbors` sets `hasMyReplicas` to `[ring[(i + 1) mod n], ring[(i + 2) mod n]]`, whatever
it held before (the ring is short enough for the `int` loop counter). -/
theorem findNeighbors_hasMyReplicas (st : NodeState) (i : Nat) (nd : Node)
    (hd : (st.ring.map (fun x => x.nodeAddress)).Nodup) (hi : st.ring[i]? = some nd)
    (hself : nd.nodeAddress = st.addr) (hsize : st.ring.length < 2 ^ 31) :
    ∃ st1 a b, findNeighbors st = some st1 ∧
      st.ring[(i + 1) % st.ring.length]? = some a ∧
      st.ring[(i + 2) % st.ring.length]? = some b ∧ st1.hasMyReplicas = [a, b] := by
  have hlt : i < st.ring.length := (List.getElem?_eq_some_iff.1 hi).1
  obtain ⟨a, b, c, d, ha, hb, _, _, hf⟩ := findNeighbors_at st i nd hd hi hself
  have e1 : toSizeT ((i : Int) + 1) = i + 1 := by
    have := toSizeT_natCast (i + 1) (by omega)
    rw [← this]
    push_cast
    rfl
  have e2 : toSizeT ((i : Int) + 2) = i + 2 := by
    have := toSizeT_natCast (i + 2) (by omega)
    rw [← this]
    push_cast
    rfl
  rw [e1] at ha
  rw [e2] at hb
  exact ⟨_, a, b, hf, ha, hb, rfl⟩

/-- Witness of C15: the node `30` at position 2 of `ring3`. -/
theorem findNeighbors_hasMyReplicas_witness :
    ∃ st1 a b, findNeighbors (freshNode 30 ring3) = some st1 ∧
      (freshNode 30 ring3).ring[(2 + 1) % (freshNode 30 ring3).ring.length]? = some a ∧
      (freshNode 30 ring3).ring[(2 + 2) % (freshNode 30 ring3).ring.length]? = some b ∧
      st1.hasMyReplicas = [a, b] :=
  findNeighbors_hasMyReplicas (freshNode 30 ring3) 2 (peer 30) (by decide) (by decide)
    (by decide) (by decide)

/-! ## Two READREPLY messages -/

theorem readReply_two (now : Int) (st : NodeState) (tid created : Int) (key : Str)
    (m1 m2 : Message) (e1 e2 : Entry)
    (hfresh : st.statusHT.read (to_string tid) =
      txRecord strREAD (to_string created) (to_string 0) (to_string 0) key [])
    (h1 : m1.type = .READREPLY ∧ m1.transID = tid) (h2 : m2.type = .READREPLY ∧ m2.transID = tid)
    (hv1 : Entry.fromString m1.value = some e1) (hv2 : Entry.fromString m2.value = some e2) :
    ∃ st1 k v rest, splitFields (key ++ sep ++ []) = k :: v :: rest ∧
      checkMessages now st [m1, m2] = some st1 ∧
      st1.log = st.log ++ [.logReadSuccess st.addr true tid k e2.value] ∧
      st1.statusHT.contains (to_string tid) = false := by
  obtain ⟨ht1, hi1⟩ := h1
  obtain ⟨ht2, hi2⟩ := h2
  subst hi1
  have hkc : ∀ c ∈ strREAD, c ≠ ':' := by decide
  have htc := to_string_noColon created
  obtain ⟨k, v, rest, hsplit⟩ := splitFields_sep_two key []
  have hc := st.statusHT.contains_of_read_ne_nil _
    (by rw [hfresh]; exact txRecord_ne_nil _ _ _ _ _ _)
  -- first reply
  have s1 : handleMessage now st m1 = some { st with statusHT :=
      (st.statusHT.update (to_string m1.transID)
        (txRecord strREAD (to_string created) (to_string (0 + 1)) (to_string 0) k
          e1.value)).2 } := by
    simp only [handleMessage, ht1]
    rw [handleReadReply_record st m1 strREAD _ 0 0 key [] k v rest hkc htc hfresh hsplit,
      readReplyUpdate_value st m1 _ _ _ _ _ _ _ 0 0 e1 hv1, Option.some_bind]
    dsimp only
    exact readReplyQuorum_open _ _ _ _ _ (by decide) (by decide)
  -- second reply
  obtain ⟨v2, rest2, hsv⟩ : ∃ v2 rest2, splitFields e1.value = v2 :: rest2 := by
    cases hs : splitFields e1.value with
    | nil => exact absurd hs (splitFields_ne_nil _)
    | cons v2 rest2 => exact ⟨v2, rest2, rfl⟩
  have hsplit2 : splitFields (k ++ sep ++ e1.value) = k :: v2 :: rest2 := by
    rw [splitFields_field_append _ k (v :: rest) hsplit (by simp), hsv]
  have hread2 : ({ st with statusHT := (st.statusHT.update (to_string m1.transID)
      (txRecord strREAD (to_string created) (to_string (0 + 1)) (to_string 0) k
        e1.value)).2 } : NodeState).statusHT.read (to_string m2.transID) =
      txRecord strREAD (to_string created) (to_string (0 + 1)) (to_string 0) k e1.value := by
    rw [hi2]
    exact HashTable.read_update _ _ _ hc
  have s2 := handleReadReply_record _ m2 strREAD _ (0 + 1) 0 k e1.value k v2 rest2 hkc htc
    hread2 hsplit2
  rw [readReplyUpdate_value _ m2 _ _ _ _ _ _ _ (0 + 1) 0 e2 hv2, Option.some_bind] at s2
  have e2two : (0 : Int) + 1 + 1 = 2 := by decide
  dsimp only at s2
  rw [e2two, readReplyQuorum_success _ m2 _ _ _ _ _ _ _ 0 e2 hv2] at s2
  have hcm : checkMessages now st [m1, m2] = handleReadReply { st with statusHT :=
      (st.statusHT.update (to_string m1.transID)
        (txRecord strREAD (to_string created) (to_string (0 + 1)) (to_string 0) k
          e1.value)).2 } m2 := by
    show (handleMessage now st m1).bind (fun st1 => checkMessages now st1 [m2]) = _
    rw [s1, Option.some_bind]
    show (handleMessage now _ m2).bind (fun st1 => checkMessages now st1 []) = _
    simp only [handleMessage, ht2]
    cases handleReadReply _ m2 <;> rfl
  rw [s2] at hcm
  exact ⟨_, k, v, rest, hsplit, hcm,
    by simp [NodeState.deleteStatus, NodeState.logCall, hi2],
    by
      simp only [NodeState.deleteStatus, NodeState.logCall]
      rw [← hi2]
      exact HashTable.contains_deleteKey _ _⟩

/-! ## The claims C16 and C17 -/

/-- Counterexample to C16: the READ transaction of `pendingRead` first receives the entry `"new"`
written at time 5, then the entry `"old"` written at time 3; the coordinator logs the READ
success with the value `"old"`, the value of the entry with the earlier write time stamp. -/
theorem read_quorum_logs_older_value :
    entryOld.timestamp < entryNew.timestamp ∧
      (checkMessages 1 pendingRead
        [readReplyMsg entryNew.convertToString, readReplyMsg entryOld.convertToString]).map
          (fun st => st.log) =
        some [.logReadSuccess ⟨10, 0⟩ true 1 keyK entryOld.value] := by
  decide

/-- C16 (amended): when a coordinator READ transaction reaches its success quorum on two
READREPLYs that carry entries, the value passed to the coordinator READ success log is the value
of the entry of the second reply, the one that completes the quorum, whatever the write time
stamps of the two entries; the record is removed. -/
theorem read_quorum_logs_last_reply (now : Int) (st : NodeState) (tid created : Int)
    (key : Str) (m1 m2 : Message) (e1 e2 : Entry)
    (hfresh : st.statusHT.read (to_string tid) =
      txRecord strREAD (to_string created) (to_string 0) (to_string 0) key [])
    (h1 : m1.type = .READREPLY ∧ m1.transID = tid) (h2 : m2.type = .READREPLY ∧ m2.transID = tid)
    (hv1 : Entry.fromString m1.value = some e1) (hv2 : Entry.fromString m2.value = some e2) :
    ∃ st1 k v rest, splitFields (key ++ sep ++ []) = k :: v :: rest ∧
      checkMessages now st [m1, m2] = some st1 ∧
      st1.log = st.log ++ [.logReadSuccess st.addr true tid k e2.value] ∧
      st1.statusHT.contains (to_string tid) = false :=
  readReply_two now st tid created key m1 m2 e1 e2 hfresh h1 h2 hv1 hv2

/-- Witness of C16 (amended): the READ transaction of `pendingRead` with the replies `"old"`
(written at time 3), then `"new"` (written at time 5). -/
theorem read_quorum_logs_last_reply_witness :
    ∃ st1 k v rest, splitFields (keyK ++ sep ++ []) = k :: v :: rest ∧
      checkMessages 1 pendingRead
        [readReplyMsg entryOld.convertToString, readReplyMsg entryNew.convertToString]
        = some st1 ∧
      st1.log = pendingRead.log ++ [.logReadSuccess pendingRead.addr true 1 k entryNew.value] ∧
      st1.statusHT.contains (to_string 1) = false :=
  read_quorum_logs_last_reply 1 pendingRead 1 0 keyK (readReplyMsg entryOld.convertToString)
    (readReplyMsg entryNew.convertToString) entryOld entryNew (by decide) ⟨rfl, rfl⟩ ⟨rfl, rfl⟩
    (by decide) (by decide)

/-- C17: on a strictly sorted ring of at least four peers, removing a peer that is not one of
`findNodes(k)` gives a ring on which `findNodes(k)` returns the same three peers in the same
order. -/
theorem findNodes_stable_under_removal (hashFunc : Str → Nat) (RING_SIZE : Nat)
    (ring : List Node) (key : Str) (j : Nat) (x : Node) (reps : List Node)
    (hn : 4 ≤ ring.length) (hsorted : StrictRing ring) (hj : ring[j]? = some x)
    (hreps : findNodes hashFunc RING_SIZE ring key = some reps) (hx : x ∉ reps) :
    findNodes hashFunc RING_SIZE (ring.eraseIdx j) key = some reps :=
  findNodes_eraseIdx hashFunc RING_SIZE ring key j x reps hn hsorted hj hreps hx

/-- Witness of C17: on `ring5` a key at position 45 has the replicas `50, 10, 20`; the peer `30`
at index 2 is removed. -/
theorem findNodes_stable_under_removal_witness :
    findNodes (fun _ => 45) 512 (ring5.eraseIdx 2) keyK = some [peer 50, peer 10, peer 20] :=
  findNodes_stable_under_removal (fun _ => 45) 512 ring5 keyK 2 (peer 30)
    [peer 50, peer 10, peer 20] (by decide) (by decide) (by decide) (by decide) (by decide)

/-! ## The READREPLY handler on the parsed fields -/

/-- C19 (failing input): with TIME_OUT = 10, the sweep at time 100 logs the timed-out READ
transaction of `pendingRead` with the whole record string `READ::0::0::0::k::` in the place of
the key, where the quorum-failure path (two empty READREPLYs) logs the key `k`; for the timed-out
UPDATE transaction of `pendingUpdate` it logs the record string `UPDATE::0::0::0::k::v` in the
place of the key, where the quorum-failure path (two failed REPLYs) logs the key `k`. -/
theorem sweep_logs_record_as_key :
    (timeoutSweep 10 100 pendingRead).map (fun st => st.log) =
        some [.logReadFail ⟨10, 0⟩ true 1
          (txRecord strREAD (to_string 0) (to_string 0) (to_string 0) keyK [])] ∧
      (checkMessages 1 pendingRead [readReplyMsg [], readReplyMsg []]).map (fun st => st.log) =
        some [.logReadFail ⟨10, 0⟩ true 1 keyK] ∧
      (timeoutSweep 10 100 pendingUpdate).map (fun st => st.log) =
        some [.logUpdateFail ⟨10, 0⟩ true 1
          (txRecord strUPDATE (to_string 0) (to_string 0) (to_string 0) keyK valV) valV] ∧
      (checkMessages 1 pendingUpdate [replyMsg false, replyMsg false]).map (fun st => st.log) =
        some [.logUpdateFail ⟨10, 0⟩ true 1 keyK valV] := by
  decide

theorem list_length_two (l : List Node) (h : l.length = 2) : ∃ a b, l = [a, b] := by
  match l, h with
  | [a, b], _ => exact ⟨a, b, rfl⟩

/-- C20: for every ring that contains the local node, every ring index that `findNeighbors`
computes, the `int` expressions converted to the unsigned 64-bit type, is smaller than the ring
size at every position; `findNeighbors` returns, `hasMyReplicas` and `haveReplicasOf` hold exactly
two peers each afterwards, and every `at` access of `stabilizationProtocol` succeeds: each
`switch` case returns, and so does the whole protocol on a store of serialised entries. -/
theorem findNeighbors_in_bounds (st : NodeState)
    (hmem : ∃ nd ∈ st.ring, nd.nodeAddress = st.addr) :
    (∀ i : Nat, toSizeT ((i : Int) + 1) % st.ring.length < st.ring.length ∧
        toSizeT ((i : Int) + 2) % st.ring.length < st.ring.length ∧
        toSizeT ((i : Int) - 1) % st.ring.length < st.ring.length ∧
        toSizeT ((i : Int) - 2) % st.ring.length < st.ring.length) ∧
      ∃ st1 a b c d, findNeighbors st = some st1 ∧ st1.hasMyReplicas = [a, b] ∧
        st1.haveReplicasOf = [c, d] ∧
        (∀ key en, ∃ st2, stabilizationSend st1 key en = some st2) ∧
        (SerialisedStore st → ∃ st2, stabilizationProtocol st = some st2) := by
  have hne : st.ring ≠ [] := by
    obtain ⟨nd, hnd, _⟩ := hmem
    exact List.ne_nil_of_mem hnd
  have hpos : 0 < st.ring.length := List.length_pos.2 hne
  refine ⟨fun i => ⟨Nat.mod_lt _ hpos, Nat.mod_lt _ hpos, Nat.mod_lt _ hpos,
    Nat.mod_lt _ hpos⟩, ?_⟩
  obtain ⟨st1, h1, h2⟩ := findNeighborsLoop_total st.ring hne st.ring 0 st
  obtain ⟨hl1, hl2⟩ := h2 (Or.inr hmem)
  obtain ⟨a, b, hab⟩ := list_length_two _ hl1
  obtain ⟨c, d, hcd⟩ := list_length_two _ hl2
  refine ⟨st1, a, b, c, d, h1, hab, hcd, fun key en => ⟨_, stabilizationSend_eq st1 a b c d key en hab hcd⟩, ?_⟩
  intro hstore
  obtain ⟨entries, he⟩ := serialisedStore_entries _ hstore
  exact ⟨_, stabilizationProtocol_eq st st1 entries a b c d he h1 hab hcd⟩

/-- Witness of C20: the node `10` at position 0 of `ring3`. -/
theorem findNeighbors_in_bounds_witness :
    ∃ st1 a b c d, findNeighbors (freshNode 10 ring3) = some st1 ∧
      st1.hasMyReplicas = [a, b] ∧ st1.haveReplicasOf = [c, d] ∧
      (∀ key en, ∃ st2, stabilizationSend st1 key en = some st2) ∧
      (SerialisedStore (freshNode 10 ring3) →
        ∃ st2, stabilizationProtocol (freshNode 10 ring3) = some st2) :=
  (findNeighbors_in_bounds (freshNode 10 ring3) ⟨peer 10, by decide, rfl⟩).2

/-! ## The round trip of key and value through the transaction record -/

theorem containsSep_cons (c : Char) (r : Str)
    (hne : ∀ rest, c = ':' → r = ':' :: rest → False) :
    containsSep (c :: r) = containsSep r := by
  by_cases hc : c = ':'
  · subst hc
    cases r with
    | nil => rfl
    | cons d r' =>
      by_cases hd : d = ':'
      · exact absurd (by rw [hd]) (fun h => hne r' rfl h)
      · simp [containsSep, hd]
  · cases r with
    | nil => simp [containsSep]
    | cons d r' => simp [containsSep, hc]

theorem containsSep_tail (c : Char) (r : Str) (h : containsSep (c :: r) = false) :
    (∀ rest, c = ':' → r = ':' :: rest → False) ∧ containsSep r = false := by
  have hne : ∀ rest, c = ':' → r = ':' :: rest → False := by
    intro rest hc hr
    subst hc hr
    simp [containsSep] at h
  exact ⟨hne, by rw [← containsSep_cons c r hne]; exact h⟩

theorem splitFields_of_not_containsSep (s : Str) (h : containsSep s = false) :
    splitFields s = [s] := by
  induction s with
  | nil => rfl
  | cons c r ih =>
    obtain ⟨hne, hr⟩ := containsSep_tail c r h
    exact splitFields_cons_eq c r r [] hne (ih hr)

theorem RoundTripKey.tail (c : Char) (r : Str) (h : RoundTripKey (c :: r)) :
    RoundTripKey r := by
  obtain ⟨h1, h2⟩ := h
  refine ⟨(containsSep_tail c r h1).2, ?_⟩
  cases r with
  | nil => simp
  | cons d r' => simpa [List.getLast?_cons_cons] using h2

theorem splitFields_roundTripKey_append (key : Str) (hkey : RoundTripKey key) (x : Str) :
    splitFields (key ++ sep ++ x) = key :: splitFields x := by
  induction key with
  | nil => exact splitFields_sep x
  | cons c r ih =>
    have ihr := ih (RoundTripKey.tail c r hkey)
    obtain ⟨h1, h2⟩ := hkey
    obtain ⟨hne, _⟩ := containsSep_tail c r h1
    refine splitFields_cons_eq c (r ++ sep ++ x) r (splitFields x) ?_ ihr
    intro rest hc hr
    cases r with
    | nil => subst hc; simp at h2
    | cons d r' =>
      simp only [List.cons_append, List.cons.injEq] at hr
      exact hne r' hc (by rw [hr.1])

theorem splitFields_key_value (key value : Str) (hkey : RoundTripKey key)
    (hval : RoundTripValue value) : splitFields (key ++ sep ++ value) = [key, value] := by
  rw [splitFields_roundTripKey_append key hkey, splitFields_of_not_containsSep value hval]

theorem splitFields_txRecord_roundTrip (kind ts : Str) (s f : Int) (key value : Str)
    (hk : ∀ c ∈ kind, c ≠ ':') (hts : ∀ c ∈ ts, c ≠ ':')
    (hkey : RoundTripKey key) (hval : RoundTripValue value) :
    splitFields (txRecord kind ts (to_string s) (to_string f) key value) =
      [kind, ts, to_string s, to_string f, key, value] := by
  rw [splitFields_txRecord _ _ _ _ _ _ hk hts (to_string_noColon s) (to_string_noColon f),
    splitFields_key_value key value hkey hval]

theorem handleReply_roundTrip (st : NodeState) (mesg : Message) (kind ts : Str) (s f : Int)
    (key value : Str) (hk : ∀ c ∈ kind, c ≠ ':') (hts : ∀ c ∈ ts, c ≠ ':')
    (hkey : RoundTripKey key) (hval : RoundTripValue value)
    (hread : st.statusHT.read (to_string mesg.transID) =
      txRecord kind ts (to_string s) (to_string f) key value) :
    handleReply st mesg = some (replyOutcome st mesg kind ts s f key value) := by
  obtain ⟨k, v, rest, hsplit, hh⟩ := handleReply_record st mesg kind ts s f key value hk hts hread
  rw [splitFields_key_value key value hkey hval] at hsplit
  simp only [List.cons.injEq] at hsplit
  rw [hh, ← hsplit.1, ← hsplit.2.1]

theorem reply_step_open_roundTrip (now : Int) (st : NodeState) (mesg : Message) (tid : Int)
    (kind ts : Str) (s f : Int) (key value : Str) (bs : Bool)
    (hk : ∀ c ∈ kind, c ≠ ':') (hts : ∀ c ∈ ts, c ≠ ':')
    (hkey : RoundTripKey key) (hval : RoundTripValue value)
    (hty : mesg.type = .REPLY) (hid : mesg.transID = tid) (hb : mesg.success = bs)
    (hread : st.statusHT.read (to_string tid) =
      txRecord kind ts (to_string s) (to_string f) key value)
    (hs : (if bs then s + 1 else s) ≠ 2) (hf : (if bs then f else f + 1) ≠ 2) :
    ∃ st1, handleMessage now st mesg = some st1 ∧ st1.log = st.log ∧ st1.addr = st.addr ∧
      st1.statusHT.read (to_string tid) =
        txRecord kind ts (to_string (if bs then s + 1 else s))
          (to_string (if bs then f else f + 1)) key value := by
  subst hid hb
  have hh := handleReply_roundTrip st mesg kind ts s f key value hk hts hkey hval hread
  have hc := st.statusHT.contains_of_read_ne_nil _ (by rw [hread]; exact txRecord_ne_nil _ _ _ _ _ _)
  obtain ⟨o1, o2, o3⟩ := replyOutcome_open st mesg kind ts s f key value hc hs hf
  exact ⟨_, by simp only [handleMessage, hty, hh], o1, o2, o3⟩

theorem reply_step_close_roundTrip (now : Int) (st : NodeState) (mesg : Message) (tid : Int)
    (kind ts : Str) (s f : Int) (key value : Str) (bs ok : Bool)
    (hk : kind = strCREATE ∨ kind = strUPDATE ∨ kind = strDELETE) (hts : ∀ c ∈ ts, c ≠ ':')
    (hkey : RoundTripKey key) (hval : RoundTripValue value)
    (hty : mesg.type = .REPLY) (hid : mesg.transID = tid) (hb : mesg.success = bs)
    (hread : st.statusHT.read (to_string tid) =
      txRecord kind ts (to_string s) (to_string f) key value)
    (h2 : (ok = true ∧ (if bs then s + 1 else s) = 2) ∨
      (ok = false ∧ (if bs then s + 1 else s) ≠ 2 ∧ (if bs then f else f + 1) = 2)) :
    ∃ st1, handleMessage now st mesg = some st1 ∧
      st1.log = st.log ++ [coordinatorOutcome kind ok st.addr tid key value] ∧
      st1.addr = st.addr ∧ st1.statusHT.contains (to_string tid) = false := by
  subst hid hb
  have hk4 : kind = strCREATE ∨ kind = strREAD ∨ kind = strUPDATE ∨ kind = strDELETE := by
    tauto
  have hh := handleReply_roundTrip st mesg kind ts s f key value (kind_noColon kind hk4) hts
    hkey hval hread
  obtain ⟨o1, o2, o3⟩ := replyOutcome_close st mesg kind ts s f key value hk ok h2
  exact ⟨_, by simp only [handleMessage, hty, hh], o1, o2, o3⟩

theorem reply_three_roundTrip (now : Int) (st : NodeState) (tid created : Int)
    (kind key value : Str) (m1 m2 m3 : Message)
    (hkind : kind = strCREATE ∨ kind = strUPDATE ∨ kind = strDELETE)
    (hkey : RoundTripKey key) (hval : RoundTripValue value)
    (hfresh : st.statusHT.read (to_string tid) =
      txRecord kind (to_string created) (to_string 0) (to_string 0) key value)
    (h1 : m1.type = .REPLY ∧ m1.transID = tid) (h2 : m2.type = .REPLY ∧ m2.transID = tid)
    (h3 : m3.type = .REPLY ∧ m3.transID = tid) :
    ∃ st1, checkMessages now st [m1, m2, m3] = some st1 ∧
      st1.log = st.log ++ [coordinatorOutcome kind
        (atLeastTwo m1.success m2.success m3.success) st.addr tid key value] ∧
      st1.statusHT.contains (to_string tid) = false := by
  have hk4 : kind = strCREATE ∨ kind = strREAD ∨ kind = strUPDATE ∨ kind = strDELETE := by
    tauto
  have hkc := kind_noColon kind hk4
  have htc := to_string_noColon created
  obtain ⟨sa, ha, hla, haa, hra⟩ :=
    reply_step_open_roundTrip now st m1 tid kind _ 0 0 key value m1.success hkc htc hkey hval
      h1.1 h1.2 rfl hfresh
      (by cases m1.success <;> decide) (by cases m1.success <;> decide)
  by_cases hsame : m2.success = m1.success
  · -- the second reply completes the quorum, the third finds no record
    obtain ⟨sb, hb, hlb, hab, hcb⟩ :=
      reply_step_close_roundTrip now sa m2 tid kind _ _ _ key value m2.success m1.success hkind
        htc hkey hval h2.1 h2.2 rfl hra (by rw [hsame]; cases m1.success <;> decide)
    have hc := reply_step_absent now sb m3 (Or.inl h3.1) (by rw [h3.2]; exact hcb)
    refine ⟨sb, ?_, ?_, hcb⟩
    · simp [checkMessages, ha, hb, hc]
    · rw [hlb, hla, haa, hsame]
      cases m1.success <;> cases m3.success <;> rfl
  · obtain ⟨sb, hb, hlb, hab, hrb⟩ :=
      reply_step_open_roundTrip now sa m2 tid kind _ _ _ key value m2.success hkc htc hkey hval
        h2.1 h2.2 rfl hra
        (by revert hsame; cases m1.success <;> cases m2.success <;> decide)
        (by revert hsame; cases m1.success <;> cases m2.success <;> decide)
    obtain ⟨sc, hc, hlc, hac, hcc⟩ :=
      reply_step_close_roundTrip now sb m3 tid kind _ _ _ key value m3.success m3.success hkind
        htc hkey hval h3.1 h3.2 rfl hrb
        (by revert hsame; cases m1.success <;> cases m2.success <;> cases m3.success <;> decide)
    refine ⟨sc, ?_, ?_, hcc⟩
    · simp [checkMessages, ha, hb, hc]
    · rw [hlc, hlb, hla, hab, haa]
      revert hsame
      cases m1.success <;> cases m2.success <;> cases m3.success <;> simp [atLeastTwo]

theorem splitFields_head_field (s : Str) : ∀ (f : Str) (fs : List Str),
    splitFields s = f :: fs →
    containsSep f = false ∧ ((fs = [] ∧ s = f) ∨
      (f.getLast? ≠ some ':' ∧ ∃ s1, s = f ++ sep ++ s1 ∧ splitFields s1 = fs)) := by
  induction s with
  | nil =>
    intro f fs h
    simp only [splitFields, List.cons.injEq] at h
    obtain ⟨h1, h2⟩ := h
    subst h1 h2
    exact ⟨rfl, Or.inl ⟨rfl, rfl⟩⟩
  | cons c r ih =>
    intro f fs h
    by_cases hsep : ∃ rest, c = ':' ∧ r = ':' :: rest
    · obtain ⟨rest, hc, hr⟩ := hsep
      subst hc hr
      simp only [splitFields, List.cons.injEq] at h
      obtain ⟨h1, h2⟩ := h
      subst h1
      exact ⟨rfl, Or.inr ⟨by simp, rest, rfl, h2⟩⟩
    · have hne : ∀ rest, c = ':' → r = ':' :: rest → False :=
        fun rest hc hr => hsep ⟨rest, hc, hr⟩
      obtain ⟨f1, fs1, hr⟩ : ∃ f1 fs1, splitFields r = f1 :: fs1 := by
        cases hs : splitFields r with
        | nil => exact absurd hs (splitFields_ne_nil r)
        | cons a b => exact ⟨a, b, rfl⟩
      rw [splitFields_cons_eq c r f1 fs1 hne hr] at h
      simp only [List.cons.injEq] at h
      obtain ⟨h1, h2⟩ := h
      subst h1 h2
      obtain ⟨i1, i2⟩ := ih f1 fs1 hr
      have hpre : ∀ rest, f1 = ':' :: rest → ∃ rest1, r = ':' :: rest1 := by
        intro rest hf
        rcases i2 with ⟨_, h⟩ | ⟨_, s1, h, _⟩
        · exact ⟨rest, by rw [h, hf]⟩
        · exact ⟨rest ++ sep ++ s1, by rw [h, hf]; rfl⟩
      refine ⟨?_, ?_⟩
      · rw [containsSep_cons c f1 ?_]
        · exact i1
        · intro rest hc hf
          obtain ⟨rest1, h⟩ := hpre rest hf
          exact hne rest1 hc h
      · rcases i2 with ⟨h1, h2⟩ | ⟨h1, s1, h2, h3⟩
        · exact Or.inl ⟨h1, by rw [h2]⟩
        · refine Or.inr ⟨?_, s1, by rw [h2]; rfl, h3⟩
          cases f1 with
          | nil =>
            intro hl
            simp only [List.getLast?_singleton, Option.some.injEq] at hl
            exact hne (':' :: s1) hl (by rw [h2]; rfl)
          | cons d f2 => simpa [List.getLast?_cons_cons] using h1

theorem roundTrip_of_fields (key value : Str) (rest : List Str)
    (h : splitFields (key ++ sep ++ value) = key :: value :: rest) :
    RoundTripKey key ∧ RoundTripValue value := by
  obtain ⟨h1, h2⟩ := splitFields_head_field _ key _ h
  rcases h2 with ⟨h3, _⟩ | ⟨h3, s1, h4, h5⟩
  · exact absurd h3 (by simp)
  · have hv : value = s1 := by
      rw [List.append_assoc, List.append_assoc] at h4
      exact List.append_cancel_left (List.append_cancel_left h4)
    subst hv
    exact ⟨⟨h1, h3⟩, (splitFields_head_field _ value rest h5).1⟩

theorem roundTrip_iff (kind ts sc fc key value : Str)
    (hk : ∀ c ∈ kind, c ≠ ':') (ht : ∀ c ∈ ts, c ≠ ':') (hs : ∀ c ∈ sc, c ≠ ':')
    (hf : ∀ c ∈ fc, c ≠ ':') :
    (∃ rest, splitFields (txRecord kind ts sc fc key value) =
      kind :: ts :: sc :: fc :: key :: value :: rest) ↔
      (RoundTripKey key ∧ RoundTripValue value) := by
  rw [splitFields_txRecord _ _ _ _ _ _ hk ht hs hf]
  constructor
  · rintro ⟨rest, h⟩
    simp only [List.cons.injEq, true_and] at h
    exact roundTrip_of_fields key value rest h
  · rintro ⟨h1, h2⟩
    exact ⟨[], by rw [splitFields_key_value key value h1 h2]⟩

theorem clientCreate_roundTrip (hashFunc : Str → Nat) (RING_SIZE : Nat) (now : Int)
    (st : NodeState) (key value : Str) (replicas : List Node)
    (hkey : RoundTripKey key) (hval : RoundTripValue value)
    (hfree : st.statusHT.contains (to_string (st.g_transID + 1)) = false)
    (hfn : findNodes hashFunc RING_SIZE st.ring key = some replicas) :
    ∃ st0, clientCreate hashFunc RING_SIZE now st key value = some st0 ∧
      st0.statusHT.read (to_string (st.g_transID + 1)) =
        txRecord strCREATE (to_string now) (to_string 0) (to_string 0) key value ∧
      splitFields (txRecord strCREATE (to_string now) (to_string 0) (to_string 0) key value) =
        [strCREATE, to_string now, to_string 0, to_string 0, key, value] ∧
      ∀ (later : Int) (m1 m2 m3 : Message),
        m1.type = .REPLY ∧ m1.transID = st.g_transID + 1 →
        m2.type = .REPLY ∧ m2.transID = st.g_transID + 1 →
        m3.type = .REPLY ∧ m3.transID = st.g_transID + 1 →
        ∃ st1, checkMessages later st0 [m1, m2, m3] = some st1 ∧
          st1.log = st.log ++
            [if atLeastTwo m1.success m2.success m3.success
              then LogCall.logCreateSuccess st.addr true (st.g_transID + 1) key value
              else LogCall.logCreateFail st.addr true (st.g_transID + 1) key value] := by
  have hread := HashTable.read_create_self st.statusHT (to_string (st.g_transID + 1))
    (txRecord strCREATE (to_string now) (to_string 0) (to_string 0) key value) hfree
  refine ⟨_, clientCreate_eq _ _ now st key value replicas hfn, hread,
    splitFields_txRecord_roundTrip _ _ 0 0 key value
      (kind_noColon _ (Or.inl rfl)) (to_string_noColon now) hkey hval, ?_⟩
  intro later m1 m2 m3 h1 h2 h3
  obtain ⟨st1, hc, hl, _⟩ := reply_three_roundTrip later
    { st with
      g_transID := st.g_transID + 1
      sent := st.sent ++ fanOut (fun i => Message.ofKeyValue (st.g_transID + 1) st.addr .CREATE
        key value (ReplicaType.ofIndex i)) replicas
      statusHT := (st.statusHT.create (to_string (st.g_transID + 1))
        (txRecord strCREATE (to_string now) (to_string 0) (to_string 0) key value)).2 }
    (st.g_transID + 1) now strCREATE key value m1 m2 m3 (Or.inl rfl) hkey hval hread h1 h2 h3
  refine ⟨st1, hc, ?_⟩
  rw [hl]
  simp [coordinatorOutcome]

theorem reply_nonfinal_roundTrip (now : Int) (st : NodeState) (mesg : Message)
    (created s f : Int) (key value : Str)
    (hkey : RoundTripKey key) (hval : RoundTripValue value)
    (hty : mesg.type = .REPLY)
    (hread : st.statusHT.read (to_string mesg.transID) =
      txRecord strCREATE (to_string created) (to_string s) (to_string f) key value)
    (hs : (if mesg.success then s + 1 else s) ≠ 2)
    (hf : (if mesg.success then f else f + 1) ≠ 2) :
    ∃ st1, handleMessage now st mesg = some st1 ∧ st1.log = st.log ∧
      st1.statusHT.read (to_string mesg.transID) =
        txRecord strCREATE (to_string created) (to_string (if mesg.success then s + 1 else s))
          (to_string (if mesg.success then f else f + 1)) key value ∧
      splitFields (st1.statusHT.read (to_string mesg.transID)) =
        [strCREATE, to_string created, to_string (if mesg.success then s + 1 else s),
          to_string (if mesg.success then f else f + 1), key, value] := by
  obtain ⟨st1, h1, h2, _, h4⟩ := reply_step_open_roundTrip now st mesg mesg.transID strCREATE
    (to_string created) s f key value mesg.success (kind_noColon _ (Or.inl rfl))
    (to_string_noColon created) hkey hval hty rfl rfl hread hs hf
  refine ⟨st1, h1, h2, h4, ?_⟩
  rw [h4]
  exact splitFields_txRecord_roundTrip _ _ _ _ key value (kind_noColon _ (Or.inl rfl))
    (to_string_noColon created) hkey hval

/-! ## The claim C21 -/

/-- C21 (counterexample): `clientCreate("a::b", "v")` at time 0 registers the record
`CREATE::0::0::0::a::b::v`; the split of the REPLY handler gives the seven fields `CREATE`, `0`,
`0`, `0`, `a`, `b`, `v`, so fields 4 and 5 are `a` and `b`. Three successful REPLYs make the
coordinator log a CREATE success with key `a` and value `b`, and after one successful REPLY the
record is rewritten to `CREATE::0::1::0::a::b`, which has lost the value `v`. A key that ends in a
colon (`"a:"` gives the fields `a` and `:v`) and a value that contains `"::"` (`"v::w"` gives
field 5 = `v`) fail in the same way. -/
theorem record_round_trip_counterexample :
    clientCreate (fun _ => 5) 512 0 (freshNode 10 ring5) keySep valV = some pendingCreateSep ∧
    pendingCreateSep.statusHT.read (to_string 1) =
      txRecord strCREATE (to_string 0) (to_string 0) (to_string 0) keySep valV ∧
    splitFields (txRecord strCREATE (to_string 0) (to_string 0) (to_string 0) keySep valV) =
      [strCREATE, ['0'], ['0'], ['0'], ['a'], ['b'], ['v']] ∧
    (checkMessages 1 pendingCreateSep [replyMsg true, replyMsg true, replyMsg true]).map
        (fun s => s.log) = some [LogCall.logCreateSuccess ⟨10, 0⟩ true 1 ['a'] ['b']] ∧
    (checkMessages 1 pendingCreateSep [replyMsg true]).map
        (fun s => s.statusHT.read (to_string 1)) =
      some (txRecord strCREATE ['0'] ['1'] ['0'] ['a'] ['b']) ∧
    splitFields (txRecord strCREATE (to_string 0) (to_string 0) (to_string 0) keyColon valV) =
      [strCREATE, ['0'], ['0'], ['0'], ['a'], [':', 'v']] ∧
    splitFields (txRecord strCREATE (to_string 0) (to_string 0) (to_string 0) keyK valSep) =
      [strCREATE, ['0'], ['0'], ['0'], ['k'], ['v'], ['w']] := by
  decide

/-- C21 (amended): for every key that contains no `"::"` and does not end in a colon and every
value that contains no `"::"`, `clientCreate` under a free transaction id registers the record
`"CREATE::" + now + "::0::0::" + key + "::" + value`; splitting it on `"::"` the way the REPLY
handler does yields exactly six fields, of which fields 4 and 5 are the key and the value; three
REPLYs for the transaction make the coordinator log one CREATE success (at least two successes)
or CREATE failure (otherwise) that carries exactly this key and value; and a REPLY that reaches
no quorum on a CREATE record of this key and value rewrites it to a record with the new counts
and the same key and value, which splits into the same fields 4 and 5. -/
theorem create_record_round_trip (hashFunc : Str → Nat) (RING_SIZE : Nat) (now : Int)
    (st : NodeState) (key value : Str) (replicas : List Node)
    (hkey : RoundTripKey key) (hval : RoundTripValue value)
    (hfree : st.statusHT.contains (to_string (st.g_transID + 1)) = false)
    (hfn : findNodes hashFunc RING_SIZE st.ring key = some replicas) :
    (∃ st0, clientCreate hashFunc RING_SIZE now st key value = some st0 ∧
      st0.statusHT.read (to_string (st.g_transID + 1)) =
        txRecord strCREATE (to_string now) (to_string 0) (to_string 0) key value ∧
      splitFields (txRecord strCREATE (to_string now) (to_string 0) (to_string 0) key value) =
        [strCREATE, to_string now, to_string 0, to_string 0, key, value] ∧
      ∀ (later : Int) (m1 m2 m3 : Message),
        m1.type = .REPLY ∧ m1.transID = st.g_transID + 1 →
        m2.type = .REPLY ∧ m2.transID = st.g_transID + 1 →
        m3.type = .REPLY ∧ m3.transID = st.g_transID + 1 →
        ∃ st1, checkMessages later st0 [m1, m2, m3] = some st1 ∧
          st1.log = st.log ++
            [if atLeastTwo m1.success m2.success m3.success
              then LogCall.logCreateSuccess st.addr true (st.g_transID + 1) key value
              else LogCall.logCreateFail st.addr true (st.g_transID + 1) key value]) ∧
    (∀ (later : Int) (st2 : NodeState) (mesg : Message) (s f : Int),
      mesg.type = .REPLY →
      st2.statusHT.read (to_string mesg.transID) =
        txRecord strCREATE (to_string now) (to_string s) (to_string f) key value →
      (if mesg.success then s + 1 else s) ≠ 2 →
      (if mesg.success then f else f + 1) ≠ 2 →
      ∃ st1, handleMessage later st2 mesg = some st1 ∧ st1.log = st2.log ∧
        st1.statusHT.read (to_string mesg.transID) =
          txRecord strCREATE (to_string now) (to_string (if mesg.success then s + 1 else s))
            (to_string (if mesg.success then f else f + 1)) key value ∧
        splitFields (st1.statusHT.read (to_string mesg.transID)) =
          [strCREATE, to_string now, to_string (if mesg.success then s + 1 else s),
            to_string (if mesg.success then f else f + 1), key, value]) :=
  ⟨clientCreate_roundTrip hashFunc RING_SIZE now st key value replicas hkey hval hfree hfn,
    fun later st2 mesg s f hty hread hs hf =>
      reply_nonfinal_roundTrip later st2 mesg now s f key value hkey hval hty hread hs hf⟩

/-- Witness of C21 (amended): `create("k", "v")` at the fresh node `10` of `ring5` at time 0,
whose replicas are the peers `10`, `20` and `30`; the last two conjuncts run the handler on the
registered record: success, failure, success logs the CREATE success with key `k` and value `v`,
and one failure rewrites the record to `CREATE::0::0::1::k::v`. -/
theorem create_record_round_trip_witness :
    RoundTripKey keyK ∧ RoundTripValue valV ∧
    (freshNode 10 ring5).statusHT.contains (to_string ((freshNode 10 ring5).g_transID + 1)) =
      false ∧
    findNodes (fun _ => 5) 512 (freshNode 10 ring5).ring keyK =
      some [peer 10, peer 20, peer 30] ∧
    (∃ st0, clientCreate (fun _ => 5) 512 0 (freshNode 10 ring5) keyK valV = some st0 ∧
      st0.statusHT.read (to_string ((freshNode 10 ring5).g_transID + 1)) =
        txRecord strCREATE (to_string 0) (to_string 0) (to_string 0) keyK valV ∧
      splitFields (txRecord strCREATE (to_string 0) (to_string 0) (to_string 0) keyK valV) =
        [strCREATE, to_string 0, to_string 0, to_string 0, keyK, valV] ∧
      ∀ (later : Int) (m1 m2 m3 : Message),
        m1.type = .REPLY ∧ m1.transID = (freshNode 10 ring5).g_transID + 1 →
        m2.type = .REPLY ∧ m2.transID = (freshNode 10 ring5).g_transID + 1 →
        m3.type = .REPLY ∧ m3.transID = (freshNode 10 ring5).g_transID + 1 →
        ∃ st1, checkMessages later st0 [m1, m2, m3] = some st1 ∧
          st1.log = (freshNode 10 ring5).log ++
            [if atLeastTwo m1.success m2.success m3.success
              then LogCall.logCreateSuccess (freshNode 10 ring5).addr true
                ((freshNode 10 ring5).g_transID + 1) keyK valV
              else LogCall.logCreateFail (freshNode 10 ring5).addr true
                ((freshNode 10 ring5).g_transID + 1) keyK valV]) ∧
    (∀ (later : Int) (st2 : NodeState) (mesg : Message) (s f : Int),
      mesg.type = .REPLY →
      st2.statusHT.read (to_string mesg.transID) =
        txRecord strCREATE (to_string 0) (to_string s) (to_string f) keyK valV →
      (if mesg.success then s + 1 else s) ≠ 2 →
      (if mesg.success then f else f + 1) ≠ 2 →
      ∃ st1, handleMessage later st2 mesg = some st1 ∧ st1.log = st2.log ∧
        st1.statusHT.read (to_string mesg.transID) =
          txRecord strCREATE (to_string 0) (to_string (if mesg.success then s + 1 else s))
            (to_string (if mesg.success then f else f + 1)) keyK valV ∧
        splitFields (st1.statusHT.read (to_string mesg.transID)) =
          [strCREATE, to_string 0, to_string (if mesg.success then s + 1 else s),
            to_string (if mesg.success then f else f + 1), keyK, valV]) ∧
    (checkMessages 1 pendingCreate [replyMsg true, replyMsg false, replyMsg true]).map
        (fun s => s.log) = some [LogCall.logCreateSuccess ⟨10, 0⟩ true 1 keyK valV] ∧
    (checkMessages 1 pendingCreate [replyMsg false]).map
        (fun s => s.statusHT.read (to_string 1)) =
      some (txRecord strCREATE (to_string 0) (to_string 0) (to_string 1) keyK valV) :=
  ⟨by decide, by decide, by decide, by decide,
    (create_record_round_trip (fun _ => 5) 512 0 (freshNode 10 ring5) keyK valV
      [peer 10, peer 20, peer 30] (by decide) (by decide) (by decide) (by decide)).1,
    (create_record_round_trip (fun _ => 5) 512 0 (freshNode 10 ring5) keyK valV
      [peer 10, peer 20, peer 30] (by decide) (by decide) (by decide) (by decide)).2,
    by decide, by decide⟩

/-! ## The claim C18 -/

end MP2Node
